import Mathlib

/-!
A shallow embedding of miniconf (`src/miniconf.h`), with proofs about it.

The development follows the header top-down: the `Value` container, the option
declaration, the `Config` state with its two ordered maps, the token classifier, the
coercion of a token to a typed `Value`, the two validators, `Config::parse`, and
`Value::print` with `Config::serialize`.

Conventions of the embedding.

* A C string (`const char*`) and a `std::string` are both a `List Char`; every `Char`
  stands for one `char`.  A C string is given by its characters before the terminating
  NUL; a `std::string` may hold NUL characters.
* A heap buffer (`char* _data`) is `Option (List Char)`: `none` is `nullptr`,
  `some bytes` is an allocated array holding `bytes`.
* `std::map<std::string, T>` is an association list kept in ascending key order; the
  operations below are `find`, `operator[]` followed by an assignment, `insert` and
  `erase`.
* `int` is an `Int` reduced to 32 bits two's complement wherever the program stores it.
* A `double` is carried as the natural number of its 64-bit pattern; the library
  conversions `sscanf("%lf")` and `snprintf("%f")` are parameters of the functions that
  call them.
* Output written to `stdout` is not part of the modelled state.
* Undefined behaviour of an accessor (reading through a null or too short buffer) is
  the result `none`.
-/

namespace Miniconf

/-- A C string or `std::string`. -/
abbrev Str := List Char

/-! ## Value -/

/-- The enum `Value::DataType`. -/
inductive DataType where
  | UNKNOWN
  | INT
  | NUMBER
  | BOOL
  | STRING
  deriving DecidableEq, Repr

/-- The class `Value`: discriminant, byte count and owned buffer. -/
structure Value where
  _type : DataType
  _size : Nat
  _data : Option (List Char)
  deriving DecidableEq, Repr

/-- The default constructor `Value::Value()`. -/
def Value.new : Value :=
  { _type := DataType.UNKNOWN, _size := 0, _data := none }

/-- The member `Value::moveData(src, size, type)`: the receiver takes over the buffer and
the caller's pointer `src` becomes null.  The pair is the receiver and the new `src`. -/
def Value.moveData (_self : Value) (src : Option (List Char)) (size : Nat) (type : DataType) :
    Value × Option (List Char) :=
  ({ _type := type, _size := size, _data := src }, none)

/-- The member `Value::copyData(src, size, type)`: a fresh array of `size` bytes receives
the first `size` bytes of `src` and is then moved into the receiver.  `memcpy` from a null
source is defined only for `size = 0`; it then yields the empty array, and the model
returns the empty array for a null source of any size. -/
def Value.copyData (self : Value) (src : Option (List Char)) (size : Nat) (type : DataType) :
    Value :=
  let newData : Option (List Char) := some ((src.getD []).take size)
  (self.moveData newData size type).1

/-- The copy constructor `Value::Value(const Value&)`. -/
def Value.copy (other : Value) : Value :=
  Value.new.copyData other._data other._size other._type

/-- The object representation of an `int`: four bytes, least significant first, of the
value reduced modulo `2^32`. -/
def intBytes (n : Int) : List Char :=
  let u : Nat := (n % 4294967296).toNat
  [Char.ofNat (u % 256), Char.ofNat (u / 256 % 256), Char.ofNat (u / 65536 % 256),
    Char.ofNat (u / 16777216 % 256)]

/-- The object representation of a `double` given by its 64-bit pattern: eight bytes,
least significant first. -/
def doubleBytes (bits : Nat) : List Char :=
  (List.range 8).map (fun i => Char.ofNat (bits / 256 ^ i % 256))

/-- The object representation of a `bool`: one byte, 1 or 0. -/
def boolBytes (b : Bool) : List Char :=
  [Char.ofNat (if b then 1 else 0)]

/-- The constructor `Value::Value(const int&)`. -/
def Value.ofInt (other : Int) : Value :=
  Value.new.copyData (some (intBytes other)) 4 DataType.INT

/-- The constructor `Value::Value(const double&)`, on the bit pattern of the argument. -/
def Value.ofDouble (bits : Nat) : Value :=
  Value.new.copyData (some (doubleBytes bits)) 8 DataType.NUMBER

/-- The constructor `Value::Value(const bool&)`. -/
def Value.ofBool (other : Bool) : Value :=
  Value.new.copyData (some (boolBytes other)) 1 DataType.BOOL

/-- The C function `strlen`.  A C string is the list of its characters before the
terminating NUL, so its length is the length of the list. -/
def strlen (s : Str) : Nat := s.length

/-- The constructor `Value::Value(const char*)`: `strlen(other) + 1` bytes, the text and
its terminating NUL. -/
def Value.ofCStr (other : Str) : Value :=
  Value.new.copyData (some (other ++ [Char.ofNat 0])) (strlen other + 1) DataType.STRING

/-- The constructor `Value::Value(const std::string&)`: `other.size() + 1` bytes of
`other.c_str()`. -/
def Value.ofString (other : Str) : Value :=
  Value.new.copyData (some (other ++ [Char.ofNat 0])) (other.length + 1) DataType.STRING

/-- The member `Value::type()`. -/
def Value.type (v : Value) : DataType := v._type

/-- The member `Value::isEmpty()`: `_data == nullptr || _type == DataType::UNKNOWN`. -/
def Value.isEmpty (v : Value) : Bool :=
  v._data.isNone || v._type == DataType.UNKNOWN

/-- The static member `Value::unknown()`. -/
def Value.unknown : Value := Value.new

/-- The member `Value::getBoolean()`: the first byte of the buffer read as a `bool`
(non-zero is true).  Reading through a null pointer or past the end of an empty array is
undefined: `none`. -/
def Value.getBoolean (v : Value) : Option Bool :=
  match v._data with
  | some (c :: _) => some (c != Char.ofNat 0)
  | _ => none

/-- The member `Value::getInt()`: the first four bytes of the buffer read as an `int`;
`none` when the buffer is null or shorter than four bytes. -/
def Value.getInt (v : Value) : Option Int :=
  match v._data with
  | some (b0 :: b1 :: b2 :: b3 :: _) =>
      let u : Nat := b0.toNat + 256 * b1.toNat + 65536 * b2.toNat + 16777216 * b3.toNat
      some (if u < 2147483648 then (u : Int) else (u : Int) - 4294967296)
  | _ => none

/-- The member `Value::getCharArray()`: the buffer itself. -/
def Value.getCharArray (v : Value) : Option (List Char) := v._data

/-- The member `Value::getString()`: the text of the buffer up to its first NUL; `none`
when the buffer is null or holds no NUL. -/
def Value.getString (v : Value) : Option Str :=
  match v._data with
  | some d => if d.contains (Char.ofNat 0) then some (d.takeWhile (fun c => c != Char.ofNat 0))
      else none
  | none => none

/-- The payload invariant of the data model: an allocated buffer holds exactly `_size`
bytes, and a typed `Value` holds at least one byte. -/
def Value.wf (v : Value) : Bool :=
  match v._data with
  | none => true
  | some d => d.length == v._size && (v._type == DataType.UNKNOWN || 0 < v._size)

/-! ## Ordered maps -/

/-- The ordering `std::string::operator<`: lexicographic on the character codes. -/
def strLt : Str → Str → Bool
  | [], [] => false
  | [], _ :: _ => true
  | _ :: _, [] => false
  | a :: s, b :: t => a.toNat < b.toNat || (a == b && strLt s t)

/-- A `std::map<std::string, β>`: the entries in ascending key order. -/
abbrev Map (β : Type) := List (Str × β)

/-- The member `std::map::find`: the mapped value of `k`, or `none` for `end()`. -/
def Map.find {β : Type} : Map β → Str → Option β
  | [], _ => none
  | (k', v) :: rest, k => if k' = k then some v else Map.find rest k

/-- The statement `m[k] = v`: the entry of `k` is overwritten, or created at its place
in key order. -/
def Map.assign {β : Type} : Map β → Str → β → Map β
  | [], k, v => [(k, v)]
  | (k', v') :: rest, k, v =>
      if k' = k then (k, v) :: rest
      else if strLt k k' then (k, v) :: (k', v') :: rest
      else (k', v') :: Map.assign rest k v

/-- The member `std::map::insert(std::make_pair(k, v))`: an existing entry is kept. -/
def Map.insert {β : Type} (m : Map β) (k : Str) (v : β) : Map β :=
  match Map.find m k with
  | some _ => m
  | none => Map.assign m k v

/-- The member `std::map::erase(k)`. -/
def Map.erase {β : Type} (m : Map β) (k : Str) : Map β :=
  m.filter (fun p => p.1 != k)

/-- The keys of a map, in iteration order. -/
def Map.keys {β : Type} (m : Map β) : List Str := m.map Prod.fst

/-- The representation invariant of `std::map`: the keys are strictly ascending. -/
def Map.WF {β : Type} (m : Map β) : Prop :=
  m.Pairwise (fun p q => strLt p.1 q.1 = true)

instance {β : Type} (m : Map β) : Decidable (Map.WF m) := by
  unfold Map.WF; infer_instance

/-! ## Option declarations -/

/-- The class `Config::Option`. -/
structure ConfigOption where
  _flag : Str
  _shortflag : Str
  _description : Str
  _defaultValue : Value
  _required : Bool
  deriving DecidableEq, Repr

/-- The constructor `Config::Option::Option()`. -/
def ConfigOption.new : ConfigOption :=
  { _flag := [], _shortflag := [], _description := [], _defaultValue := Value.unknown,
    _required := false }

/-- The copy constructor of `Config::Option`, member by member. -/
def ConfigOption.copy (o : ConfigOption) : ConfigOption :=
  { o with _defaultValue := o._defaultValue.copy }

/-- The setter `Config::Option::flag(const std::string&)`. -/
def ConfigOption.flag (o : ConfigOption) (flag : Str) : ConfigOption :=
  { o with _flag := flag }

/-- The setter `Config::Option::shortflag(const std::string&)`. -/
def ConfigOption.shortflag (o : ConfigOption) (shortflag : Str) : ConfigOption :=
  { o with _shortflag := shortflag }

/-- The setter `Config::Option::description(const std::string&)`. -/
def ConfigOption.description (o : ConfigOption) (description : Str) : ConfigOption :=
  { o with _description := description }

/-- The setter `Config::Option::defaultValue(const Value&)`: a copy assignment. -/
def ConfigOption.defaultValue (o : ConfigOption) (defaultValue : Value) : ConfigOption :=
  { o with _defaultValue := defaultValue.copy }

/-- The setter `Config::Option::required(const bool)`. -/
def ConfigOption.required (o : ConfigOption) (required : Bool) : ConfigOption :=
  { o with _required := required }

/-- The getter `Config::Option::defaultValue()`: returns a copy of the default. -/
def ConfigOption.getDefaultValue (o : ConfigOption) : Value := o._defaultValue.copy

/-- The getter `Config::Option::type()`: the kind of the default value. -/
def ConfigOption.type (o : ConfigOption) : DataType := o._defaultValue.type

/-! ## Config -/

/-- The enum `Config::LogLevel`, in declaration order. -/
inductive LogLevel where
  | INFO
  | WARNING
  | ERROR
  | NONE
  deriving DecidableEq, Repr

/-- The underlying value of a `LogLevel`; the enum is compared through it. -/
def LogLevel.toNat : LogLevel → Nat
  | LogLevel.INFO => 0
  | LogLevel.WARNING => 1
  | LogLevel.ERROR => 2
  | LogLevel.NONE => 3

/-- The enum `Config::TokenType`. -/
inductive TokenType where
  | UNKNOWN
  | FLAG
  | SHORTFLAG
  | VALUE
  deriving DecidableEq, Repr

/-- The data members of the class `Config`. -/
structure Config where
  _options : Map ConfigOption
  _optionValues : Map Value
  _log : List Str
  _verbose : Bool
  _logLevel : LogLevel
  _exeName : Str
  _description : Str
  _autoHelp : Bool
  deriving DecidableEq, Repr

/-- The tag of a log line: `"<<<%9s>>>"` applied to the name of the level.  The `switch`
leaves the tag unwritten for `NONE`, a level no caller passes. -/
def logTag : LogLevel → Str
  | LogLevel.INFO => "<<<     INFO>>>".toList
  | LogLevel.WARNING => "<<<  WARNING>>>".toList
  | LogLevel.ERROR => "<<<    ERROR>>>".toList
  | LogLevel.NONE => []

/-- The line that `Config::log(logType, token, msg)` builds. -/
def logString (logType : LogLevel) (token msg : Str) : Str :=
  logTag logType ++ " Input ".toList ++ [Char.ofNat 34] ++ token ++ [Char.ofNat 34]
    ++ " : ".toList ++ msg

/-- The member `Config::log(LogLevel logType, token, msg)`: nothing below the threshold,
otherwise the line is appended to `_log`. -/
def Config.log (cfg : Config) (logType : LogLevel) (token msg : Str) : Config :=
  if logType.toNat < cfg._logLevel.toNat then cfg
  else { cfg with _log := cfg._log ++ [logString logType token msg] }

/-- The member `Config::log(const LogLevel logType)`: sets the threshold. -/
def Config.logThreshold (cfg : Config) (logType : LogLevel) : Config :=
  { cfg with _logLevel := logType }

/-- The member `Config::verbose(bool)`. -/
def Config.verbose (cfg : Config) (value : Bool) : Config :=
  { cfg with _verbose := value }

/-- The member `Config::description(const std::string&)`. -/
def Config.description (cfg : Config) (desc : Str) : Config :=
  { cfg with _description := desc }

/-- The member `Config::option(flag)`: inserts `Option().flag(flag)` unless the key is
there; the reference it returns is the entry of `flag`. -/
def Config.option (cfg : Config) (flag : Str) : Config :=
  { cfg with _options := Map.insert cfg._options flag ((ConfigOption.new.flag flag).copy) }

/-- A chain of setters applied to the reference returned by `Config::option(flag)`. -/
def Config.modify (cfg : Config) (flag : Str) (f : ConfigOption → ConfigOption) : Config :=
  match Map.find cfg._options flag with
  | some o => { cfg with _options := Map.assign cfg._options flag (f o) }
  | none => cfg

/-- The member `Config::toggleAutoHelp(enabled)`. -/
def Config.toggleAutoHelp (cfg : Config) (enabled : Bool) : Config :=
  let cfg1 := { cfg with _autoHelp := enabled }
  if enabled && (Map.find cfg1._options "help".toList).isNone then
    (cfg1.option "help".toList).modify "help".toList (fun o =>
      (((o.shortflag "h".toList).defaultValue (Value.ofBool false)).description
        "Display the help message".toList).required false)
  else if (Map.find cfg1._options "help".toList).isSome then
    { cfg1 with _options := Map.erase cfg1._options "help".toList }
  else cfg1

/-- The constructor `Config::Config()`. -/
def Config.new : Config :=
  Config.toggleAutoHelp
    { _options := [], _optionValues := [], _log := [], _verbose := false,
      _logLevel := LogLevel.WARNING, _exeName := [], _description := [], _autoHelp := true }
    true

/-- The member `Config::contains(flag)`: a lookup in `_optionValues`. -/
def Config.contains (cfg : Config) (flag : Str) : Bool :=
  (Map.find cfg._optionValues flag).isSome

/-- The member `Config::setDefaultValues()`. -/
def Config.setDefaultValues (cfg : Config) : Config :=
  cfg._options.foldl
    (fun c o => { c with _optionValues := Map.assign c._optionValues o.1 o.2.getDefaultValue })
    cfg

/-! ## The C library: character classes, `strtod`, `sscanf` -/

/-- The C function `isspace` in the "C" locale. -/
def isspace (c : Char) : Bool :=
  c == ' ' || (9 ≤ c.toNat && c.toNat ≤ 13)

/-- The C function `isdigit`. -/
def isdigit (c : Char) : Bool :=
  48 ≤ c.toNat && c.toNat ≤ 57

/-- The C function `isxdigit`. -/
def isxdigit (c : Char) : Bool :=
  isdigit c || (97 ≤ c.toNat && c.toNat ≤ 102) || (65 ≤ c.toNat && c.toNat ≤ 70)

/-- The C function `tolower` in the "C" locale. -/
def tolower (c : Char) : Char :=
  if 65 ≤ c.toNat && c.toNat ≤ 90 then Char.ofNat (c.toNat + 32) else c

/-- The length of an optional sign. -/
def signLen (s : Str) : Nat :=
  match s with
  | c :: _ => if c == '+' || c == '-' then 1 else 0
  | [] => 0

/-- The length of the exponent part at the head of `s`: the marker (`e` or `p`, in either
case), an optional sign and a non-empty run of decimal digits; 0 when `s` does not start
with such a part. -/
def exponentLen (marker : Char) (s : Str) : Nat :=
  match s with
  | [] => 0
  | c :: t =>
      if tolower c == marker then
        let n := signLen t
        let ds := (t.drop n).takeWhile isdigit
        if ds.isEmpty then 0 else 1 + n + ds.length
      else 0

/-- The length of the longest mantissa at the head of `s`: a run of digits that may hold
one radix character `.` and holds at least one digit; 0 when there is none. -/
def mantissaLen (digit : Char → Bool) (s : Str) : Nat :=
  let ip := s.takeWhile digit
  match s.dropWhile digit with
  | c :: t =>
      if c == '.' then
        let fp := t.takeWhile digit
        if ip.isEmpty && fp.isEmpty then 0 else ip.length + 1 + fp.length
      else ip.length
  | [] => ip.length

/-- The length of the longest decimal floating-point literal at the head of `s`. -/
def decimalLen (s : Str) : Nat :=
  let m := mantissaLen isdigit s
  if m = 0 then 0 else m + exponentLen 'e' (s.drop m)

/-- The length of the longest hexadecimal floating-point literal at the head of `s`. -/
def hexLen (s : Str) : Nat :=
  match s with
  | z :: x :: t =>
      if z == '0' && tolower x == 'x' then
        let m := mantissaLen isxdigit t
        if m = 0 then 0 else 2 + m + exponentLen 'p' (t.drop m)
      else 0
  | _ => 0

/-- The length of `INF` or `INFINITY`, letter case ignored, at the head of `s`. -/
def infLen (s : Str) : Nat :=
  if (s.take 8).map tolower == "infinity".toList then 8
  else if (s.take 3).map tolower == "inf".toList then 3
  else 0

/-- A character of an n-char-sequence: a digit, a letter or the underscore. -/
def isnchar (c : Char) : Bool :=
  isdigit c || (97 ≤ c.toNat && c.toNat ≤ 122) || (65 ≤ c.toNat && c.toNat ≤ 90) || c == '_'

/-- The length of `NAN` or `NAN(n-char-sequence)`, letter case ignored, at the head of
`s`. -/
def nanLen (s : Str) : Nat :=
  if (s.take 3).map tolower == "nan".toList then
    match s.drop 3 with
    | c :: t =>
        if c == '(' then
          match t.dropWhile isnchar with
          | d :: _ => if d == ')' then 3 + 1 + (t.takeWhile isnchar).length + 1 else 3
          | [] => 3
        else 3
    | [] => 3
  else 0

/-- The length of the longest unsigned floating-point literal at the head of `s`, in the
forms `strtod` accepts after the sign (C11 7.22.1.3): hexadecimal, decimal, infinity,
NaN; 0 when `s` starts with none of them. -/
def floatLiteralLen (s : Str) : Nat :=
  if hexLen s ≠ 0 then hexLen s
  else if decimalLen s ≠ 0 then decimalLen s
  else if infLen s ≠ 0 then infLen s
  else nanLen s

/-- The C function `strtod(nptr, &endptr)`, as the offset `endptr - nptr`: white space,
an optional sign and the longest literal are consumed; when no conversion is performed
`endptr` is `nptr`. -/
def strtod_endptr (nptr : Str) : Nat :=
  let ws := (nptr.takeWhile isspace).length
  let s := nptr.drop ws
  let sg := signLen s
  let n := floatLiteralLen (s.drop sg)
  if n = 0 then 0 else ws + sg + n

/-- The value of a run of decimal digits. -/
def digitsValue (ds : List Char) : Nat :=
  ds.foldl (fun a c => 10 * a + (c.toNat - 48)) 0

/-- The conversion of a mathematical integer to `int`: reduction modulo `2^32` into the
two's complement range (the result of an out-of-range `%d` conversion is undefined in C;
the model wraps). -/
def wrapInt32 (z : Int) : Int :=
  (z + 2147483648) % 4294967296 - 2147483648

/-- The call `sscanf(token, "%d", &v)`: white space, an optional sign and a non-empty run
of decimal digits.  `some v` when the call returns 1, `none` otherwise. -/
def sscanf_d (token : Str) : Option Int :=
  let s := token.dropWhile isspace
  let n := signLen s
  let ds := (s.drop n).takeWhile isdigit
  if ds.isEmpty then none
  else if s.head? == some '-' then some (wrapInt32 (-(digitsValue ds : Int)))
  else some (wrapInt32 (digitsValue ds : Int))

/-- The call `sscanf(token, "%lf", &v)` of the C library: `some bits` when it returns 1
and stores the `double` with that bit pattern, `none` otherwise. -/
abbrev ScanLf := Str → Option Nat

/-! ## Classifier and resolution -/

/-- The member `Config::getTokenType(token)`.  The test `*endptr == 0 && endptr != token`
is on the offset of `endptr`. -/
def Config.getTokenType (token : Str) : TokenType :=
  let tlen := strlen token
  if tlen = 0 then TokenType.UNKNOWN
  else if token.head? == some '-' then
    let endptr := strtod_endptr token
    if endptr = token.length ∧ endptr ≠ 0 then TokenType.VALUE
    else if token.get? 1 == some '-' then TokenType.FLAG else TokenType.SHORTFLAG
  else TokenType.VALUE

/-- The member `Config::translateShortflag(shortflag)`: the key of the first option, in
key order, whose short alias is `shortflag`; `shortflag` itself when there is none. -/
def Config.translateShortflag (cfg : Config) (shortflag : Str) : Str :=
  match cfg._options.find? (fun p => p.2._shortflag == shortflag) with
  | some found => found.1
  | none => shortflag

/-- The member `Config::getOption(token, tokenType)`: `none` is `nullptr`. -/
def Config.getOption (cfg : Config) (token : Str) (tokenType : TokenType) :
    Option ConfigOption :=
  let flag : Str :=
    if tokenType = TokenType.FLAG then token.drop 2
    else if tokenType = TokenType.SHORTFLAG then cfg.translateShortflag (token.drop 1)
    else []
  if flag.isEmpty then none else Map.find cfg._options flag

/-- The member `Config::parseValue(token, dataType)`. -/
def Config.parseValue (lf : ScanLf) (token : Str) (dataType : DataType) : Value :=
  if dataType = DataType.INT then
    match sscanf_d token with
    | some v => Value.ofInt v
    | none => Value.unknown
  else if dataType = DataType.NUMBER then
    match lf token with
    | some v => Value.ofDouble v
    | none => Value.new
  else if dataType = DataType.BOOL then
    if token = "false".toList ∨ token = "False".toList ∨ token = "FALSE".toList
        ∨ token = "F".toList ∨ token = "f".toList then Value.ofBool false
    else Value.ofBool true
  else if dataType = DataType.STRING then Value.ofCStr token
  else Value.unknown

/-! ## Validators -/

/-- The function `worseLevel(a, b)`. -/
def worseLevel (a b : LogLevel) : LogLevel :=
  if a.toNat < b.toNat then b else a

/-- The body of the inner loop of `Config::checkFormat()`: option `o` against `opt2`. -/
def Config.checkDuplicate (o : ConfigOption) (a : LogLevel × Config)
    (opt2 : Str × ConfigOption) : LogLevel × Config :=
  let o2 := opt2.2
  if o._flag != o2._flag && o._shortflag == o2._shortflag && !o._shortflag.isEmpty then
    (worseLevel a.1 LogLevel.ERROR,
      a.2.log LogLevel.ERROR o._flag
        ("duplicate short flags (".toList ++ o2._shortflag ++ ")".toList))
  else a

/-- The body of the outer loop of `Config::checkFormat()`, with `opts` the registry. -/
def Config.checkOption (opts : Map ConfigOption) (acc : LogLevel × Config)
    (opt : Str × ConfigOption) : LogLevel × Config :=
  let o := opt.2
  let acc1 :=
    if !o._required && o.getDefaultValue.isEmpty then
      (worseLevel acc.1 LogLevel.ERROR,
        acc.2.log LogLevel.ERROR o._flag "default value is not defined".toList)
    else acc
  let acc2 := opts.foldl (Config.checkDuplicate o) acc1
  let acc3 :=
    if o._description.isEmpty then
      (worseLevel acc2.1 LogLevel.WARNING,
        acc2.2.log LogLevel.WARNING o._flag "no description text for argument".toList)
    else acc2
  if o._shortflag.isEmpty then
    (worseLevel acc3.1 LogLevel.WARNING,
      acc3.2.log LogLevel.WARNING o._flag "no short flag is provided".toList)
  else acc3

/-- The member `Config::checkFormat()`: the verdict and the state with its log lines. -/
def Config.checkFormat (cfg : Config) : LogLevel × Config :=
  let r := cfg._options.foldl (Config.checkOption cfg._options) (LogLevel.INFO, cfg)
  if cfg._description.isEmpty then
    (worseLevel r.1 LogLevel.WARNING,
      r.2.log LogLevel.WARNING [] "No program description text is provided".toList)
  else r

/-- The first loop body of `Config::validate()`. -/
def Config.validateValue (acc : LogLevel × Config) (val : Str × Value) : LogLevel × Config :=
  if val.2.isEmpty then
    (worseLevel acc.1 LogLevel.ERROR,
      acc.2.log LogLevel.ERROR val.1 "option contains invalid value".toList)
  else acc

/-- The second loop body of `Config::validate()`, with `vals` the result map. -/
def Config.validateOption (vals : Map Value) (acc : LogLevel × Config)
    (opt : Str × ConfigOption) : LogLevel × Config :=
  if (Map.find vals opt.1).isNone then
    (worseLevel acc.1 LogLevel.ERROR,
      acc.2.log LogLevel.ERROR opt.1 "option is undefined".toList)
  else acc

/-- The member `Config::validate()`: the verdict and the state with its log lines. -/
def Config.validate (cfg : Config) : LogLevel × Config :=
  let r := cfg._optionValues.foldl Config.validateValue (LogLevel.INFO, cfg)
  cfg._options.foldl (Config.validateOption cfg._optionValues) r

/-! ## Parsing -/

/-- The locals of the token loop of `Config::parse`: the object, the wildcard option and
`currentOption` (`none` is `nullptr`, `some o` points to an option whose members are
`o`). -/
structure ParseState where
  cfg : Config
  wildcard : ConfigOption
  currentOption : Option ConfigOption
  deriving DecidableEq, Repr

/-- One iteration of the token loop of `Config::parse`, on the token `argv[i]`. -/
def Config.parseToken (lf : ScanLf) (st : ParseState) (token : Str) : ParseState :=
  let currentTokenType := Config.getTokenType token
  if currentTokenType = TokenType.UNKNOWN then
    { st with cfg := st.cfg.log LogLevel.ERROR token "unknown input".toList }
  else if currentTokenType = TokenType.FLAG ∨ currentTokenType = TokenType.SHORTFLAG then
    let st1 : ParseState :=
      match st.cfg.getOption token currentTokenType with
      | some o => { st with currentOption := some o }
      | none =>
          let cfg1 := st.cfg.log LogLevel.WARNING token "unrecognized flag".toList
          if currentTokenType = TokenType.FLAG then
            let wildcard1 := st.wildcard.flag (token.drop 2)
            { cfg := cfg1, wildcard := wildcard1, currentOption := some wildcard1 }
          else { st with cfg := cfg1, currentOption := none }
    match st1.currentOption with
    | some o =>
        if o.type = DataType.BOOL then
          { st1 with cfg := { st1.cfg with
              _optionValues := Map.assign st1.cfg._optionValues o._flag (Value.ofBool true) } }
        else st1
    | none => st1
  else
    match st.currentOption with
    | some o =>
        let newValue := Config.parseValue lf token o.type
        let cfg1 :=
          if newValue.isEmpty then
            st.cfg.log LogLevel.WARNING token "unvalid value type is provided".toList
          else
            Config.log { st.cfg with
                _optionValues :=
                  Map.assign st.cfg._optionValues o._flag (Config.parseValue lf token o.type) }
              LogLevel.INFO token "value parsed successfully".toList
        { st with cfg := cfg1, currentOption := none }
    | none =>
        { st with cfg :=
            st.cfg.log LogLevel.WARNING token "unassociated argument is not stored".toList }

/-- The executable name: the part of `argv[0]` after its last slash or backslash. -/
def exeName (argv0 : Str) : Str :=
  (argv0.reverse.takeWhile (fun c => !(c == '/' || c == Char.ofNat 92))).reverse

/-- The wildcard option of `Config::parse`: `Option()` after `defaultValue("")`. -/
def wildcardOption : ConfigOption :=
  { ConfigOption.new with _defaultValue := Value.ofCStr [] }

/-- The member `Config::parse(argc, argv)` on the vector `argv` of `argc` strings: the
returned `bool` and the object after the call.  `none` is undefined behaviour: an empty
vector (`argv[0]` is read), or `getBoolean()` on a `help` entry without a byte to read. -/
def Config.parse (lf : ScanLf) (cfg : Config) (argv : List Str) : Option (Bool × Config) :=
  match argv with
  | [] => none
  | argv0 :: tokens =>
      let cfg0 := { cfg with _exeName := exeName argv0 }
      let checkFormatResult := cfg0.checkFormat
      if LogLevel.ERROR.toNat ≤ checkFormatResult.1.toNat
          ∧ checkFormatResult.2._logLevel.toNat ≤ LogLevel.ERROR.toNat then
        some (false, checkFormatResult.2)
      else
        let cfg1 := checkFormatResult.2.setDefaultValues
        let st := tokens.foldl (Config.parseToken lf)
          { cfg := cfg1, wildcard := wildcardOption, currentOption := none }
        let validateResult := st.cfg.validate
        if LogLevel.ERROR.toNat ≤ validateResult.1.toNat
            ∧ validateResult.2._logLevel.toNat ≤ LogLevel.ERROR.toNat then
          some (false, validateResult.2)
        else if validateResult.2.contains "help".toList then
          match Map.find validateResult.2._optionValues "help".toList with
          | some v =>
              match v.getBoolean with
              | some _ => some (true, validateResult.2)
              | none => none
          | none => none
        else some (true, validateResult.2)

/-! ## Projections used by the proofs

The log never feeds back into parsing.  The definitions below are the verdicts and the
map contents of the functions above with the log left out; the lemmas of the next part
show that they are projections of `checkFormat`, `validate`, `setDefaultValues` and
`parseToken`. -/

/-- The verdict part of `Config.checkDuplicate`. -/
def checkDuplicateLevel (o : ConfigOption) (a : LogLevel) (opt2 : Str × ConfigOption) :
    LogLevel :=
  if o._flag != opt2.2._flag && o._shortflag == opt2.2._shortflag && !o._shortflag.isEmpty then
    worseLevel a LogLevel.ERROR
  else a

/-- The verdict part of `Config.checkOption`. -/
def checkOptionLevel (opts : Map ConfigOption) (lv : LogLevel) (opt : Str × ConfigOption) :
    LogLevel :=
  let o := opt.2
  let lv1 :=
    if !o._required && o.getDefaultValue.isEmpty then worseLevel lv LogLevel.ERROR else lv
  let lv2 := opts.foldl (checkDuplicateLevel o) lv1
  let lv3 := if o._description.isEmpty then worseLevel lv2 LogLevel.WARNING else lv2
  if o._shortflag.isEmpty then worseLevel lv3 LogLevel.WARNING else lv3

/-- The verdict of `Config::checkFormat()` as a function of the registry and the program
description. -/
def checkFormatLevel (opts : Map ConfigOption) (desc : Str) : LogLevel :=
  let r := opts.foldl (checkOptionLevel opts) LogLevel.INFO
  if desc.isEmpty then worseLevel r LogLevel.WARNING else r

/-- The verdict part of `Config.validateValue`. -/
def validateValueLevel (lv : LogLevel) (val : Str × Value) : LogLevel :=
  if val.2.isEmpty then worseLevel lv LogLevel.ERROR else lv

/-- The verdict part of `Config.validateOption`. -/
def validateOptionLevel (vals : Map Value) (lv : LogLevel) (opt : Str × ConfigOption) :
    LogLevel :=
  if (Map.find vals opt.1).isNone then worseLevel lv LogLevel.ERROR else lv

/-- The verdict of `Config::validate()` as a function of the registry and the result
map. -/
def validateLevel (opts : Map ConfigOption) (vals : Map Value) : LogLevel :=
  opts.foldl (validateOptionLevel vals) (vals.foldl validateValueLevel LogLevel.INFO)

/-- Two objects that agree on every member but `_log`. -/
def Config.sameData (a b : Config) : Prop :=
  a._options = b._options ∧ a._optionValues = b._optionValues ∧ a._verbose = b._verbose
    ∧ a._logLevel = b._logLevel ∧ a._exeName = b._exeName
    ∧ a._description = b._description ∧ a._autoHelp = b._autoHelp

/-- The result map after `Config::setDefaultValues()`. -/
def seedDefaults (opts : Map ConfigOption) (vals : Map Value) : Map Value :=
  opts.foldl (fun m o => Map.assign m o.1 o.2.getDefaultValue) vals

/-- The part of the loop state that parsing depends on: the result map, the wildcard
option and `currentOption`. -/
structure ParseData where
  vals : Map Value
  wildcard : ConfigOption
  currentOption : Option ConfigOption
  deriving DecidableEq, Repr

/-- The projection of a loop state. -/
def ParseState.data (st : ParseState) : ParseData :=
  { vals := st.cfg._optionValues, wildcard := st.wildcard, currentOption := st.currentOption }

/-- The member `Config::getOption` as a function of the registry. -/
def getOptionIn (opts : Map ConfigOption) (token : Str) (tokenType : TokenType) :
    Option ConfigOption :=
  let flag : Str :=
    if tokenType = TokenType.FLAG then token.drop 2
    else if tokenType = TokenType.SHORTFLAG then
      match opts.find? (fun p => p.2._shortflag == token.drop 1) with
      | some found => found.1
      | none => token.drop 1
    else []
  if flag.isEmpty then none else Map.find opts flag

/-- One iteration of the token loop on the projection of the state. -/
def tokenData (lf : ScanLf) (opts : Map ConfigOption) (d : ParseData) (token : Str) :
    ParseData :=
  let currentTokenType := Config.getTokenType token
  if currentTokenType = TokenType.UNKNOWN then d
  else if currentTokenType = TokenType.FLAG ∨ currentTokenType = TokenType.SHORTFLAG then
    let d1 : ParseData :=
      match getOptionIn opts token currentTokenType with
      | some o => { d with currentOption := some o }
      | none =>
          if currentTokenType = TokenType.FLAG then
            { d with wildcard := d.wildcard.flag (token.drop 2),
                     currentOption := some (d.wildcard.flag (token.drop 2)) }
          else { d with currentOption := none }
    match d1.currentOption with
    | some o =>
        if o.type = DataType.BOOL then
          { d1 with vals := Map.assign d1.vals o._flag (Value.ofBool true) }
        else d1
    | none => d1
  else
    match d.currentOption with
    | some o =>
        if (Config.parseValue lf token o.type).isEmpty then { d with currentOption := none }
        else { d with vals := Map.assign d.vals o._flag (Config.parseValue lf token o.type),
                      currentOption := none }
    | none => d

/-- The result map, wildcard and bound option after the token loop of `Config::parse`
on the tokens `argv[1..]`, started from the seeded defaults. -/
def tokensData (lf : ScanLf) (opts : Map ConfigOption) (vals : Map Value)
    (tokens : List Str) : ParseData :=
  tokens.foldl (tokenData lf opts)
    { vals := seedDefaults opts vals, wildcard := wildcardOption, currentOption := none }


/-- The state of `Config::parse` after its token loop, when `checkFormat` did not abort
it: the executable name is set, `checkFormat` has logged, the defaults are seeded and the
tokens `argv[1..]` are consumed. -/
def Config.tokenLoop (lf : ScanLf) (cfg : Config) (argv0 : Str) (tokens : List Str) :
    ParseState :=
  tokens.foldl (Config.parseToken lf)
    { cfg := (Config.checkFormat { cfg with _exeName := exeName argv0 }).2.setDefaultValues,
      wildcard := wildcardOption, currentOption := none }

/-- The first gate of `Config::parse`: `checkFormat` returned ERROR or worse and the
threshold is ERROR or lower. -/
def Config.formatAbort (cfg : Config) : Prop :=
  LogLevel.ERROR.toNat ≤ (checkFormatLevel cfg._options cfg._description).toNat
    ∧ cfg._logLevel.toNat ≤ LogLevel.ERROR.toNat

instance (cfg : Config) : Decidable cfg.formatAbort := by
  unfold Config.formatAbort; infer_instance


/-- The decimal digit of a number below ten. -/
def digitChar (d : Nat) : Char :=
  match d with
  | 0 => '0'
  | 1 => '1'
  | 2 => '2'
  | 3 => '3'
  | 4 => '4'
  | 5 => '5'
  | 6 => '6'
  | 7 => '7'
  | 8 => '8'
  | _ => '9'

/-- The decimal digits of `n`, most significant first; `fuel` bounds their number. -/
def natDigits : Nat → Nat → List Char
  | 0, _ => []
  | fuel + 1, n =>
      if n < 10 then [digitChar n] else natDigits fuel (n / 10) ++ [digitChar (n % 10)]

/-- The text that `snprintf` writes for `"%d"`: an integer written in decimal. -/
def printInt (z : Int) : Str :=
  if z < 0 then '-' :: natDigits (z.natAbs + 1) z.natAbs
  else natDigits (z.toNat + 1) z.toNat

/-- The test of `Config::getTokenType` on a token `-r`, as a function of the remainder
`r`: the model of `strtod` consumes the whole token, that is, `r` is not empty and the
longest literal that `strtod` finds at the head of `r` is all of `r`. -/
def strtodTakesAll (r : Str) : Bool :=
  !r.isEmpty && floatLiteralLen r == r.length

/-! ### The floating-point literals of the specification

The classification table of the specification, section 4.4, speaks of a remainder that
"parses fully as a floating-point literal (no trailing characters)".  The literals are
those of the C grammar for the text of a floating-point number without its sign
(C11 7.22.1.3 and 6.4.4.2): a decimal or hexadecimal digit sequence with an optional
radix character and an optional exponent part, an infinity, or a NaN.  The definitions
below state this grammar by the shape of the text; they do not use the model of
`strtod`. -/

/-- A decimal digit of the grammar. -/
def isDecDigit (c : Char) : Prop := c ∈ "0123456789".toList

/-- A hexadecimal digit of the grammar. -/
def isHexDigit (c : Char) : Prop := c ∈ "0123456789abcdefABCDEF".toList

/-- A character of an n-char-sequence of the grammar: a digit, a letter or the
underscore. -/
def isNChar (c : Char) : Prop :=
  c ∈ "0123456789abcdefghijklmnopqrstuvwxyzABCDEFGHIJKLMNOPQRSTUVWXYZ_".toList

/-- A non-empty sequence of digits, optionally containing one radix character `.`; at
least one digit is present. -/
def isDigitSequence (digit : Char → Prop) (m : Str) : Prop :=
  (m ≠ [] ∧ ∀ c ∈ m, digit c)
    ∨ ∃ ip fp : Str, (∀ c ∈ ip, digit c) ∧ (∀ c ∈ fp, digit c) ∧ (ip ≠ [] ∨ fp ≠ [])
        ∧ m = ip ++ '.' :: fp

/-- An exponent part: the marker in either letter case, an optional sign and a non-empty
sequence of decimal digits. -/
def isExponentPart (lower upper : Char) (e : Str) : Prop :=
  ∃ (mk : Char) (sg ds : Str), (mk = lower ∨ mk = upper)
    ∧ (sg = [] ∨ sg = ['+'] ∨ sg = ['-']) ∧ ds ≠ [] ∧ (∀ c ∈ ds, isDecDigit c)
    ∧ e = mk :: (sg ++ ds)

/-- A decimal floating-point literal: a decimal digit sequence and an optional exponent
part marked `e` or `E`. -/
def isDecimalFloat (r : Str) : Prop :=
  ∃ m e : Str, isDigitSequence isDecDigit m ∧ (e = [] ∨ isExponentPart 'e' 'E' e)
    ∧ r = m ++ e

/-- A hexadecimal floating-point literal: `0x` or `0X`, a hexadecimal digit sequence and
an optional binary exponent part marked `p` or `P`. -/
def isHexFloat (r : Str) : Prop :=
  ∃ (x : Char) (m e : Str), (x = 'x' ∨ x = 'X') ∧ isDigitSequence isHexDigit m
    ∧ (e = [] ∨ isExponentPart 'p' 'P' e) ∧ r = '0' :: x :: (m ++ e)

/-- An infinity: `inf` or `infinity`, in any letter case. -/
def isInfinityLiteral (r : Str) : Prop :=
  r.map Char.toLower = "inf".toList ∨ r.map Char.toLower = "infinity".toList

/-- A NaN: `nan` in any letter case, optionally followed by an n-char-sequence between
parentheses. -/
def isNanLiteral (r : Str) : Prop :=
  r.map Char.toLower = "nan".toList
    ∨ ∃ w seq : Str, w.map Char.toLower = "nan".toList ∧ (∀ c ∈ seq, isNChar c)
        ∧ r = w ++ '(' :: (seq ++ [')'])

/-- A floating-point literal of the specification: the whole text is one literal of the
grammar. -/
def isFloatLiteral (r : Str) : Prop :=
  isDecimalFloat r ∨ isHexFloat r ∨ isInfinityLiteral r ∨ isNanLiteral r

/-- The classification table of the specification, section 4.4, row by row: the token
and the class that the table gives it.  "Any other token" of the last two rows is a token
that starts with `-` and whose remainder is not a floating-point literal. -/
inductive specClassifies : Str → TokenType → Prop where
  | empty : specClassifies [] TokenType.UNKNOWN
  | plain (c : Char) (r : Str) : c ≠ '-' → specClassifies (c :: r) TokenType.VALUE
  | number (r : Str) : isFloatLiteral r → specClassifies ('-' :: r) TokenType.VALUE
  | long (r : Str) : ¬ isFloatLiteral ('-' :: r) →
      specClassifies ('-' :: '-' :: r) TokenType.FLAG
  | short (r : Str) : ¬ isFloatLiteral r → r.head? ≠ some '-' →
      specClassifies ('-' :: r) TokenType.SHORTFLAG


/-- A decimal literal of the specification: digits with an optional fractional part. -/
def isDecimalLiteral (r : Str) : Prop :=
  ∃ ds fs : List Char, ds ≠ [] ∧ (∀ c ∈ ds, isdigit c = true) ∧ (∀ c ∈ fs, isdigit c = true)
    ∧ (r = ds ∨ (fs ≠ [] ∧ r = ds ++ '.' :: fs))


/-- The object of the specification's first parsing example: a fresh `Config` (with the
auto-registered `help`) after
`option("count").shortflag("c").defaultValue(0)` and
`option("verbose").shortflag("v").defaultValue(false)`. -/
def countVerboseConfig : Config :=
  ((Config.new.option "count".toList).modify "count".toList
      (fun o => (o.shortflag "c".toList).defaultValue (Value.ofInt 0))
    |>.option "verbose".toList).modify "verbose".toList
      (fun o => (o.shortflag "v".toList).defaultValue (Value.ofBool false))


/-- The member `Config::operator[](flag)`: the entry of `flag`, created as an empty
`Value` when it is absent; the pair is the entry and the object after the call. -/
def Config.index (cfg : Config) (flag : Str) : Value × Config :=
  match Map.find cfg._optionValues flag with
  | some v => (v, cfg)
  | none =>
      (Value.new, { cfg with _optionValues := Map.assign cfg._optionValues flag Value.new })

/-- The payload invariant on an object: every `Value` of the result map and every default
handed out by `Option::defaultValue()` satisfies `Value.wf`. -/
def Config.valuesWF (cfg : Config) : Prop :=
  (∀ p ∈ cfg._optionValues, p.2.wf = true) ∧ (∀ o ∈ cfg._options, o.2.getDefaultValue.wf = true)

instance (cfg : Config) : Decidable cfg.valuesWF := by
  unfold Config.valuesWF; infer_instance

/-- The data-model invariant on a registry: every option is stored under its own,
non-empty flag name. -/
def registryNamed (opts : Map ConfigOption) : Prop :=
  ∀ p ∈ opts, p.2._flag ≠ [] ∧ p.2._flag = p.1

instance (opts : Map ConfigOption) : Decidable (registryNamed opts) := by
  unfold registryNamed; infer_instance

/-- The spellings that `Config::parseValue` turns into `false`. -/
def falseSpellings : List Str :=
  ["false".toList, "False".toList, "FALSE".toList, "F".toList, "f".toList]


/-- The object that `Config::parse` leaves when `checkFormat` did not abort it: the state
after the token loop with the log lines of `validate`. -/
def Config.parsed (lf : ScanLf) (cfg : Config) (argv0 : Str) (tokens : List Str) : Config :=
  ((cfg.tokenLoop lf argv0 tokens).cfg.validate).2

/-- The second gate of `Config::parse`: `validate` returned ERROR or worse and the
threshold is ERROR or lower. -/
def Config.validateAbort (lf : ScanLf) (cfg : Config) (tokens : List Str) : Prop :=
  LogLevel.ERROR.toNat ≤ (validateLevel cfg._options
      (tokensData lf cfg._options cfg._optionValues tokens).vals).toNat
    ∧ cfg._logLevel.toNat ≤ LogLevel.ERROR.toNat

instance (lf : ScanLf) (cfg : Config) (tokens : List Str) :
    Decidable (cfg.validateAbort lf tokens) := by
  unfold Config.validateAbort; infer_instance


/-- The invariant of the token loop behind the typing of the result map: every declared
key holds a `Value` of the kind of its default; the bound option is a declared one or a
string-typed wildcard under an undeclared name; the wildcard is string-typed. -/
def loopTyped (opts : Map ConfigOption) (d : ParseData) : Prop :=
  (∀ p ∈ opts, ∃ v, Map.find d.vals p.1 = some v ∧ v.type = p.2._defaultValue.type)
    ∧ (∀ o, d.currentOption = some o →
        (o._flag, o) ∈ opts ∨ (o._flag ∉ Map.keys opts ∧ o.type = DataType.STRING))
    ∧ d.wildcard.type = DataType.STRING


/-- An object reached through the public interface: `Config c;`
`c.toggleAutoHelp(false); c["help"]; c.log(Config::LogLevel::NONE);`.  The registry is
empty and the result map holds an empty `Value` under `help`. -/
def helpEntryConfig : Config :=
  (((Config.new.toggleAutoHelp false).index "help".toList).2).logThreshold LogLevel.NONE

/-- An object reached through the public interface: `Config c;`
`c.option("help").defaultValue(Value::unknown()); c.log(Config::LogLevel::NONE);`.  The
result map is empty and the default of `help` is an empty `Value`. -/
def helpDefaultConfig : Config :=
  (Config.new.modify "help".toList (fun o => o.defaultValue Value.unknown)).logThreshold
    LogLevel.NONE


/-- An object whose declaration check fails: a fresh `Config` after `option("x")`, an
option that is not required and has no default. -/
def undefaultedConfig : Config :=
  Config.new.option "x".toList


/-- The option that `Config::option(flag)` inserts: `Option().flag(flag)`, copied into
the map. -/
def freshOption (flag : Str) : ConfigOption :=
  (ConfigOption.new.flag flag).copy

/-- The `help` option that `Config::toggleAutoHelp(true)` registers. -/
def helpOption : ConfigOption :=
  ((((freshOption "help".toList).shortflag "h".toList).defaultValue
    (Value.ofBool false)).description "Display the help message".toList).required false


/-- The member `Value::getNumber()`: the first eight bytes of the buffer read as a
`double`, given by its 64-bit pattern; `none` when the buffer is null or shorter than
eight bytes. -/
def Value.getNumber (v : Value) : Option Nat :=
  match v._data with
  | some (b0 :: b1 :: b2 :: b3 :: b4 :: b5 :: b6 :: b7 :: _) =>
      some (b0.toNat + 256 * (b1.toNat + 256 * (b2.toNat + 256 * (b3.toNat
        + 256 * (b4.toNat + 256 * (b5.toNat + 256 * (b6.toNat + 256 * b7.toNat)))))))
  | _ => none

/-- The move constructor `Value::Value(Value&& other)`: the new object, and `other` after
the call.  `moveData` receives `other._data` by reference and `other._size`,
`other._type` by value. -/
def Value.move (other : Value) : Value × Value :=
  let r := Value.new.moveData other._data other._size other._type
  (r.1, { other with _data := r.2 })

/-- The move assignment `Value::operator=(Value&& other)` for two distinct objects: the
receiver, and `other` after the call. -/
def Value.moveAssign (self other : Value) : Value × Value :=
  let r := self.moveData other._data other._size other._type
  (r.1, { other with _data := r.2 })

/-- The member `Value::clearData()`. -/
def Value.clearData (v : Value) : Value :=
  if v._size != 0 && v._data.isSome then { v with _data := none } else v

/-- The copy assignment `Value::operator=(const Value& other)`. -/
def Value.copyAssign (self other : Value) : Value :=
  self.clearData.copyData other._data other._size other._type

/-- The copy constructor with the precondition of its `memcpy` made explicit: copying
`other._size` bytes from a null `other._data` is undefined unless the size is 0. -/
def Value.copyChecked (other : Value) : Option Value :=
  if other._data.isNone && other._size != 0 then none else some other.copy

/-- The `Value` left behind by `Value a(5); Value b(std::move(a));`: `a` after the
move. -/
def movedFromInt : Value := (Value.move (Value.ofInt 5)).2


/-- The error test of `Config::checkFormat()` on option `o` of the registry `opts`: no
default on an option that is not required, or a non-empty short alias shared with an
option of another flag name. -/
def formatErrorAt (opts : Map ConfigOption) (o : ConfigOption) : Bool :=
  (!o._required && o.getDefaultValue.isEmpty)
    || opts.any (fun q =>
      o._flag != q.2._flag && o._shortflag == q.2._shortflag && !o._shortflag.isEmpty)

/-- The warning test of `Config::checkFormat()` on option `o`: an empty description or an
empty short alias. -/
def formatWarningAt (o : ConfigOption) : Bool :=
  o._description.isEmpty || o._shortflag.isEmpty

/-- The declaration errors of the specification, section 4.3: some option is not required
and has an empty default, or two distinct options share the same non-empty short
alias. -/
def declarationError (opts : Map ConfigOption) : Prop :=
  (∃ p ∈ opts, p.2._required = false ∧ p.2.getDefaultValue.isEmpty = true)
    ∨ (∃ p ∈ opts, ∃ q ∈ opts, p ≠ q ∧ p.2._shortflag = q.2._shortflag ∧ p.2._shortflag ≠ [])

/-- The declaration warnings of the specification, section 4.3: some option has an empty
description or an empty short alias, or the program description is empty. -/
def declarationWarning (opts : Map ConfigOption) (desc : Str) : Prop :=
  (∃ p ∈ opts, p.2._description = [] ∨ p.2._shortflag = []) ∨ desc = []


/-- The key `k` is the name of a long-form flag token of `toks` that matches no option of
the registry: the token with its two leading dashes removed. -/
def unmatchedName (opts : Map ConfigOption) (toks : List Str) (k : Str) : Prop :=
  ∃ tok ∈ toks, Config.getTokenType tok = TokenType.FLAG
    ∧ getOptionIn opts tok TokenType.FLAG = none ∧ k = tok.drop 2

/-- The invariant of the token loop on the key set, after the tokens `toks`: every key is
declared or the name of an unmatched long-form flag of `toks`, the bound option is a
declared one or the string-typed wildcard under such a name, and the wildcard is
string-typed. -/
def loopKeys (opts : Map ConfigOption) (toks : List Str) (d : ParseData) : Prop :=
  (∀ k ∈ Map.keys d.vals, k ∈ Map.keys opts ∨ unmatchedName opts toks k)
    ∧ (∀ o, d.currentOption = some o →
        o._flag ∈ Map.keys opts ∨ (o.type = DataType.STRING ∧ unmatchedName opts toks o._flag))
    ∧ d.wildcard.type = DataType.STRING


/-- An object reached through the public interface: `Config c;`
`c.option("x").required(true);`.  The option `x` is required and has no default. -/
def requiredNoDefaultConfig : Config :=
  (Config.new.option "x".toList).modify "x".toList (fun o => o.required true)

/-- A log line of one of the three severities, not below the threshold `thr`. -/
def entryAtLeast (thr : LogLevel) (e : Str) : Prop :=
  ∃ lvl token msg, e = logString lvl token msg ∧ lvl ≠ LogLevel.NONE
    ∧ thr.toNat ≤ lvl.toNat

/-- The object `c` has the threshold `thr`, and its log is `base` followed by lines of a
severity not below `thr`. -/
def logGrown (thr : LogLevel) (base : List Str) (c : Config) : Prop :=
  c._logLevel = thr ∧ ∃ added, c._log = base ++ added ∧ ∀ e ∈ added, entryAtLeast thr e


/-! ## Printing and serialization -/

/-- The text that `snprintf` writes for `"%f"` and a `double`, as a function of the bit
pattern of the `double`: a parameter of the functions that print. -/
abbrev PrintF := Nat → Str

/-- The call `snprintf(tempStr, slen, ...)` of `Value::print()` with `slen = 31`: at most
30 characters of the formatted text are written. -/
def snprintf31 (text : Str) : Str := text.take 30

/-- The member `Value::print()`.  `none` is undefined behaviour of the accessor that the
kind selects.  For the kind STRING the source builds `std::string(getCharArray())`, the
conversion that `getString()` performs on the same buffer. -/
def Value.print (pf : PrintF) (v : Value) : Option Str :=
  match v._type with
  | DataType.UNKNOWN => some []
  | DataType.INT => v.getInt.map (fun n => snprintf31 (printInt n))
  | DataType.NUMBER => v.getNumber.map (fun d => snprintf31 (pf d))
  | DataType.BOOL =>
      v.getBoolean.map (fun b => snprintf31 (if b then "true".toList else "false".toList))
  | DataType.STRING =>
      v.getString.map (fun s => [Char.ofNat 34] ++ s ++ [Char.ofNat 34])

/-- The enum `Config::ExportFormat`. -/
inductive ExportFormat where
  | JSON
  | CSV
  | YAML
  deriving DecidableEq, Repr

/-- The loop of `Config::serialize` for the JSON format, on the entries that remain: the
text written for them.  The test `opt != --std::end(_optionValues)` is true exactly when
entries remain after `opt`. -/
def Config.serializeEntries (pf : PrintF) (pretty : Bool) : Map Value → Option Str
  | [] => some []
  | opt :: rest =>
      match opt.2.print pf, Config.serializeEntries pf pretty rest with
      | some text, some tail =>
          some ((if pretty then "    ".toList else [])
            ++ [Char.ofNat 34] ++ opt.1 ++ [Char.ofNat 34]
            ++ (if pretty then " : ".toList else ":".toList) ++ text
            ++ (if rest.isEmpty then [] else ",".toList)
            ++ (if pretty then [Char.ofNat 10] else [])
            ++ tail)
      | _, _ => none

/-- The member `Config::serialize(format, pretty)`: the returned string.  The CSV and YAML
branches write nothing. -/
def Config.serialize (pf : PrintF) (cfg : Config) (format : ExportFormat) (pretty : Bool) :
    Option Str :=
  if format = ExportFormat.JSON then
    (Config.serializeEntries pf pretty cfg._optionValues).map (fun body =>
      [Char.ofNat 123] ++ (if pretty then [Char.ofNat 10] else []) ++ body
        ++ [Char.ofNat 125])
  else some []

/-- An object whose result map is `{a: Int 1, b: String x}`: `Config c;`
`c["a"] = Value(1); c["b"] = Value("x");`. -/
def abConfig : Config :=
  { Config.new with
    _optionValues := Map.assign (Map.assign [] "a".toList (Value.ofInt 1)) "b".toList
      (Value.ofCStr "x".toList) }

/-- The specification's "comma-separated": every text but the last is followed by a
comma. -/
def commaSeparated : List Str → List Str
  | [] => []
  | [e] => [e]
  | e :: f :: rest => (e ++ ",".toList) :: commaSeparated (f :: rest)

/-- The entry of the specification for the key `k` and the printed value `text`, in the
compact form: the key between double quotes, a colon, the printed value. -/
def compactEntry (k text : Str) : Str :=
  [Char.ofNat 34] ++ k ++ [Char.ofNat 34] ++ ":".toList ++ text

/-- The entry of the specification for the key `k` and the printed value `text`, in the
pretty form: four spaces, the key between double quotes, a colon between two spaces, the
printed value. -/
def prettyEntry (k text : Str) : Str :=
  "    ".toList ++ [Char.ofNat 34] ++ k ++ [Char.ofNat 34] ++ " : ".toList ++ text

/-! ### A reader for JSON objects

The grammar of RFC 8259, for the objects whose member values are strings, integers,
`true`, `false` and `null`.  The reader accepts only well-formed JSON texts and returns
the members that the text denotes. -/

/-- A JSON value of the fragment. -/
inductive JsonValue where
  | null
  | bool (b : Bool)
  | int (n : Int)
  | string (s : Str)
  deriving DecidableEq, Repr

/-- The JSON white space: space, horizontal tab, line feed, carriage return. -/
def jsonWhitespace (c : Char) : Bool :=
  c.toNat == 32 || c.toNat == 9 || c.toNat == 10 || c.toNat == 13

/-- The input after its leading white space. -/
def jsonSkip (s : Str) : Str := s.dropWhile jsonWhitespace

/-- The character denoted by the escape `\c`, for the two-character escapes. -/
def jsonEscape (c : Char) : Option Char :=
  if c.toNat = 34 then some (Char.ofNat 34)
  else if c.toNat = 92 then some (Char.ofNat 92)
  else if c = '/' then some '/'
  else if c = 'b' then some (Char.ofNat 8)
  else if c = 'f' then some (Char.ofNat 12)
  else if c = 'n' then some (Char.ofNat 10)
  else if c = 'r' then some (Char.ofNat 13)
  else if c = 't' then some (Char.ofNat 9)
  else none

/-- A JSON string after its opening quote: the text it denotes and the input after its
closing quote.  A control character is not allowed unescaped. -/
def jsonString : Str → Option (Str × Str)
  | [] => none
  | [c] => if c.toNat = 34 then some ([], []) else none
  | c :: e :: rest =>
      if c.toNat = 34 then some ([], e :: rest)
      else if c.toNat = 92 then
        match jsonEscape e, jsonString rest with
        | some d, some (s, r) => some (d :: s, r)
        | _, _ => none
      else if c.toNat < 32 then none
      else
        match jsonString (e :: rest) with
        | some (s, r) => some (c :: s, r)
        | none => none

/-- A JSON number without fraction and exponent: an optional minus sign and decimal
digits without a leading zero; the integer it denotes and the input after it. -/
def jsonInt (s : Str) : Option (Int × Str) :=
  let neg : Bool := s.head? == some '-'
  let body := if neg then s.drop 1 else s
  let ds := body.takeWhile isdigit
  let rest := body.dropWhile isdigit
  if ds.isEmpty then none
  else if ds.head? == some '0' && ds.length != 1 then none
  else if rest.head? == some '.' || rest.head? == some 'e' || rest.head? == some 'E' then none
  else some (if neg then -((digitsValue ds : Nat) : Int) else ((digitsValue ds : Nat) : Int), rest)

/-- A JSON value of the fragment at the head of the input, and the input after it. -/
def jsonValue (s : Str) : Option (JsonValue × Str) :=
  if s.head? == some (Char.ofNat 34) then
    (jsonString (s.drop 1)).map (fun p => (JsonValue.string p.1, p.2))
  else if s.take 4 = "true".toList then some (JsonValue.bool true, s.drop 4)
  else if s.take 5 = "false".toList then some (JsonValue.bool false, s.drop 5)
  else if s.take 4 = "null".toList then some (JsonValue.null, s.drop 4)
  else (jsonInt s).map (fun p => (JsonValue.int p.1, p.2))

/-- The members of a JSON object after its opening brace, up to its closing brace: at
least one member `string : value`, the members separated by commas.  `fuel` bounds the
number of members. -/
def jsonMembers : Nat → Str → Option (List (Str × JsonValue) × Str)
  | 0, _ => none
  | fuel + 1, s =>
      match jsonSkip s with
      | [] => none
      | c :: r0 =>
          if c.toNat = 34 then
            match jsonString r0 with
            | none => none
            | some (key, r1) =>
                match jsonSkip r1 with
                | [] => none
                | c2 :: r2 =>
                    if c2 = ':' then
                      match jsonValue (jsonSkip r2) with
                      | none => none
                      | some (v, r3) =>
                          match jsonSkip r3 with
                          | [] => none
                          | c3 :: r4 =>
                              if c3 = ',' then
                                (jsonMembers fuel r4).map (fun p => ((key, v) :: p.1, p.2))
                              else if c3.toNat = 125 then some ([(key, v)], r4)
                              else none
                    else none
          else none

/-- A JSON text that is one object of the fragment: the members it denotes, in the order
of the text; `none` when the text is not such an object. -/
def jsonObject (s : Str) : Option (List (Str × JsonValue)) :=
  match jsonSkip s with
  | [] => none
  | c :: r0 =>
      if c.toNat = 123 then
        match jsonSkip r0 with
        | [] => none
        | c2 :: r2 =>
            if c2.toNat = 125 then (if (jsonSkip r2).isEmpty then some [] else none)
            else
              match jsonMembers s.length (c2 :: r2) with
              | none => none
              | some (ms, r) => if (jsonSkip r).isEmpty then some ms else none
      else none

/-- The JSON value that a `Value` of the result map denotes. -/
def Value.toJson (v : Value) : Option JsonValue :=
  match v._type with
  | DataType.INT => v.getInt.map JsonValue.int
  | DataType.BOOL => v.getBoolean.map JsonValue.bool
  | DataType.STRING => v.getString.map JsonValue.string
  | _ => none


/-! ## Lemmas on the ordered maps -/

theorem strLt_irrefl (s : Str) : strLt s s = false := by
  induction s with
  | nil => rfl
  | cons a t ih => simp [strLt, ih]

theorem Map.find_assign_self {β : Type} (m : Map β) (k : Str) (v : β) :
    Map.find (Map.assign m k v) k = some v := by
  induction m with
  | nil => simp [Map.assign, Map.find]
  | cons p rest ih =>
    obtain ⟨k', v'⟩ := p
    by_cases h : k' = k
    · simp [Map.assign, Map.find, h]
    · by_cases h2 : strLt k k' = true
      · simp [Map.assign, Map.find, h, h2]
      · simp [Map.assign, Map.find, h, h2, ih]

theorem Map.find_assign_ne {β : Type} (m : Map β) (k k' : Str) (v : β) (hne : k' ≠ k) :
    Map.find (Map.assign m k v) k' = Map.find m k' := by
  induction m with
  | nil => simp [Map.assign, Map.find, Ne.symm hne]
  | cons p rest ih =>
    obtain ⟨k1, v1⟩ := p
    by_cases h : k1 = k
    · subst h
      simp [Map.assign, Map.find, Ne.symm hne]
    · by_cases h2 : strLt k k1 = true
      · simp [Map.assign, Map.find, h, h2, Ne.symm hne]
      · by_cases h3 : k1 = k'
        · subst h3
          simp [Map.assign, Map.find, h, h2]
        · simp [Map.assign, Map.find, h, h2, h3, ih]

theorem Map.mem_assign {β : Type} (m : Map β) (k : Str) (v : β) (p : Str × β)
    (hp : p ∈ Map.assign m k v) : p = (k, v) ∨ p ∈ m := by
  induction m with
  | nil => simpa [Map.assign] using hp
  | cons q rest ih =>
    obtain ⟨k1, v1⟩ := q
    by_cases h : k1 = k
    · simp [Map.assign, h] at hp
      rcases hp with hp | hp
      · exact Or.inl hp
      · exact Or.inr (List.mem_cons_of_mem _ hp)
    · by_cases h2 : strLt k k1 = true
      · simp [Map.assign, h, h2] at hp
        rcases hp with hp | hp | hp
        · exact Or.inl hp
        · exact Or.inr (by rw [hp]; exact List.mem_cons_self _ _)
        · exact Or.inr (List.mem_cons_of_mem _ hp)
      · simp [Map.assign, h, h2] at hp
        rcases hp with hp | hp
        · exact Or.inr (by rw [hp]; exact List.mem_cons_self _ _)
        · rcases ih hp with h4 | h4
          · exact Or.inl h4
          · exact Or.inr (List.mem_cons_of_mem _ h4)

theorem Map.mem_of_find {β : Type} (m : Map β) (k : Str) (v : β)
    (h : Map.find m k = some v) : (k, v) ∈ m := by
  induction m with
  | nil => simp [Map.find] at h
  | cons q rest ih =>
    obtain ⟨k1, v1⟩ := q
    by_cases h1 : k1 = k
    · simp [Map.find, h1] at h
      simp [h1, h]
    · simp [Map.find, h1] at h
      exact List.mem_cons_of_mem _ (ih h)

theorem Map.find_of_mem {β : Type} (m : Map β) (hwf : Map.WF m) (k : Str) (v : β)
    (h : (k, v) ∈ m) : Map.find m k = some v := by
  induction m with
  | nil => simp at h
  | cons q rest ih =>
    obtain ⟨k1, v1⟩ := q
    have hwf2 := List.pairwise_cons.mp hwf
    rcases List.mem_cons.mp h with h1 | h1
    · cases h1
      simp [Map.find]
    · have hlt := hwf2.1 _ h1
      have hne : k1 ≠ k := by
        intro he
        simp only at hlt
        rw [he, strLt_irrefl] at hlt
        exact Bool.noConfusion hlt
      rw [Map.find, if_neg hne]
      exact ih hwf2.2 h1

theorem Map.find_isSome_of_mem_keys {β : Type} (m : Map β) (k : Str)
    (h : k ∈ Map.keys m) : (Map.find m k).isSome = true := by
  induction m with
  | nil => exact absurd h (List.not_mem_nil _)
  | cons q rest ih =>
    obtain ⟨k1, v1⟩ := q
    by_cases h1 : k1 = k
    · simp [Map.find, h1]
    · rw [Map.find, if_neg h1]
      rcases List.mem_cons.mp h with h2 | h2
      · exact absurd h2.symm h1
      · exact ih h2

theorem Map.find_eq_none_of_not_mem_keys {β : Type} (m : Map β) (k : Str)
    (h : k ∉ Map.keys m) : Map.find m k = none := by
  cases hf : Map.find m k with
  | none => rfl
  | some v =>
    exact absurd (List.mem_map_of_mem Prod.fst (Map.mem_of_find m k v hf)) h

/-! ## The log is write-only -/

@[simp] theorem Config.log_options (cfg : Config) (l : LogLevel) (t m : Str) :
    (cfg.log l t m)._options = cfg._options := by
  unfold Config.log; split <;> rfl

@[simp] theorem Config.log_optionValues (cfg : Config) (l : LogLevel) (t m : Str) :
    (cfg.log l t m)._optionValues = cfg._optionValues := by
  unfold Config.log; split <;> rfl

@[simp] theorem Config.log_logLevel (cfg : Config) (l : LogLevel) (t m : Str) :
    (cfg.log l t m)._logLevel = cfg._logLevel := by
  unfold Config.log; split <;> rfl

@[simp] theorem Config.log_description (cfg : Config) (l : LogLevel) (t m : Str) :
    (cfg.log l t m)._description = cfg._description := by
  unfold Config.log; split <;> rfl

@[simp] theorem Config.log_autoHelp (cfg : Config) (l : LogLevel) (t m : Str) :
    (cfg.log l t m)._autoHelp = cfg._autoHelp := by
  unfold Config.log; split <;> rfl

@[simp] theorem Config.log_verbose (cfg : Config) (l : LogLevel) (t m : Str) :
    (cfg.log l t m)._verbose = cfg._verbose := by
  unfold Config.log; split <;> rfl

@[simp] theorem Config.log_exeName (cfg : Config) (l : LogLevel) (t m : Str) :
    (cfg.log l t m)._exeName = cfg._exeName := by
  unfold Config.log; split <;> rfl

theorem Config.sameData_refl (a : Config) : a.sameData a :=
  ⟨rfl, rfl, rfl, rfl, rfl, rfl, rfl⟩

theorem Config.sameData_trans {a b c : Config} (h1 : a.sameData b) (h2 : b.sameData c) :
    a.sameData c := by
  obtain ⟨a1, a2, a3, a4, a5, a6, a7⟩ := h1
  obtain ⟨b1, b2, b3, b4, b5, b6, b7⟩ := h2
  exact ⟨a1.trans b1, a2.trans b2, a3.trans b3, a4.trans b4, a5.trans b5, a6.trans b6,
    a7.trans b7⟩

theorem Config.sameData_log (a : Config) (l : LogLevel) (t m : Str) :
    (a.log l t m).sameData a := by
  unfold Config.sameData
  simp

/-- A fold whose step has a verdict part `g` and only writes the log. -/
theorem foldl_level_sameData {α : Type} (f : LogLevel × Config → α → LogLevel × Config)
    (g : LogLevel → α → LogLevel) (h1 : ∀ acc x, (f acc x).1 = g acc.1 x)
    (h2 : ∀ acc x, (f acc x).2.sameData acc.2) (l : List α) (acc : LogLevel × Config) :
    (l.foldl f acc).1 = l.foldl g acc.1 ∧ (l.foldl f acc).2.sameData acc.2 := by
  induction l generalizing acc with
  | nil => exact ⟨rfl, Config.sameData_refl _⟩
  | cons x xs ih =>
    obtain ⟨e1, e2⟩ := ih (f acc x)
    refine ⟨?_, Config.sameData_trans e2 (h2 acc x)⟩
    rw [List.foldl_cons, List.foldl_cons, e1, h1]

theorem Config.checkDuplicate_level (o : ConfigOption) (a : LogLevel × Config)
    (opt2 : Str × ConfigOption) :
    (Config.checkDuplicate o a opt2).1 = checkDuplicateLevel o a.1 opt2 := by
  unfold Config.checkDuplicate checkDuplicateLevel
  simp only
  split <;> rfl

theorem Config.checkDuplicate_sameData (o : ConfigOption) (a : LogLevel × Config)
    (opt2 : Str × ConfigOption) : (Config.checkDuplicate o a opt2).2.sameData a.2 := by
  unfold Config.checkDuplicate
  simp only
  split
  · exact Config.sameData_log _ _ _ _
  · exact Config.sameData_refl _

theorem Config.checkOption_level (opts : Map ConfigOption) (acc : LogLevel × Config)
    (opt : Str × ConfigOption) :
    (Config.checkOption opts acc opt).1 = checkOptionLevel opts acc.1 opt := by
  unfold Config.checkOption checkOptionLevel
  simp only
  have hf := fun a => (foldl_level_sameData (Config.checkDuplicate opt.2)
    (checkDuplicateLevel opt.2) (Config.checkDuplicate_level opt.2)
    (Config.checkDuplicate_sameData opt.2) opts a).1
  split <;> split <;> split <;> simp_all

theorem Config.checkOption_sameData (opts : Map ConfigOption) (acc : LogLevel × Config)
    (opt : Str × ConfigOption) : (Config.checkOption opts acc opt).2.sameData acc.2 := by
  unfold Config.checkOption
  simp only
  have hf := fun a => (foldl_level_sameData (Config.checkDuplicate opt.2)
    (checkDuplicateLevel opt.2) (Config.checkDuplicate_level opt.2)
    (Config.checkDuplicate_sameData opt.2) opts a).2
  have h1 : ∀ c : Config, c.sameData acc.2 →
      (if (!opt.2._required && opt.2.getDefaultValue.isEmpty) = true then
        (worseLevel acc.1 LogLevel.ERROR,
          acc.2.log LogLevel.ERROR opt.2._flag "default value is not defined".toList)
      else acc).2.sameData acc.2 := by
    intro c _
    split
    · exact Config.sameData_log _ _ _ _
    · exact Config.sameData_refl _
  have h2 := Config.sameData_trans (hf _) (h1 acc.2 (Config.sameData_refl _))
  split <;> split
  · exact Config.sameData_trans (Config.sameData_log _ _ _ _)
      (Config.sameData_trans (Config.sameData_log _ _ _ _) h2)
  · exact Config.sameData_trans (Config.sameData_log _ _ _ _) h2
  · exact Config.sameData_trans (Config.sameData_log _ _ _ _) h2
  · exact h2

theorem Config.checkFormat_level (cfg : Config) :
    (cfg.checkFormat).1 = checkFormatLevel cfg._options cfg._description := by
  unfold Config.checkFormat checkFormatLevel
  simp only
  have hf := (foldl_level_sameData (Config.checkOption cfg._options)
    (checkOptionLevel cfg._options) (Config.checkOption_level cfg._options)
    (Config.checkOption_sameData cfg._options) cfg._options (LogLevel.INFO, cfg)).1
  split <;> simp_all

theorem Config.checkFormat_sameData (cfg : Config) : (cfg.checkFormat).2.sameData cfg := by
  unfold Config.checkFormat
  simp only
  have hf := (foldl_level_sameData (Config.checkOption cfg._options)
    (checkOptionLevel cfg._options) (Config.checkOption_level cfg._options)
    (Config.checkOption_sameData cfg._options) cfg._options (LogLevel.INFO, cfg)).2
  split
  · exact Config.sameData_trans (Config.sameData_log _ _ _ _) hf
  · exact hf

theorem Config.validateValue_level (acc : LogLevel × Config) (val : Str × Value) :
    (Config.validateValue acc val).1 = validateValueLevel acc.1 val := by
  unfold Config.validateValue validateValueLevel
  split <;> rfl

theorem Config.validateValue_sameData (acc : LogLevel × Config) (val : Str × Value) :
    (Config.validateValue acc val).2.sameData acc.2 := by
  unfold Config.validateValue
  split
  · exact Config.sameData_log _ _ _ _
  · exact Config.sameData_refl _

theorem Config.validateOption_level (vals : Map Value) (acc : LogLevel × Config)
    (opt : Str × ConfigOption) :
    (Config.validateOption vals acc opt).1 = validateOptionLevel vals acc.1 opt := by
  unfold Config.validateOption validateOptionLevel
  split <;> rfl

theorem Config.validateOption_sameData (vals : Map Value) (acc : LogLevel × Config)
    (opt : Str × ConfigOption) : (Config.validateOption vals acc opt).2.sameData acc.2 := by
  unfold Config.validateOption
  split
  · exact Config.sameData_log _ _ _ _
  · exact Config.sameData_refl _

theorem Config.validate_level (cfg : Config) :
    (cfg.validate).1 = validateLevel cfg._options cfg._optionValues := by
  unfold Config.validate validateLevel
  simp only
  have h1 := (foldl_level_sameData Config.validateValue validateValueLevel
    Config.validateValue_level Config.validateValue_sameData
    cfg._optionValues (LogLevel.INFO, cfg)).1
  have h2 := fun a => (foldl_level_sameData (Config.validateOption cfg._optionValues)
    (validateOptionLevel cfg._optionValues) (Config.validateOption_level cfg._optionValues)
    (Config.validateOption_sameData cfg._optionValues) cfg._options a).1
  rw [h2, h1]

theorem Config.validate_sameData (cfg : Config) : (cfg.validate).2.sameData cfg := by
  unfold Config.validate
  simp only
  have h1 := (foldl_level_sameData Config.validateValue validateValueLevel
    Config.validateValue_level Config.validateValue_sameData
    cfg._optionValues (LogLevel.INFO, cfg)).2
  have h2 := fun a => (foldl_level_sameData (Config.validateOption cfg._optionValues)
    (validateOptionLevel cfg._optionValues) (Config.validateOption_level cfg._optionValues)
    (Config.validateOption_sameData cfg._optionValues) cfg._options a).2
  exact Config.sameData_trans (h2 _) h1

/-! ## The token loop on the projected state -/

theorem Config.getOption_eq (cfg : Config) (token : Str) (tt : TokenType) :
    cfg.getOption token tt = getOptionIn cfg._options token tt := by
  unfold Config.getOption getOptionIn Config.translateShortflag
  rfl

theorem Config.setDefaultValues_sameData_aux (l : List (Str × ConfigOption)) (c : Config) :
    (l.foldl (fun (c : Config) (o : Str × ConfigOption) =>
        { c with _optionValues := Map.assign c._optionValues o.1 o.2.getDefaultValue }) c)
      = { c with _optionValues := seedDefaults l c._optionValues } := by
  induction l generalizing c with
  | nil => rfl
  | cons x xs ih =>
    rw [List.foldl_cons, ih]
    rfl

theorem Config.setDefaultValues_eq (cfg : Config) :
    cfg.setDefaultValues
      = { cfg with _optionValues := seedDefaults cfg._options cfg._optionValues } := by
  unfold Config.setDefaultValues
  exact Config.setDefaultValues_sameData_aux _ _

theorem Config.parseToken_options (lf : ScanLf) (st : ParseState) (token : Str) :
    (Config.parseToken lf st token).cfg._options = st.cfg._options := by
  unfold Config.parseToken
  cases htt : Config.getTokenType token
  · simp
  · cases hg : st.cfg.getOption token TokenType.FLAG
    · simp [hg]; split <;> simp
    · simp [hg]; split <;> simp
  · cases hg : st.cfg.getOption token TokenType.SHORTFLAG
    · simp [hg]
    · simp [hg]; split <;> simp
  · cases hc : st.currentOption
    · simp
    · simp; split <;> simp

theorem Config.parseToken_logLevel (lf : ScanLf) (st : ParseState) (token : Str) :
    (Config.parseToken lf st token).cfg._logLevel = st.cfg._logLevel := by
  unfold Config.parseToken
  cases htt : Config.getTokenType token
  · simp
  · cases hg : st.cfg.getOption token TokenType.FLAG
    · simp [hg]; split <;> simp
    · simp [hg]; split <;> simp
  · cases hg : st.cfg.getOption token TokenType.SHORTFLAG
    · simp [hg]
    · simp [hg]; split <;> simp
  · cases hc : st.currentOption
    · simp
    · simp; split <;> simp

theorem Config.parseToken_data (lf : ScanLf) (st : ParseState) (token : Str) :
    (Config.parseToken lf st token).data = tokenData lf st.cfg._options st.data token := by
  unfold Config.parseToken tokenData ParseState.data
  cases htt : Config.getTokenType token
  · simp
  · cases hg : getOptionIn st.cfg._options token TokenType.FLAG
    · simp [hg, Config.getOption_eq]; split <;> simp
    · simp [hg, Config.getOption_eq]; split <;> simp
  · cases hg : getOptionIn st.cfg._options token TokenType.SHORTFLAG
    · simp [hg, Config.getOption_eq]
    · simp [hg, Config.getOption_eq]; split <;> simp
  · cases hc : st.currentOption
    · simp
    · simp; split <;> simp

theorem Config.tokens_fold (lf : ScanLf) (tokens : List Str) (st : ParseState) :
    (tokens.foldl (Config.parseToken lf) st).cfg._options = st.cfg._options
    ∧ (tokens.foldl (Config.parseToken lf) st).cfg._logLevel = st.cfg._logLevel
    ∧ (tokens.foldl (Config.parseToken lf) st).data
        = tokens.foldl (tokenData lf st.cfg._options) st.data := by
  induction tokens generalizing st with
  | nil => exact ⟨rfl, rfl, rfl⟩
  | cons t ts ih =>
    obtain ⟨h1, h2, h3⟩ := ih (Config.parseToken lf st t)
    rw [Config.parseToken_options] at h1 h3
    rw [Config.parseToken_logLevel] at h2
    rw [Config.parseToken_data] at h3
    exact ⟨h1, h2, h3⟩

/-! ## Verdicts -/

theorem worseLevel_ERROR_idem (lv : LogLevel) :
    worseLevel (worseLevel lv LogLevel.ERROR) LogLevel.ERROR = worseLevel lv LogLevel.ERROR := by
  cases lv <;> rfl

theorem foldl_validateValueLevel (vals : Map Value) (lv : LogLevel) :
    vals.foldl validateValueLevel lv
      = if vals.any (fun p => p.2.isEmpty) then worseLevel lv LogLevel.ERROR else lv := by
  induction vals generalizing lv with
  | nil => simp
  | cons p rest ih =>
    rw [List.foldl_cons, ih]
    unfold validateValueLevel
    by_cases h : p.2.isEmpty = true
    · simp only [h, List.any_cons, Bool.true_or, if_true, worseLevel_ERROR_idem, ite_self]
    · simp only [h, List.any_cons, Bool.false_or, Bool.false_eq_true, if_false]

theorem foldl_validateOptionLevel (vals : Map Value) (opts : Map ConfigOption)
    (lv : LogLevel) :
    opts.foldl (validateOptionLevel vals) lv
      = if opts.any (fun o => (Map.find vals o.1).isNone) then worseLevel lv LogLevel.ERROR
        else lv := by
  induction opts generalizing lv with
  | nil => simp
  | cons p rest ih =>
    rw [List.foldl_cons, ih]
    unfold validateOptionLevel
    by_cases h : (Map.find vals p.1).isNone = true
    · simp only [h, List.any_cons, Bool.true_or, if_true, worseLevel_ERROR_idem, ite_self]
    · simp only [h, List.any_cons, Bool.false_or, Bool.false_eq_true, if_false]

/-- The verdict of `validate` is ERROR exactly when an entry of the result map is empty or
a declared key is missing, and INFO otherwise. -/
theorem validateLevel_eq (opts : Map ConfigOption) (vals : Map Value) :
    validateLevel opts vals
      = if vals.any (fun p => p.2.isEmpty) || opts.any (fun o => (Map.find vals o.1).isNone)
        then LogLevel.ERROR else LogLevel.INFO := by
  unfold validateLevel
  rw [foldl_validateOptionLevel, foldl_validateValueLevel]
  by_cases h1 : vals.any (fun p => p.2.isEmpty) = true
  · by_cases h2 : opts.any (fun o => (Map.find vals o.1).isNone) = true
    · simp only [h1, h2]; rfl
    · simp only [h1, h2]; rfl
  · by_cases h2 : opts.any (fun o => (Map.find vals o.1).isNone) = true
    · simp only [h1, h2]; rfl
    · simp only [h1, h2]; rfl

/-! ## Seeding of the defaults -/

theorem seedDefaults_find_not_mem (opts : Map ConfigOption) (vals : Map Value) (k : Str)
    (h : k ∉ Map.keys opts) : Map.find (seedDefaults opts vals) k = Map.find vals k := by
  unfold seedDefaults
  induction opts generalizing vals with
  | nil => rfl
  | cons p rest ih =>
    rw [List.foldl_cons, ih]
    · apply Map.find_assign_ne
      intro he
      exact h (by rw [he]; exact List.mem_cons_self _ _)
    · intro hm
      exact h (List.mem_cons_of_mem _ hm)

theorem Map.WF_keys_not_mem {β : Type} (p : Str × β) (rest : Map β)
    (hwf : Map.WF (p :: rest)) : p.1 ∉ Map.keys rest := by
  intro hm
  obtain ⟨q, hq, hk⟩ := List.mem_map.mp hm
  have hlt := (List.pairwise_cons.mp hwf).1 q hq
  rw [hk, strLt_irrefl] at hlt
  exact Bool.noConfusion hlt

theorem seedDefaults_find_mem (opts : Map ConfigOption) (hwf : Map.WF opts)
    (vals : Map Value) (k : Str) (o : ConfigOption) (h : (k, o) ∈ opts) :
    Map.find (seedDefaults opts vals) k = some o.getDefaultValue := by
  induction opts generalizing vals with
  | nil => exact absurd h (List.not_mem_nil _)
  | cons p rest ih =>
    have hwf2 := (List.pairwise_cons.mp hwf).2
    rcases List.mem_cons.mp h with h1 | h1
    · subst h1
      show Map.find (seedDefaults rest _) k = _
      rw [seedDefaults_find_not_mem _ _ _ (Map.WF_keys_not_mem _ _ hwf)]
      exact Map.find_assign_self _ _ _
    · exact ih hwf2 _ h1

theorem seedDefaults_mem (opts : Map ConfigOption) (vals : Map Value) (p : Str × Value)
    (h : p ∈ seedDefaults opts vals) :
    p ∈ vals ∨ ∃ o ∈ opts, p = (o.1, o.2.getDefaultValue) := by
  induction opts generalizing vals with
  | nil => exact Or.inl h
  | cons q rest ih =>
    rcases ih _ h with h1 | ⟨o, ho, he⟩
    · rcases Map.mem_assign _ _ _ _ h1 with h2 | h2
      · exact Or.inr ⟨q, List.mem_cons_self _ _, h2⟩
      · exact Or.inl h2
    · exact Or.inr ⟨o, List.mem_cons_of_mem _ ho, he⟩

/-! ## The shape of `Config::parse` -/

theorem Config.tokenLoop_options (lf : ScanLf) (cfg : Config) (argv0 : Str)
    (tokens : List Str) : (cfg.tokenLoop lf argv0 tokens).cfg._options = cfg._options := by
  unfold Config.tokenLoop
  rw [(Config.tokens_fold lf tokens _).1, Config.setDefaultValues_eq]
  exact (Config.checkFormat_sameData _).1

theorem Config.tokenLoop_logLevel (lf : ScanLf) (cfg : Config) (argv0 : Str)
    (tokens : List Str) : (cfg.tokenLoop lf argv0 tokens).cfg._logLevel = cfg._logLevel := by
  unfold Config.tokenLoop
  rw [(Config.tokens_fold lf tokens _).2.1, Config.setDefaultValues_eq]
  exact (Config.checkFormat_sameData _).2.2.2.1

theorem Config.tokenLoop_data (lf : ScanLf) (cfg : Config) (argv0 : Str)
    (tokens : List Str) :
    (cfg.tokenLoop lf argv0 tokens).data
      = tokensData lf cfg._options cfg._optionValues tokens := by
  unfold Config.tokenLoop tokensData
  rw [(Config.tokens_fold lf tokens _).2.2, Config.setDefaultValues_eq]
  have h := Config.checkFormat_sameData { cfg with _exeName := exeName argv0 }
  simp only [ParseState.data, h.1, h.2.1]

theorem Config.tokenLoop_vals (lf : ScanLf) (cfg : Config) (argv0 : Str)
    (tokens : List Str) :
    (cfg.tokenLoop lf argv0 tokens).cfg._optionValues
      = (tokensData lf cfg._options cfg._optionValues tokens).vals := by
  rw [← Config.tokenLoop_data lf cfg argv0 tokens]
  rfl

/-- The three outcomes of `Config::parse` on a non-empty argument vector. -/
theorem Config.parse_cons (lf : ScanLf) (cfg : Config) (argv0 : Str) (tokens : List Str) :
    Config.parse lf cfg (argv0 :: tokens) =
      if cfg.formatAbort then
        some (false, (Config.checkFormat { cfg with _exeName := exeName argv0 }).2)
      else if LogLevel.ERROR.toNat ≤ (validateLevel cfg._options
            (tokensData lf cfg._options cfg._optionValues tokens).vals).toNat
          ∧ cfg._logLevel.toNat ≤ LogLevel.ERROR.toNat then
        some (false, ((cfg.tokenLoop lf argv0 tokens).cfg.validate).2)
      else
        match Map.find (tokensData lf cfg._options cfg._optionValues tokens).vals
            "help".toList with
        | none => some (true, ((cfg.tokenLoop lf argv0 tokens).cfg.validate).2)
        | some v =>
            match v.getBoolean with
            | some _ => some (true, ((cfg.tokenLoop lf argv0 tokens).cfg.validate).2)
            | none => none := by
  have hcf := Config.checkFormat_sameData { cfg with _exeName := exeName argv0 }
  have hlv := Config.checkFormat_level { cfg with _exeName := exeName argv0 }
  have hv := Config.validate_sameData (cfg.tokenLoop lf argv0 tokens).cfg
  have hvl := Config.validate_level (cfg.tokenLoop lf argv0 tokens).cfg
  rw [Config.tokenLoop_options, Config.tokenLoop_vals] at hvl
  have hvv := hv.2.1
  rw [Config.tokenLoop_vals] at hvv
  have hvg := hv.2.2.2.1
  rw [Config.tokenLoop_logLevel] at hvg
  have hcg := hcf.2.2.2.1
  simp only at hcg hlv
  unfold Config.parse Config.formatAbort
  simp only
  rw [hlv, hcg]
  split
  · rfl
  · show (if LogLevel.ERROR.toNat ≤ ((cfg.tokenLoop lf argv0 tokens).cfg.validate).1.toNat
          ∧ ((cfg.tokenLoop lf argv0 tokens).cfg.validate).2._logLevel.toNat
            ≤ LogLevel.ERROR.toNat then _ else _) = _
    rw [hvl, hvg]
    split
    · rfl
    · show (if ((cfg.tokenLoop lf argv0 tokens).cfg.validate).2.contains "help".toList = true
        then (match Map.find ((cfg.tokenLoop lf argv0 tokens).cfg.validate).2._optionValues
            "help".toList with
          | some v =>
              match v.getBoolean with
              | some _ => some (true, ((cfg.tokenLoop lf argv0 tokens).cfg.validate).2)
              | none => none
          | none => none)
        else some (true, ((cfg.tokenLoop lf argv0 tokens).cfg.validate).2)) = _
      unfold Config.contains
      rw [hvv]
      cases hf : Map.find (tokensData lf cfg._options cfg._optionValues tokens).vals
        "help".toList <;> simp

/-! ## The classifier -/

theorem strtod_endptr_minus (r : Str) :
    strtod_endptr ('-' :: r) = if floatLiteralLen r = 0 then 0 else 1 + floatLiteralLen r := by
  simp [strtod_endptr, isspace, signLen]

theorem getTokenType_nil : Config.getTokenType [] = TokenType.UNKNOWN := rfl

theorem getTokenType_cons_ne (c : Char) (r : Str) (h : c ≠ '-') :
    Config.getTokenType (c :: r) = TokenType.VALUE := by
  simp [Config.getTokenType, strlen, h]

theorem getTokenType_minus (r : Str) :
    Config.getTokenType ('-' :: r)
      = if strtodTakesAll r then TokenType.VALUE
        else if r.head? == some '-' then TokenType.FLAG else TokenType.SHORTFLAG := by
  unfold Config.getTokenType strtodTakesAll
  rw [strtod_endptr_minus]
  cases r with
  | nil =>
    have h0 : floatLiteralLen [] = 0 := by decide
    simp [strlen, h0]
  | cons a t =>
    by_cases h0 : floatLiteralLen (a :: t) = 0
    · simp [strlen, h0]
    · by_cases h1 : floatLiteralLen (a :: t) = t.length + 1
      · simp [strlen, h1]; omega
      · have h2 : ¬ (1 + floatLiteralLen (a :: t) = t.length + 1 + 1) := by omega
        simp [strlen, h0, h1, h2]

theorem isdigit_ne_dot : isdigit '.' = false := by decide

theorem tolower_ne_x_of_isdigit (c : Char) (h : isdigit c = true) : (tolower c == 'x') = false := by
  unfold isdigit at h
  unfold tolower
  have h1 : 48 ≤ c.toNat ∧ c.toNat ≤ 57 := by simpa using h
  have h2 : ¬ (65 ≤ c.toNat ∧ c.toNat ≤ 90) := by omega
  simp only [Bool.and_eq_true, decide_eq_true_eq, h2, if_false]
  rw [beq_eq_false_iff_ne]
  intro he
  rw [he] at h1
  revert h1
  decide

theorem mantissaLen_digits (ds : List Char) (hds : ∀ c ∈ ds, isdigit c = true) :
    mantissaLen isdigit ds = ds.length := by
  unfold mantissaLen
  have h1 : ds.takeWhile isdigit = ds := List.takeWhile_eq_self_iff.mpr hds
  have h2 : ds.dropWhile isdigit = [] := List.dropWhile_eq_nil_iff.mpr hds
  simp only [h1, h2]

theorem mantissaLen_digits_dot (ds fs : List Char) (hne : ds ≠ [])
    (hds : ∀ c ∈ ds, isdigit c = true) (hfs : ∀ c ∈ fs, isdigit c = true) :
    mantissaLen isdigit (ds ++ '.' :: fs) = ds.length + 1 + fs.length := by
  unfold mantissaLen
  have h1 : (ds ++ '.' :: fs).takeWhile isdigit = ds := by
    rw [List.takeWhile_append_of_pos hds]
    simp [List.takeWhile_cons, isdigit_ne_dot]
  have h2 : (ds ++ '.' :: fs).dropWhile isdigit = '.' :: fs := by
    rw [List.dropWhile_append_of_pos hds]
    simp [List.dropWhile_cons, isdigit_ne_dot]
  have h3 : fs.takeWhile isdigit = fs := List.takeWhile_eq_self_iff.mpr hfs
  have h4 : ds.isEmpty = false := by cases ds with
    | nil => exact absurd rfl hne
    | cons _ _ => rfl
  simp only [h1, h2, h3, h4]
  simp

theorem hexLen_of_digit_head (fs : Str) :
    ∀ ds : List Char, (∀ c ∈ ds, isdigit c = true) → ds ≠ [] →
      hexLen ds = 0 ∧ hexLen (ds ++ '.' :: fs) = 0 := by
  intro ds hds hne
  cases ds with
  | nil => exact absurd rfl hne
  | cons a rest =>
    cases rest with
    | nil =>
      refine ⟨rfl, ?_⟩
      have hx : (tolower '.' == 'x') = false := by decide
      simp [hexLen, hx]
    | cons b rest2 =>
      have hb := tolower_ne_x_of_isdigit b (hds b (by simp))
      simp [hexLen, hb]

theorem decimalLen_literal (r : Str) (h : isDecimalLiteral r) :
    hexLen r = 0 ∧ decimalLen r = r.length ∧ r ≠ [] := by
  obtain ⟨ds, fs, hne, hds, hfs, hr⟩ := h
  have hlen : 0 < ds.length := List.length_pos.mpr hne
  rcases hr with hr | ⟨_, hr⟩
  · subst hr
    refine ⟨(hexLen_of_digit_head [] r hds hne).1, ?_, hne⟩
    unfold decimalLen
    rw [mantissaLen_digits r hds]
    have h0 : r.length ≠ 0 := by omega
    simp [h0, exponentLen]
  · subst hr
    refine ⟨(hexLen_of_digit_head fs ds hds hne).2, ?_, by simp⟩
    unfold decimalLen
    rw [mantissaLen_digits_dot ds fs hne hds hfs]
    have hd : List.drop (ds.length + 1 + fs.length) (ds ++ '.' :: fs) = [] := by
      apply List.drop_eq_nil_of_le
      simp
      omega
    simp [hd, exponentLen]
    omega

theorem strtodTakesAll_of_decimal (r : Str) (h : isDecimalLiteral r) :
    strtodTakesAll r = true := by
  obtain ⟨h1, h2, h3⟩ := decimalLen_literal r h
  have h4 : 0 < r.length := List.length_pos.mpr h3
  unfold strtodTakesAll floatLiteralLen
  have h5 : decimalLen r ≠ 0 := by omega
  simp [h1, h2, h3, h5]

theorem getTokenType_negative_decimal (r : Str) (h : isDecimalLiteral r) :
    Config.getTokenType ('-' :: r) = TokenType.VALUE := by
  rw [getTokenType_minus, strtodTakesAll_of_decimal r h]
  rfl

/-! ## Decimal text of an `int` and its scan -/

theorem digitChar_isdigit (d : Nat) : isdigit (digitChar d) = true := by
  unfold digitChar
  split <;> decide

theorem digitChar_toNat (d : Nat) (h : d < 10) : (digitChar d).toNat - 48 = d := by
  interval_cases d <;> rfl

theorem natDigits_isdigit (fuel n : Nat) : ∀ c ∈ natDigits fuel n, isdigit c = true := by
  induction fuel generalizing n with
  | zero => intro c hc; exact absurd hc (List.not_mem_nil _)
  | succ f ih =>
    intro c hc
    unfold natDigits at hc
    split at hc
    · rw [List.mem_singleton] at hc
      rw [hc]; exact digitChar_isdigit _
    · rcases List.mem_append.mp hc with h | h
      · exact ih _ c h
      · rw [List.mem_singleton] at h
        rw [h]; exact digitChar_isdigit _

theorem natDigits_ne_nil (fuel n : Nat) : natDigits (fuel + 1) n ≠ [] := by
  unfold natDigits
  split <;> simp

theorem digitsValue_append (xs : List Char) (c : Char) :
    digitsValue (xs ++ [c]) = 10 * digitsValue xs + (c.toNat - 48) := by
  unfold digitsValue
  rw [List.foldl_append]
  rfl

theorem digitsValue_natDigits (fuel n : Nat) (h : n < fuel) :
    digitsValue (natDigits fuel n) = n := by
  induction fuel generalizing n with
  | zero => omega
  | succ f ih =>
    unfold natDigits
    split
    · rename_i h10
      show 10 * 0 + ((digitChar n).toNat - 48) = n
      rw [digitChar_toNat n h10]; omega
    · rw [digitsValue_append, ih (n / 10) (by omega), digitChar_toNat _ (Nat.mod_lt _ (by omega))]
      omega

theorem isdigit_not_space (c : Char) (h : isdigit c = true) : isspace c = false := by
  unfold isdigit at h
  unfold isspace
  have h1 : 48 ≤ c.toNat ∧ c.toNat ≤ 57 := by simpa using h
  have h2 : ¬ (9 ≤ c.toNat ∧ c.toNat ≤ 13) := by omega
  have h3 : c ≠ ' ' := by
    intro he; rw [he] at h1; revert h1; decide
  simp [h3]
  omega

theorem isdigit_not_sign (c : Char) (h : isdigit c = true) : c ≠ '+' ∧ c ≠ '-' := by
  unfold isdigit at h
  have h1 : 48 ≤ c.toNat ∧ c.toNat ≤ 57 := by simpa using h
  constructor <;> (intro he; rw [he] at h1; revert h1; decide)

theorem wrapInt32_of_range (z : Int) (h1 : -2147483648 ≤ z) (h2 : z < 2147483648) :
    wrapInt32 z = z := by
  unfold wrapInt32
  omega

theorem sscanf_d_digits (ds : List Char) (hne : ds ≠ []) (hds : ∀ c ∈ ds, isdigit c = true) :
    sscanf_d ds = some (wrapInt32 (digitsValue ds))
      ∧ sscanf_d ('-' :: ds) = some (wrapInt32 (-(digitsValue ds : Int))) := by
  cases ds with
  | nil => exact absurd rfl hne
  | cons a t =>
    have ha := hds a (List.mem_cons_self _ _)
    have hsp := isdigit_not_space a ha
    have hsg := isdigit_not_sign a ha
    have htw : (a :: t).takeWhile isdigit = a :: t := List.takeWhile_eq_self_iff.mpr hds
    have hms : isspace '-' = false := by decide
    constructor
    · unfold sscanf_d
      simp [List.dropWhile_cons, hsp, signLen, hsg.1, hsg.2, htw]
    · unfold sscanf_d
      simp [List.dropWhile_cons, hms, signLen, htw]

theorem sscanf_d_printInt (z : Int) (h1 : -2147483648 ≤ z) (h2 : z < 2147483648) :
    sscanf_d (printInt z) = some z := by
  unfold printInt
  split
  · rename_i hneg
    have he : -((z.natAbs : Nat) : Int) = z := by omega
    rw [(sscanf_d_digits _ (natDigits_ne_nil _ _) (natDigits_isdigit _ _)).2,
      digitsValue_natDigits _ _ (Nat.lt_succ_self _), he, wrapInt32_of_range z h1 h2]
  · rename_i hpos
    have he : ((z.toNat : Nat) : Int) = z := by omega
    rw [(sscanf_d_digits _ (natDigits_ne_nil _ _) (natDigits_isdigit _ _)).1,
      digitsValue_natDigits _ _ (Nat.lt_succ_self _), he, wrapInt32_of_range z h1 h2]

theorem getTokenType_printInt (z : Int) : Config.getTokenType (printInt z) = TokenType.VALUE := by
  unfold printInt
  split
  · apply getTokenType_negative_decimal
    exact ⟨_, [], natDigits_ne_nil _ _, natDigits_isdigit _ _, by simp, Or.inl rfl⟩
  · have hne := natDigits_ne_nil z.toNat z.toNat
    have hd := natDigits_isdigit (z.toNat + 1) z.toNat
    cases hl : natDigits (z.toNat + 1) z.toNat with
    | nil => exact absurd hl hne
    | cons a t =>
      rw [hl] at hd
      exact getTokenType_cons_ne a t (isdigit_not_sign a (hd a (List.mem_cons_self _ _))).2

theorem Value.ofInt_isEmpty (n : Int) : (Value.ofInt n).isEmpty = false := rfl

theorem parseValue_int_printInt (lf : ScanLf) (z : Int) (h1 : -2147483648 ≤ z)
    (h2 : z < 2147483648) :
    Config.parseValue lf (printInt z) DataType.INT = Value.ofInt z := by
  unfold Config.parseValue
  simp [sscanf_d_printInt z h1 h2]

/-- Claim C1. With `count` (Int, default 0, alias `c`), `verbose` (Bool, default false,
alias `v`) and the auto-registered `help`, `Config::parse` on `[prog, "-c", n, "-v"]`,
for every 32-bit integer `n` written in decimal, returns true and leaves the result map
`{count: Int n, help: Bool false, verbose: Bool true}`. -/
theorem parse_count_verbose (lf : ScanLf) (prog : Str) (n : Int)
    (h1 : -2147483648 ≤ n) (h2 : n < 2147483648) :
    ∃ cfg', Config.parse lf countVerboseConfig
          [prog, "-c".toList, printInt n, "-v".toList] = some (true, cfg')
      ∧ cfg'._optionValues
          = [("count".toList, Value.ofInt n), ("help".toList, Value.ofBool false),
              ("verbose".toList, Value.ofBool true)] := by
  have hdata : (tokensData lf countVerboseConfig._options countVerboseConfig._optionValues
      ["-c".toList, printInt n, "-v".toList]).vals
      = [("count".toList, Value.ofInt n), ("help".toList, Value.ofBool false),
              ("verbose".toList, Value.ofBool true)] := by
    unfold tokensData
    rw [List.foldl_cons, List.foldl_cons, List.foldl_cons, List.foldl_nil]
    have e1 : tokenData lf countVerboseConfig._options
        { vals := seedDefaults countVerboseConfig._options countVerboseConfig._optionValues,
          wildcard := wildcardOption, currentOption := none } "-c".toList
        = { vals := [("count".toList, Value.ofInt 0), ("help".toList, Value.ofBool false),
              ("verbose".toList, Value.ofBool false)],
            wildcard := wildcardOption,
            currentOption := some ((((ConfigOption.new.flag "count".toList).copy).shortflag
              "c".toList).defaultValue (Value.ofInt 0)) } := by
      rfl
    rw [e1]
    have e2 : tokenData lf countVerboseConfig._options
        { vals := [("count".toList, Value.ofInt 0), ("help".toList, Value.ofBool false),
              ("verbose".toList, Value.ofBool false)],
            wildcard := wildcardOption,
            currentOption := some ((((ConfigOption.new.flag "count".toList).copy).shortflag
              "c".toList).defaultValue (Value.ofInt 0)) } (printInt n)
        = { vals := [("count".toList, Value.ofInt n), ("help".toList, Value.ofBool false),
              ("verbose".toList, Value.ofBool false)],
            wildcard := wildcardOption, currentOption := none } := by
      unfold tokenData
      simp only [getTokenType_printInt]
      have ht : ((((ConfigOption.new.flag "count".toList).copy).shortflag
              "c".toList).defaultValue (Value.ofInt 0)).type = DataType.INT := rfl
      simp only [ht, parseValue_int_printInt lf n h1 h2, Value.ofInt_isEmpty]
      rfl
    rw [e2]
    rfl
  rw [Config.parse_cons, hdata]
  have hfa : ¬ countVerboseConfig.formatAbort := by decide
  have hv : validateLevel countVerboseConfig._options
      [("count".toList, Value.ofInt n), ("help".toList, Value.ofBool false),
        ("verbose".toList, Value.ofBool true)] = LogLevel.INFO := by
    rw [validateLevel_eq]
    rfl
  rw [if_neg hfa, hv]
  refine ⟨_, rfl, ?_⟩
  rw [(Config.validate_sameData _).2.1, Config.tokenLoop_vals, hdata]

/-! ## Coercion -/

theorem parseValue_bool_eq (lf : ScanLf) (token : Str) :
    Config.parseValue lf token DataType.BOOL
      = if token ∈ falseSpellings then Value.ofBool false else Value.ofBool true := by
  unfold Config.parseValue falseSpellings
  simp

theorem parseValue_string_eq (lf : ScanLf) (token : Str) :
    Config.parseValue lf token DataType.STRING = Value.ofCStr token := by
  unfold Config.parseValue
  simp

theorem doubleBytes_length (bits : Nat) : (doubleBytes bits).length = 8 := by
  simp [doubleBytes]

theorem Value.ofCStr_wf (s : Str) : (Value.ofCStr s).wf = true := by
  simp [Value.ofCStr, Value.copyData, Value.moveData, Value.wf, strlen]

theorem Value.ofDouble_wf (bits : Nat) : (Value.ofDouble bits).wf = true := by
  simp [Value.ofDouble, Value.copyData, Value.moveData, Value.wf, doubleBytes_length]

theorem parseValue_wf (lf : ScanLf) (token : Str) (ty : DataType) :
    (Config.parseValue lf token ty).wf = true := by
  unfold Config.parseValue
  cases ty
  · rfl
  · simp only [if_true]; split <;> rfl
  · simp only [reduceCtorEq, if_false, if_true]; split
    · exact Value.ofDouble_wf _
    · rfl
  · simp only [reduceCtorEq, if_false, if_true]; split <;> rfl
  · simp only [reduceCtorEq, if_false, if_true]; exact Value.ofCStr_wf _

theorem parseValue_type (lf : ScanLf) (token : Str) (ty : DataType)
    (h : (Config.parseValue lf token ty).isEmpty = false) :
    (Config.parseValue lf token ty).type = ty := by
  unfold Config.parseValue at *
  cases ty
  · simp [Value.isEmpty, Value.unknown, Value.new] at h
  · simp only [if_true] at *
    cases hs : sscanf_d token with
    | none => rw [hs] at h; simp [Value.isEmpty, Value.unknown, Value.new] at h
    | some v => rfl
  · simp only [reduceCtorEq, if_false, if_true] at *
    cases hs : lf token with
    | none => rw [hs] at h; simp [Value.isEmpty, Value.new] at h
    | some v => rfl
  · simp only [reduceCtorEq, if_false, if_true]; split <;> rfl
  · simp only [reduceCtorEq, if_false, if_true]; rfl

theorem Value.getBoolean_isSome_of_wf (v : Value) (hwf : v.wf = true)
    (hne : v.isEmpty = false) : ∃ b, v.getBoolean = some b := by
  obtain ⟨ty, sz, data⟩ := v
  cases data with
  | none => simp [Value.isEmpty] at hne
  | some d =>
    cases d with
    | nil =>
      simp [Value.wf] at hwf
      simp [Value.isEmpty] at hne
      obtain ⟨h1, h2⟩ := hwf
      rcases h2 with h2 | h2
      · exact absurd h2 hne
      · omega
    | cons c t => exact ⟨_, rfl⟩

/-! ## Invariants of the token loop -/

theorem foldl_invariant {α β : Type} (P : β → Prop) (f : β → α → β)
    (h : ∀ b a, P b → P (f b a)) (l : List α) (b : β) (hb : P b) : P (l.foldl f b) := by
  induction l generalizing b with
  | nil => exact hb
  | cons x xs ih => exact ih _ (h b x hb)

theorem tokenData_wf (lf : ScanLf) (opts : Map ConfigOption) (d : ParseData) (token : Str)
    (h : ∀ p ∈ d.vals, p.2.wf = true) : ∀ p ∈ (tokenData lf opts d token).vals, p.2.wf = true := by
  have hassign : ∀ (k : Str) (v : Value), v.wf = true →
      ∀ p ∈ Map.assign d.vals k v, p.2.wf = true := by
    intro k v hv p hp
    rcases Map.mem_assign _ _ _ _ hp with h1 | h1
    · rw [h1]; exact hv
    · exact h p h1
  unfold tokenData
  cases htt : Config.getTokenType token
  · simp only [if_true]; exact h
  · cases hg : getOptionIn opts token TokenType.FLAG
    · simp only [hg, reduceCtorEq, if_false, true_or, if_true]
      split
      · exact hassign _ _ rfl
      · exact h
    · simp only [hg, reduceCtorEq, if_false, true_or, if_true]
      split
      · exact hassign _ _ rfl
      · exact h
  · cases hg : getOptionIn opts token TokenType.SHORTFLAG
    · simp only [hg, reduceCtorEq, if_false, or_true, if_true]; exact h
    · simp only [hg, reduceCtorEq, if_false, or_true, if_true]
      split
      · exact hassign _ _ rfl
      · exact h
  · cases hc : d.currentOption
    · simp only [reduceCtorEq, if_false, or_self]; exact h
    · simp only [reduceCtorEq, if_false, or_self]
      split
      · exact h
      · exact hassign _ _ (parseValue_wf _ _ _)

theorem tokensData_wf (lf : ScanLf) (cfg : Config) (tokens : List Str) (h : cfg.valuesWF) :
    ∀ p ∈ (tokensData lf cfg._options cfg._optionValues tokens).vals, p.2.wf = true := by
  unfold tokensData
  refine foldl_invariant (fun (d : ParseData) => ∀ p ∈ d.vals, p.2.wf = true)
    (tokenData lf cfg._options) ?_ tokens _ ?_
  · intro d t hd
    exact tokenData_wf lf _ d t hd
  · intro p hp
    rcases seedDefaults_mem _ _ _ hp with h1 | ⟨o, ho, he⟩
    · exact h.1 p h1
    · rw [he]; exact h.2 o ho

theorem tokenData_keys (lf : ScanLf) (opts : Map ConfigOption) (d : ParseData) (token : Str)
    (k : Str) (h : (Map.find d.vals k).isSome = true) :
    (Map.find (tokenData lf opts d token).vals k).isSome = true := by
  have hassign : ∀ (k' : Str) (v : Value), (Map.find (Map.assign d.vals k' v) k).isSome = true := by
    intro k' v
    by_cases he : k = k'
    · rw [he, Map.find_assign_self]; rfl
    · rw [Map.find_assign_ne _ _ _ _ he]; exact h
  unfold tokenData
  cases htt : Config.getTokenType token
  · simp only [if_true]; exact h
  · cases hg : getOptionIn opts token TokenType.FLAG
    · simp only [hg, reduceCtorEq, if_false, true_or, if_true]
      split
      · exact hassign _ _
      · exact h
    · simp only [hg, reduceCtorEq, if_false, true_or, if_true]
      split
      · exact hassign _ _
      · exact h
  · cases hg : getOptionIn opts token TokenType.SHORTFLAG
    · simp only [hg, reduceCtorEq, if_false, or_true, if_true]; exact h
    · simp only [hg, reduceCtorEq, if_false, or_true, if_true]
      split
      · exact hassign _ _
      · exact h
  · cases hc : d.currentOption
    · simp only [reduceCtorEq, if_false, or_self]; exact h
    · simp only [reduceCtorEq, if_false, or_self]
      split
      · exact h
      · exact hassign _ _

theorem seedDefaults_keys (opts : Map ConfigOption) (vals : Map Value) (k : Str)
    (h : k ∈ Map.keys opts ∨ (Map.find vals k).isSome = true) :
    (Map.find (seedDefaults opts vals) k).isSome = true := by
  induction opts generalizing vals with
  | nil =>
    rcases h with h | h
    · exact absurd h (List.not_mem_nil _)
    · exact h
  | cons p rest ih =>
    show (Map.find (seedDefaults rest _) k).isSome = true
    apply ih
    by_cases he : k = p.1
    · right; rw [he, Map.find_assign_self]; rfl
    · rcases h with h | h
      · left
        rcases List.mem_cons.mp h with h1 | h1
        · exact absurd h1 he
        · exact h1
      · right; rw [Map.find_assign_ne _ _ _ _ he]; exact h

theorem tokensData_keys (lf : ScanLf) (opts : Map ConfigOption) (vals : Map Value)
    (tokens : List Str) (k : Str) (h : k ∈ Map.keys opts) :
    (Map.find (tokensData lf opts vals tokens).vals k).isSome = true := by
  unfold tokensData
  refine foldl_invariant (fun (d : ParseData) => (Map.find d.vals k).isSome = true)
    (tokenData lf opts) ?_ tokens _ ?_
  · intro d t hd
    exact tokenData_keys lf opts d t k hd
  · exact seedDefaults_keys opts vals k (Or.inl h)

/-- After the token loop the verdict of `validate` is ERROR exactly when an entry of the
result map is empty: every declared key is present. -/
theorem validateLevel_tokensData (lf : ScanLf) (opts : Map ConfigOption) (vals : Map Value)
    (tokens : List Str) :
    validateLevel opts (tokensData lf opts vals tokens).vals
      = if (tokensData lf opts vals tokens).vals.any (fun p => p.2.isEmpty)
        then LogLevel.ERROR else LogLevel.INFO := by
  rw [validateLevel_eq]
  have h : opts.any (fun o => (Map.find (tokensData lf opts vals tokens).vals o.1).isNone)
      = false := by
    rw [List.any_eq_false]
    intro o ho
    have := tokensData_keys lf opts vals tokens o.1 (List.mem_map_of_mem Prod.fst ho)
    cases hf : Map.find (tokensData lf opts vals tokens).vals o.1 with
    | none => rw [hf] at this; exact absurd this (by simp)
    | some v => simp
  rw [h, Bool.or_false]

/-! ## Outcomes of `Config::parse` -/

theorem Config.parsed_vals (lf : ScanLf) (cfg : Config) (argv0 : Str) (tokens : List Str) :
    (cfg.parsed lf argv0 tokens)._optionValues
      = (tokensData lf cfg._options cfg._optionValues tokens).vals := by
  unfold Config.parsed
  rw [(Config.validate_sameData _).2.1, Config.tokenLoop_vals]

theorem Config.parse_cons' (lf : ScanLf) (cfg : Config) (argv0 : Str) (tokens : List Str) :
    Config.parse lf cfg (argv0 :: tokens) =
      if cfg.formatAbort then
        some (false, (Config.checkFormat { cfg with _exeName := exeName argv0 }).2)
      else if cfg.validateAbort lf tokens then some (false, cfg.parsed lf argv0 tokens)
      else
        match Map.find (tokensData lf cfg._options cfg._optionValues tokens).vals
            "help".toList with
        | none => some (true, cfg.parsed lf argv0 tokens)
        | some v =>
            match v.getBoolean with
            | some _ => some (true, cfg.parsed lf argv0 tokens)
            | none => none := by
  rw [Config.parse_cons]
  rfl

theorem Config.validateAbort_iff (lf : ScanLf) (cfg : Config) (tokens : List Str) :
    cfg.validateAbort lf tokens ↔
      (∃ p ∈ (tokensData lf cfg._options cfg._optionValues tokens).vals, p.2.isEmpty = true)
        ∧ cfg._logLevel ≠ LogLevel.NONE := by
  unfold Config.validateAbort
  rw [validateLevel_tokensData]
  have hl : cfg._logLevel.toNat ≤ LogLevel.ERROR.toNat ↔ cfg._logLevel ≠ LogLevel.NONE := by
    cases cfg._logLevel <;> decide
  rw [hl]
  by_cases h : (tokensData lf cfg._options cfg._optionValues tokens).vals.any
      (fun p => p.2.isEmpty) = true
  · rw [if_pos h]
    rw [List.any_eq_true] at h
    exact ⟨fun hh => ⟨h, hh.2⟩, fun hh => ⟨by decide, hh.2⟩⟩
  · rw [if_neg h]
    constructor
    · intro hh; exact absurd hh.1 (by decide)
    · intro hh; exact absurd (List.any_eq_true.mpr hh.1) h

theorem Config.formatAbort_iff (cfg : Config) :
    cfg.formatAbort ↔
      LogLevel.ERROR.toNat ≤ (cfg.checkFormat).1.toNat ∧ cfg._logLevel ≠ LogLevel.NONE := by
  unfold Config.formatAbort
  rw [Config.checkFormat_level]
  have hl : cfg._logLevel.toNat ≤ LogLevel.ERROR.toNat ↔ cfg._logLevel ≠ LogLevel.NONE := by
    cases cfg._logLevel <;> decide
  rw [hl]

/-- When the threshold is not NONE and the payload invariant holds, `Config::parse`
returns on every non-empty argument vector. -/
theorem Config.parse_defined (lf : ScanLf) (cfg : Config) (argv0 : Str) (tokens : List Str)
    (hwf : cfg.valuesWF) (hlv : cfg._logLevel ≠ LogLevel.NONE) :
    ∃ r, Config.parse lf cfg (argv0 :: tokens)
      = some (r, if cfg.formatAbort
          then (Config.checkFormat { cfg with _exeName := exeName argv0 }).2
          else cfg.parsed lf argv0 tokens) := by
  rw [Config.parse_cons']
  by_cases h1 : cfg.formatAbort
  · exact ⟨false, by simp only [h1, if_true]⟩
  · by_cases h2 : cfg.validateAbort lf tokens
    · exact ⟨false, by simp only [h1, h2, if_true, if_false]⟩
    · refine ⟨true, ?_⟩
      simp only [h1, h2, if_false]
      cases hf : Map.find (tokensData lf cfg._options cfg._optionValues tokens).vals
          "help".toList with
      | none => rfl
      | some v =>
        have hmem := Map.mem_of_find _ _ _ hf
        have hvwf := tokensData_wf lf cfg tokens hwf _ hmem
        have hne : v.isEmpty = false := by
          cases he : v.isEmpty with
          | false => rfl
          | true =>
            exact absurd ((Config.validateAbort_iff lf cfg tokens).mpr
              ⟨⟨_, hmem, he⟩, hlv⟩) h2
        obtain ⟨b, hb⟩ := Value.getBoolean_isSome_of_wf v hvwf hne
        simp only [hb]

/-- What a returned pair of `Config::parse` says about the gates and the result map. -/
theorem Config.parse_some (lf : ScanLf) (cfg : Config) (argv0 : Str) (tokens : List Str)
    (r : Bool) (c : Config) (h : Config.parse lf cfg (argv0 :: tokens) = some (r, c)) :
    (cfg.formatAbort ∧ r = false
        ∧ c = (Config.checkFormat { cfg with _exeName := exeName argv0 }).2)
      ∨ (¬ cfg.formatAbort ∧ c = cfg.parsed lf argv0 tokens
        ∧ (r = false ↔ cfg.validateAbort lf tokens)) := by
  rw [Config.parse_cons'] at h
  by_cases h1 : cfg.formatAbort
  · left
    simp only [h1, if_true, Option.some.injEq, Prod.mk.injEq] at h
    exact ⟨h1, h.1.symm, h.2.symm⟩
  · right
    by_cases h2 : cfg.validateAbort lf tokens
    · simp only [h1, h2, if_true, if_false, Option.some.injEq, Prod.mk.injEq] at h
      exact ⟨h1, h.2.symm, by simp [h2, ← h.1]⟩
    · simp only [h1, h2, if_false] at h
      refine ⟨h1, ?_, ?_⟩
      · split at h
        · simp only [Option.some.injEq, Prod.mk.injEq] at h; exact h.2.symm
        · split at h
          · simp only [Option.some.injEq, Prod.mk.injEq] at h; exact h.2.symm
          · exact absurd h (by simp)
      · have hr : r = true := by
          split at h
          · simp only [Option.some.injEq, Prod.mk.injEq] at h; exact h.1.symm
          · split at h
            · simp only [Option.some.injEq, Prod.mk.injEq] at h; exact h.1.symm
            · exact absurd h (by simp)
        simp [hr, h2]

/-! ## Typing of the result map -/

theorem Map.mem_unique {β : Type} (m : Map β) (hwf : Map.WF m) (k : Str) (a b : β)
    (ha : (k, a) ∈ m) (hb : (k, b) ∈ m) : a = b := by
  have h1 := Map.find_of_mem m hwf k a ha
  have h2 := Map.find_of_mem m hwf k b hb
  rw [h1] at h2
  exact Option.some.inj h2

theorem getOptionIn_some (opts : Map ConfigOption) (hn : registryNamed opts) (token : Str)
    (tt : TokenType) (o : ConfigOption) (h : getOptionIn opts token tt = some o) :
    (o._flag, o) ∈ opts := by
  unfold getOptionIn at h
  simp only at h
  revert h
  generalize (if tt = TokenType.FLAG then List.drop 2 token
    else if tt = TokenType.SHORTFLAG then
      match List.find? (fun p => p.2._shortflag == List.drop 1 token) opts with
      | some found => found.1
      | none => List.drop 1 token
    else []) = flag
  intro h
  by_cases he : flag.isEmpty = true
  · rw [if_pos he] at h; exact absurd h (by simp)
  · rw [if_neg he] at h
    have hm := Map.mem_of_find _ _ _ h
    have := (hn _ hm).2
    simp only at this
    rw [this]
    exact hm

theorem getOptionIn_flag_none (opts : Map ConfigOption) (hn : registryNamed opts)
    (token : Str) (h : getOptionIn opts token TokenType.FLAG = none) :
    token.drop 2 ∉ Map.keys opts := by
  unfold getOptionIn at h
  simp only [if_true] at h
  intro hm
  by_cases he : (List.drop 2 token).isEmpty = true
  · obtain ⟨p, hp, hk⟩ := List.mem_map.mp hm
    have := (hn p hp)
    rw [← this.2] at hk
    rw [List.isEmpty_iff] at he
    exact this.1 (hk.trans he)
  · rw [if_neg he] at h
    have := Map.find_isSome_of_mem_keys opts _ hm
    rw [h] at this
    exact absurd this (by simp)

theorem loopTyped_assign (opts : Map ConfigOption) (hwf : Map.WF opts) (d : ParseData)
    (hd : ∀ p ∈ opts, ∃ v, Map.find d.vals p.1 = some v ∧ v.type = p.2._defaultValue.type)
    (o : ConfigOption) (v0 : Value) (hv : v0.type = o._defaultValue.type)
    (ho : (o._flag, o) ∈ opts ∨ o._flag ∉ Map.keys opts) :
    ∀ p ∈ opts, ∃ v, Map.find (Map.assign d.vals o._flag v0) p.1 = some v
      ∧ v.type = p.2._defaultValue.type := by
  intro p hp
  by_cases he : p.1 = o._flag
  · rcases ho with ho | ho
    · have hpo : p.2 = o := by
        apply Map.mem_unique opts hwf p.1
        · exact hp
        · rw [he]; exact ho
      rw [he, Map.find_assign_self]
      exact ⟨v0, rfl, by rw [hpo]; exact hv⟩
    · exact absurd (he ▸ List.mem_map_of_mem Prod.fst hp) ho
  · rw [Map.find_assign_ne _ _ _ _ he]
    exact hd p hp

theorem tokenData_typed (lf : ScanLf) (opts : Map ConfigOption) (hwf : Map.WF opts)
    (hn : registryNamed opts) (d : ParseData) (token : Str) (hd : loopTyped opts d) :
    loopTyped opts (tokenData lf opts d token) := by
  obtain ⟨h1, h2, h3⟩ := hd
  unfold tokenData
  cases htt : Config.getTokenType token
  · simp only [if_true]; exact ⟨h1, h2, h3⟩
  · cases hg : getOptionIn opts token TokenType.FLAG with
    | none =>
      have hk := getOptionIn_flag_none opts hn token hg
      have hw : (d.wildcard.flag (List.drop 2 token)).type = DataType.STRING := h3
      have hnb : ¬ (d.wildcard.flag (List.drop 2 token)).type = DataType.BOOL := by
        rw [hw]; decide
      simp only [hg, reduceCtorEq, if_false, true_or, if_true, hnb]
      refine ⟨h1, ?_, h3⟩
      intro o ho
      simp only [Option.some.injEq] at ho
      rw [← ho]
      exact Or.inr ⟨hk, hw⟩
    | some o =>
      have ho := getOptionIn_some opts hn token _ o hg
      simp only [hg, reduceCtorEq, if_false, true_or, if_true]
      split
      · rename_i hb
        refine ⟨loopTyped_assign opts hwf d h1 o _ ?_ (Or.inl ho), ?_, h3⟩
        · rw [← ConfigOption.type, hb]; rfl
        · intro o' ho'
          simp only [Option.some.injEq] at ho'
          rw [← ho']; exact Or.inl ho
      · refine ⟨h1, ?_, h3⟩
        intro o' ho'
        simp only [Option.some.injEq] at ho'
        rw [← ho']; exact Or.inl ho
  · cases hg : getOptionIn opts token TokenType.SHORTFLAG with
    | none =>
      simp only [hg, reduceCtorEq, if_false, or_true, if_true]
      exact ⟨h1, by intro o ho; exact absurd ho (by simp), h3⟩
    | some o =>
      have ho := getOptionIn_some opts hn token _ o hg
      simp only [hg, reduceCtorEq, if_false, or_true, if_true]
      split
      · rename_i hb
        refine ⟨loopTyped_assign opts hwf d h1 o _ ?_ (Or.inl ho), ?_, h3⟩
        · rw [← ConfigOption.type, hb]; rfl
        · intro o' ho'
          simp only [Option.some.injEq] at ho'
          rw [← ho']; exact Or.inl ho
      · refine ⟨h1, ?_, h3⟩
        intro o' ho'
        simp only [Option.some.injEq] at ho'
        rw [← ho']; exact Or.inl ho
  · cases hc : d.currentOption with
    | none =>
      simp only [reduceCtorEq, if_false, or_self]
      exact ⟨h1, by intro o ho; rw [hc] at ho; exact absurd ho (by simp), h3⟩
    | some o =>
      simp only [reduceCtorEq, if_false, or_self]
      split
      · exact ⟨h1, by intro o ho; exact absurd ho (by simp), h3⟩
      · rename_i hne
        have hne' : (Config.parseValue lf token o.type).isEmpty = false := by
          simpa using hne
        refine ⟨loopTyped_assign opts hwf d h1 o _ (parseValue_type lf token _ hne') ?_,
          by intro o ho; exact absurd ho (by simp), h3⟩
        rcases h2 o hc with h | h
        · exact Or.inl h
        · exact Or.inr h.1

theorem tokensData_typed (lf : ScanLf) (opts : Map ConfigOption) (hwf : Map.WF opts)
    (hn : registryNamed opts) (vals : Map Value) (tokens : List Str) :
    loopTyped opts (tokensData lf opts vals tokens) := by
  unfold tokensData
  refine foldl_invariant (loopTyped opts) (tokenData lf opts)
    (fun d t hd => tokenData_typed lf opts hwf hn d t hd) tokens _ ?_
  refine ⟨?_, by intro o ho; exact absurd ho (by simp), rfl⟩
  intro p hp
  exact ⟨_, seedDefaults_find_mem opts hwf vals p.1 p.2 hp, rfl⟩

/-- Claim C2. For a registry that satisfies the data model (every option stored under its
own, non-empty flag name), any starting result map and any argument vector: when
`Config::parse` returns true with a threshold other than NONE, every declared flag is a
key of the result map, and its `Value` is not empty and has the kind of the option's
default. -/
theorem parse_true_declared_typed (lf : ScanLf) (cfg cfg' : Config) (argv : List Str)
    (hwf : Map.WF cfg._options) (hn : registryNamed cfg._options)
    (hlv : cfg._logLevel ≠ LogLevel.NONE)
    (h : Config.parse lf cfg argv = some (true, cfg')) :
    ∀ p ∈ cfg._options, ∃ v, Map.find cfg'._optionValues p.2._flag = some v
      ∧ v.isEmpty = false ∧ v.type = p.2._defaultValue.type := by
  cases argv with
  | nil => exact absurd h (by simp [Config.parse])
  | cons argv0 tokens =>
    rcases Config.parse_some lf cfg argv0 tokens true cfg' h with ⟨_, hr, _⟩ | ⟨_, hc, hr⟩
    · exact absurd hr (by simp)
    · intro p hp
      obtain ⟨v, hv, ht⟩ := (tokensData_typed lf cfg._options hwf hn cfg._optionValues
        tokens).1 p hp
      rw [hc, Config.parsed_vals, (hn p hp).2]
      refine ⟨v, hv, ?_, ht⟩
      cases he : v.isEmpty with
      | false => rfl
      | true =>
        have hab := (Config.validateAbort_iff lf cfg tokens).mpr
          ⟨⟨_, Map.mem_of_find _ _ _ hv, he⟩, hlv⟩
        exact absurd (hr.mpr hab) (by simp)

/-- Witness of `parse_count_verbose` at `n = 5`, whose decimal text is `"5"`. -/
theorem parse_count_verbose_witness :
    (-2147483648 : Int) ≤ 5 ∧ (5 : Int) < 2147483648 ∧ printInt 5 = "5".toList
      ∧ ∃ cfg', Config.parse (fun _ => none) countVerboseConfig
            ["prog".toList, "-c".toList, printInt 5, "-v".toList] = some (true, cfg')
          ∧ cfg'._optionValues
              = [("count".toList, Value.ofInt 5), ("help".toList, Value.ofBool false),
                  ("verbose".toList, Value.ofBool true)] :=
  ⟨by decide, by decide, by decide,
    parse_count_verbose (fun _ => none) "prog".toList 5 (by decide) (by decide)⟩

/-- Witness of `parse_true_declared_typed` on the example of the specification. -/
theorem parse_true_declared_typed_witness :
    Map.WF countVerboseConfig._options ∧ registryNamed countVerboseConfig._options
      ∧ countVerboseConfig._logLevel ≠ LogLevel.NONE
      ∧ Config.parse (fun _ => none) countVerboseConfig
          ["prog".toList, "-c".toList, "5".toList, "-v".toList]
        = some (true, countVerboseConfig.parsed (fun _ => none) "prog".toList
            ["-c".toList, "5".toList, "-v".toList])
      ∧ ∀ p ∈ countVerboseConfig._options,
          ∃ v, Map.find (countVerboseConfig.parsed (fun _ => none) "prog".toList
              ["-c".toList, "5".toList, "-v".toList])._optionValues p.2._flag = some v
            ∧ v.isEmpty = false ∧ v.type = p.2._defaultValue.type :=
  ⟨by decide, by decide, by decide, by rfl,
    parse_true_declared_typed (fun _ => none) countVerboseConfig _
      ["prog".toList, "-c".toList, "5".toList, "-v".toList] (by decide) (by decide)
      (by decide) (by rfl)⟩

/-! ## The branches of the token loop -/

theorem parseToken_unknown (lf : ScanLf) (st : ParseState) (token : Str)
    (htt : Config.getTokenType token = TokenType.UNKNOWN) :
    Config.parseToken lf st token
      = { st with cfg := st.cfg.log LogLevel.ERROR token "unknown input".toList } := by
  unfold Config.parseToken
  simp [htt]

theorem parseToken_resolved (lf : ScanLf) (st : ParseState) (token : Str) (o : ConfigOption)
    (htt : Config.getTokenType token = TokenType.FLAG
      ∨ Config.getTokenType token = TokenType.SHORTFLAG)
    (hg : st.cfg.getOption token (Config.getTokenType token) = some o) :
    Config.parseToken lf st token
      = { cfg := if o.type = DataType.BOOL then
            { st.cfg with
              _optionValues := Map.assign st.cfg._optionValues o._flag (Value.ofBool true) }
            else st.cfg,
          wildcard := st.wildcard, currentOption := some o } := by
  unfold Config.parseToken
  rcases htt with htt | htt
  · rw [htt] at hg
    simp [htt, hg]
    split <;> rfl
  · rw [htt] at hg
    simp [htt, hg]
    split <;> rfl

theorem parseToken_unrecognized_long (lf : ScanLf) (st : ParseState) (token : Str)
    (htt : Config.getTokenType token = TokenType.FLAG)
    (hg : st.cfg.getOption token TokenType.FLAG = none)
    (hw : st.wildcard.type = DataType.STRING) :
    Config.parseToken lf st token
      = { cfg := st.cfg.log LogLevel.WARNING token "unrecognized flag".toList,
          wildcard := st.wildcard.flag (token.drop 2),
          currentOption := some (st.wildcard.flag (token.drop 2)) } := by
  unfold Config.parseToken
  have hw2 : ¬ (st.wildcard.flag (List.drop 2 token)).type = DataType.BOOL := by
    have : (st.wildcard.flag (List.drop 2 token)).type = DataType.STRING := hw
    rw [this]; decide
  simp [htt, hg, hw2]

theorem parseToken_unrecognized_short (lf : ScanLf) (st : ParseState) (token : Str)
    (htt : Config.getTokenType token = TokenType.SHORTFLAG)
    (hg : st.cfg.getOption token TokenType.SHORTFLAG = none) :
    Config.parseToken lf st token
      = { st with cfg := st.cfg.log LogLevel.WARNING token "unrecognized flag".toList,
                  currentOption := none } := by
  unfold Config.parseToken
  simp [htt, hg]

theorem parseToken_value_failed (lf : ScanLf) (st : ParseState) (token : Str)
    (o : ConfigOption) (htt : Config.getTokenType token = TokenType.VALUE)
    (hc : st.currentOption = some o)
    (hf : (Config.parseValue lf token o.type).isEmpty = true) :
    Config.parseToken lf st token
      = { st with
          cfg := st.cfg.log LogLevel.WARNING token "unvalid value type is provided".toList,
          currentOption := none } := by
  unfold Config.parseToken
  simp [htt, hc, hf]

theorem parseToken_value_stored (lf : ScanLf) (st : ParseState) (token : Str)
    (o : ConfigOption) (htt : Config.getTokenType token = TokenType.VALUE)
    (hc : st.currentOption = some o)
    (hf : (Config.parseValue lf token o.type).isEmpty = false) :
    Config.parseToken lf st token
      = { st with
          cfg := Config.log { st.cfg with
              _optionValues := Map.assign st.cfg._optionValues o._flag
                (Config.parseValue lf token o.type) }
            LogLevel.INFO token "value parsed successfully".toList,
          currentOption := none } := by
  unfold Config.parseToken
  simp [htt, hc, hf]

theorem parseToken_value_stray (lf : ScanLf) (st : ParseState) (token : Str)
    (htt : Config.getTokenType token = TokenType.VALUE) (hc : st.currentOption = none) :
    Config.parseToken lf st token
      = { st with
          cfg := st.cfg.log LogLevel.WARNING token
            "unassociated argument is not stored".toList } := by
  unfold Config.parseToken
  simp [htt, hc]

/-! ## The log only grows -/

theorem Config.log_mem_mono (cfg : Config) (l : LogLevel) (t m x : Str) (h : x ∈ cfg._log) :
    x ∈ (cfg.log l t m)._log := by
  unfold Config.log
  split
  · exact h
  · exact List.mem_append_left _ h

theorem Config.log_mem_self (cfg : Config) (l : LogLevel) (t m : Str)
    (h : cfg._logLevel.toNat ≤ l.toNat) : logString l t m ∈ (cfg.log l t m)._log := by
  unfold Config.log
  rw [if_neg (by omega)]
  exact List.mem_append_right _ (List.mem_singleton.mpr rfl)

theorem Config.parseToken_log_mono (lf : ScanLf) (st : ParseState) (token x : Str)
    (h : x ∈ st.cfg._log) : x ∈ (Config.parseToken lf st token).cfg._log := by
  unfold Config.parseToken
  cases htt : Config.getTokenType token
  · simp only [if_true]; exact Config.log_mem_mono _ _ _ _ _ h
  · cases hg : st.cfg.getOption token TokenType.FLAG
    · simp only [hg, reduceCtorEq, if_false, true_or, if_true]
      split <;> exact Config.log_mem_mono _ _ _ _ _ h
    · simp only [hg, reduceCtorEq, if_false, true_or, if_true]
      split <;> exact h
  · cases hg : st.cfg.getOption token TokenType.SHORTFLAG
    · simp only [hg, reduceCtorEq, if_false, or_true, if_true]
      exact Config.log_mem_mono _ _ _ _ _ h
    · simp only [hg, reduceCtorEq, if_false, or_true, if_true]
      split <;> exact h
  · cases hc : st.currentOption
    · simp only [reduceCtorEq, if_false, or_self]
      exact Config.log_mem_mono _ _ _ _ _ h
    · simp only [reduceCtorEq, if_false, or_self]
      split
      · exact Config.log_mem_mono _ _ _ _ _ h
      · exact Config.log_mem_mono _ _ _ _ _ h

theorem Config.validate_log_mono (cfg : Config) (x : Str) (h : x ∈ cfg._log) :
    x ∈ (cfg.validate).2._log := by
  unfold Config.validate
  refine foldl_invariant (fun (acc : LogLevel × Config) => x ∈ acc.2._log)
    (Config.validateOption cfg._optionValues) ?_ cfg._options _ ?_
  · intro acc opt hacc
    unfold Config.validateOption
    split
    · exact Config.log_mem_mono _ _ _ _ _ hacc
    · exact hacc
  · refine foldl_invariant (fun (acc : LogLevel × Config) => x ∈ acc.2._log)
      Config.validateValue ?_ cfg._optionValues _ h
    intro acc val hacc
    unfold Config.validateValue
    split
    · exact Config.log_mem_mono _ _ _ _ _ hacc
    · exact hacc

theorem Config.tokens_log_mono (lf : ScanLf) (tokens : List Str) (st : ParseState) (x : Str)
    (h : x ∈ st.cfg._log) : x ∈ (tokens.foldl (Config.parseToken lf) st).cfg._log :=
  foldl_invariant (fun (s : ParseState) => x ∈ s.cfg._log) (Config.parseToken lf)
    (fun s t hs => Config.parseToken_log_mono lf s t x hs) tokens st h

/-! ## Value tokens that store nothing -/

theorem Config.tokenLoop_append (lf : ScanLf) (cfg : Config) (argv0 : Str)
    (tokens : List Str) (token : Str) :
    cfg.tokenLoop lf argv0 (tokens ++ [token])
      = Config.parseToken lf (cfg.tokenLoop lf argv0 tokens) token := by
  unfold Config.tokenLoop
  rw [List.foldl_append]
  rfl

theorem tokensData_append (lf : ScanLf) (opts : Map ConfigOption) (vals : Map Value)
    (tokens : List Str) (token : Str) :
    tokensData lf opts vals (tokens ++ [token])
      = tokenData lf opts (tokensData lf opts vals tokens) token := by
  unfold tokensData
  rw [List.foldl_append]
  rfl

/-- The returned `bool` of `Config::parse` depends on the tokens only through the result map
they leave. -/
theorem Config.parse_fst_congr (lf : ScanLf) (cfg : Config) (argv0 : Str)
    (tokens tokens' : List Str)
    (h : (tokensData lf cfg._options cfg._optionValues tokens).vals
      = (tokensData lf cfg._options cfg._optionValues tokens').vals) :
    (Config.parse lf cfg (argv0 :: tokens)).map Prod.fst
      = (Config.parse lf cfg (argv0 :: tokens')).map Prod.fst := by
  have hva : cfg.validateAbort lf tokens ↔ cfg.validateAbort lf tokens' := by
    unfold Config.validateAbort; rw [h]
  rw [Config.parse_cons', Config.parse_cons']
  by_cases h1 : cfg.formatAbort
  · simp only [h1, if_true, Option.map_some']
  · by_cases h2 : cfg.validateAbort lf tokens
    · simp only [h1, h2, hva.mp h2, if_true, if_false, Option.map_some']
    · have h2' : ¬ cfg.validateAbort lf tokens' := fun hh => h2 (hva.mpr hh)
      simp only [h1, h2, h2', if_false]
      rw [← h]
      cases Map.find (tokensData lf cfg._options cfg._optionValues tokens).vals "help".toList with
      | none => rfl
      | some v =>
        simp only
        cases v.getBoolean <;> rfl

/-- Claim C6. When a value token arrives for a bound option and its coercion to the
option's type fails (`parseValue` returns an empty `Value`), the token pass logs a
Warning, leaves the result map as it was before the token, unbinds the option, and the
token does not change what `Config::parse` returns. -/
theorem parse_failed_coercion (lf : ScanLf) (cfg : Config) (argv0 : Str)
    (tokens : List Str) (token : Str) (o : ConfigOption)
    (hbound : (cfg.tokenLoop lf argv0 tokens).currentOption = some o)
    (htt : Config.getTokenType token = TokenType.VALUE)
    (hfail : (Config.parseValue lf token o.type).isEmpty = true) :
    cfg.tokenLoop lf argv0 (tokens ++ [token])
        = { cfg.tokenLoop lf argv0 tokens with
            cfg := (cfg.tokenLoop lf argv0 tokens).cfg.log LogLevel.WARNING token
              "unvalid value type is provided".toList,
            currentOption := none }
      ∧ (cfg._logLevel.toNat ≤ LogLevel.WARNING.toNat →
          logString LogLevel.WARNING token "unvalid value type is provided".toList
            ∈ (cfg.parsed lf argv0 (tokens ++ [token]))._log)
      ∧ (cfg.parsed lf argv0 (tokens ++ [token]))._optionValues
          = (cfg.parsed lf argv0 tokens)._optionValues
      ∧ (cfg.tokenLoop lf argv0 (tokens ++ [token])).currentOption = none
      ∧ (Config.parse lf cfg (argv0 :: (tokens ++ [token]))).map Prod.fst
          = (Config.parse lf cfg (argv0 :: tokens)).map Prod.fst := by
  have hstep := parseToken_value_failed lf (cfg.tokenLoop lf argv0 tokens) token o htt
    hbound hfail
  have happ := Config.tokenLoop_append lf cfg argv0 tokens token
  rw [hstep] at happ
  have hvals : (tokensData lf cfg._options cfg._optionValues (tokens ++ [token])).vals
      = (tokensData lf cfg._options cfg._optionValues tokens).vals := by
    rw [← Config.tokenLoop_vals lf cfg argv0, ← Config.tokenLoop_vals lf cfg argv0, happ]
    simp
  refine ⟨happ, ?_, ?_, ?_, Config.parse_fst_congr lf cfg argv0 _ _ hvals⟩
  · intro hlv
    unfold Config.parsed
    apply Config.validate_log_mono
    rw [happ]
    apply Config.log_mem_self
    rw [Config.tokenLoop_logLevel]
    exact hlv
  · rw [Config.parsed_vals, Config.parsed_vals, hvals]
  · rw [happ]

/-- Witness of `parse_failed_coercion` on `[prog, "-c", "notanumber"]`: `count` is bound,
`"notanumber"` is no integer; `count` stays 0 and `Config::parse` returns true. -/
theorem parse_failed_coercion_witness :
    (countVerboseConfig.tokenLoop (fun _ => none) "prog".toList ["-c".toList]).currentOption
        = Map.find countVerboseConfig._options "count".toList
      ∧ Config.getTokenType "notanumber".toList = TokenType.VALUE
      ∧ (Config.parseValue (fun _ => none) "notanumber".toList DataType.INT).isEmpty = true
      ∧ (Config.parse (fun _ => none) countVerboseConfig
            ["prog".toList, "-c".toList, "notanumber".toList]).map
          (fun r => (r.1, Map.find r.2._optionValues "count".toList))
          = some (true, some (Value.ofInt 0))
      ∧ (Config.parse (fun _ => none) countVerboseConfig
            ("prog".toList :: (["-c".toList] ++ ["notanumber".toList]))).map Prod.fst
          = (Config.parse (fun _ => none) countVerboseConfig
            ("prog".toList :: ["-c".toList])).map Prod.fst :=
  ⟨by rfl, by rfl, by rfl, by rfl,
    (parse_failed_coercion (fun _ => none) countVerboseConfig "prog".toList ["-c".toList]
      "notanumber".toList
      ((((ConfigOption.new.flag "count".toList).copy).shortflag "c".toList).defaultValue
        (Value.ofInt 0))
      (by rfl) (by rfl) (by rfl)).2.2.2.2⟩

theorem tokensData_nil (lf : ScanLf) (opts : Map ConfigOption) (vals : Map Value) :
    tokensData lf opts vals []
      = { vals := seedDefaults opts vals, wildcard := wildcardOption, currentOption := none } :=
  rfl

theorem Value.copy_isEmpty (v : Value) : v.copy.isEmpty = (v._type == DataType.UNKNOWN) := by
  simp [Value.copy, Value.copyData, Value.moveData, Value.isEmpty]

/-- Claim C7. A token made of `-` and a decimal literal (digits with an optional fractional
part) is classified VALUE, hence neither FLAG nor SHORTFLAG.  When it arrives while no
option is bound, the token pass logs the "unassociated argument" Warning and leaves the
result map unchanged; as the only token of a parse that `checkFormat` lets through, on an
object without earlier results, the result map is the seeded defaults, and the parse
returns true when every default is non-empty. -/
theorem parse_stray_negative_number (lf : ScanLf) (cfg : Config) (argv0 : Str)
    (tokens : List Str) (r : Str) (hlit : isDecimalLiteral r)
    (hunbound : (cfg.tokenLoop lf argv0 tokens).currentOption = none) :
    Config.getTokenType ('-' :: r) = TokenType.VALUE
      ∧ Config.getTokenType ('-' :: r) ≠ TokenType.FLAG
      ∧ Config.getTokenType ('-' :: r) ≠ TokenType.SHORTFLAG
      ∧ cfg.tokenLoop lf argv0 (tokens ++ ['-' :: r])
          = { cfg.tokenLoop lf argv0 tokens with
              cfg := (cfg.tokenLoop lf argv0 tokens).cfg.log LogLevel.WARNING ('-' :: r)
                "unassociated argument is not stored".toList }
      ∧ (cfg._logLevel.toNat ≤ LogLevel.WARNING.toNat →
          logString LogLevel.WARNING ('-' :: r) "unassociated argument is not stored".toList
            ∈ (cfg.parsed lf argv0 (tokens ++ ['-' :: r]))._log)
      ∧ (cfg.parsed lf argv0 (tokens ++ ['-' :: r]))._optionValues
          = (cfg.parsed lf argv0 tokens)._optionValues
      ∧ (¬ cfg.formatAbort → cfg._optionValues = [] →
          (∀ p ∈ cfg._options, p.2.getDefaultValue.wf = true
            ∧ p.2.getDefaultValue.isEmpty = false) →
          ∃ cfg', Config.parse lf cfg [argv0, '-' :: r] = some (true, cfg')
            ∧ cfg'._optionValues = seedDefaults cfg._options []) := by
  have hv := getTokenType_negative_decimal r hlit
  have hstep := parseToken_value_stray lf (cfg.tokenLoop lf argv0 tokens) ('-' :: r) hv
    hunbound
  have happ := Config.tokenLoop_append lf cfg argv0 tokens ('-' :: r)
  rw [hstep] at happ
  have hvals : (tokensData lf cfg._options cfg._optionValues (tokens ++ ['-' :: r])).vals
      = (tokensData lf cfg._options cfg._optionValues tokens).vals := by
    rw [← Config.tokenLoop_vals lf cfg argv0, ← Config.tokenLoop_vals lf cfg argv0, happ]
    simp
  refine ⟨hv, by rw [hv]; decide, by rw [hv]; decide, happ, ?_, ?_, ?_⟩
  · intro hlv
    unfold Config.parsed
    apply Config.validate_log_mono
    rw [happ]
    apply Config.log_mem_self
    rw [Config.tokenLoop_logLevel]
    exact hlv
  · rw [Config.parsed_vals, Config.parsed_vals, hvals]
  · intro hgate hstart hdef
    have hd1 : (tokensData lf cfg._options cfg._optionValues ['-' :: r]).vals
        = seedDefaults cfg._options [] := by
      have h1 := tokensData_append lf cfg._options cfg._optionValues [] ('-' :: r)
      rw [List.nil_append] at h1
      rw [h1, tokensData_nil, hstart]
      unfold tokenData
      simp [hv]
    have hall : ∀ p ∈ seedDefaults cfg._options [], p.2.wf = true ∧ p.2.isEmpty = false := by
      intro p hp
      rcases seedDefaults_mem _ _ _ hp with h1 | ⟨o, ho, he⟩
      · exact absurd h1 (List.not_mem_nil _)
      · rw [he]; exact hdef o ho
    have hva : ¬ cfg.validateAbort lf ['-' :: r] := by
      rw [Config.validateAbort_iff, hd1]
      rintro ⟨⟨p, hp, he⟩, _⟩
      rw [(hall p hp).2] at he
      exact absurd he (by simp)
    refine ⟨cfg.parsed lf argv0 ['-' :: r], ?_, by rw [Config.parsed_vals, hd1]⟩
    rw [Config.parse_cons']
    simp only [hgate, hva, if_false]
    rw [hd1]
    cases hf : Map.find (seedDefaults cfg._options []) "help".toList with
    | none => rfl
    | some v =>
      have hm := hall _ (Map.mem_of_find _ _ _ hf)
      obtain ⟨b, hb⟩ := Value.getBoolean_isSome_of_wf v hm.1 hm.2
      simp only [hb]

/-- Witness of `parse_stray_negative_number` on `[prog, "-3.5"]`. -/
theorem parse_stray_negative_number_witness :
    isDecimalLiteral "3.5".toList
      ∧ (countVerboseConfig.tokenLoop (fun _ => none) "prog".toList []).currentOption = none
      ∧ ¬ countVerboseConfig.formatAbort ∧ countVerboseConfig._optionValues = []
      ∧ (∀ p ∈ countVerboseConfig._options,
          p.2.getDefaultValue.wf = true ∧ p.2.getDefaultValue.isEmpty = false)
      ∧ ∃ cfg', Config.parse (fun _ => none) countVerboseConfig ["prog".toList, "-3.5".toList]
            = some (true, cfg')
          ∧ cfg'._optionValues = seedDefaults countVerboseConfig._options [] :=
  ⟨⟨"3".toList, "5".toList, by decide, by decide, by decide, Or.inr ⟨by decide, rfl⟩⟩,
    rfl, by decide, rfl, by decide,
    (parse_stray_negative_number (fun _ => none) countVerboseConfig "prog".toList []
      "3.5".toList
      ⟨"3".toList, "5".toList, by decide, by decide, by decide, Or.inr ⟨by decide, rfl⟩⟩
      rfl).2.2.2.2.2.2 (by decide) rfl (by decide)⟩

/-! ## Unrecognized long flags -/

theorem floatLiteralLen_minus (s : Str) : floatLiteralLen ('-' :: s) = 0 := by
  have h1 : hexLen ('-' :: s) = 0 := by
    cases s <;> simp [hexLen]
  have h2 : decimalLen ('-' :: s) = 0 := by
    have hd : isdigit '-' = false := by decide
    simp [decimalLen, mantissaLen, List.takeWhile_cons, List.dropWhile_cons, hd]
  have ht : tolower '-' = '-' := by decide
  have h3 : infLen ('-' :: s) = 0 := by
    simp [infLen, List.take, ht]
  have h4 : nanLen ('-' :: s) = 0 := by
    simp [nanLen, List.take, ht]
  simp [floatLiteralLen, h1, h2, h3, h4]

theorem getTokenType_long (name : Str) :
    Config.getTokenType ('-' :: '-' :: name) = TokenType.FLAG := by
  rw [getTokenType_minus]
  simp [strtodTakesAll, floatLiteralLen_minus]

theorem getOption_long_undeclared (cfg : Config) (name : Str)
    (h : name ∉ Map.keys cfg._options) :
    cfg.getOption ('-' :: '-' :: name) TokenType.FLAG = none := by
  unfold Config.getOption
  simp only [if_true, List.drop_succ_cons, List.drop_zero]
  split
  · rfl
  · exact Map.find_eq_none_of_not_mem_keys _ _ h

theorem Config.tokenLoop_nil (lf : ScanLf) (cfg : Config) (argv0 : Str) :
    cfg.tokenLoop lf argv0 []
      = { cfg := (Config.checkFormat { cfg with _exeName := exeName argv0 }).2.setDefaultValues,
          wildcard := wildcardOption, currentOption := none } := rfl

theorem Config.tokenLoop_cons_eq (lf : ScanLf) (cfg : Config) (argv0 : Str)
    (t1 t2 : Str) :
    cfg.tokenLoop lf argv0 [t1, t2]
      = Config.parseToken lf (Config.parseToken lf (cfg.tokenLoop lf argv0 []) t1) t2 := rfl

theorem Value.ofCStr_isEmpty (s : Str) : (Value.ofCStr s).isEmpty = false := rfl

/-- Claim C5. On a registry whose `checkFormat` verdict is below ERROR, for a name
(empty or not) that is no declared flag and a value token `t`, `Config::parse` on
`[prog, "--" ++ name, t]` at the default threshold logs the "unrecognized flag" Warning,
stores the string `Value` of `t` under `name`, and leaves every declared flag at its
default. -/
theorem parse_unrecognized_flag (lf : ScanLf) (cfg : Config) (argv0 name t : Str)
    (hwf : Map.WF cfg._options) (hvwf : cfg.valuesWF)
    (hcf : (cfg.checkFormat).1.toNat < LogLevel.ERROR.toNat)
    (hlv : cfg._logLevel = LogLevel.WARNING)
    (hnd : name ∉ Map.keys cfg._options)
    (ht : Config.getTokenType t = TokenType.VALUE) :
    ∃ b cfg', Config.parse lf cfg [argv0, '-' :: '-' :: name, t] = some (b, cfg')
      ∧ logString LogLevel.WARNING ('-' :: '-' :: name) "unrecognized flag".toList ∈ cfg'._log
      ∧ Map.find cfg'._optionValues name = some (Value.ofCStr t)
      ∧ ∀ p ∈ cfg._options, Map.find cfg'._optionValues p.1 = some p.2.getDefaultValue := by
  have hgate : ¬ cfg.formatAbort := by
    rw [Config.formatAbort_iff]
    intro hh
    omega
  have hne : cfg._logLevel ≠ LogLevel.NONE := by rw [hlv]; decide
  obtain ⟨b, hb⟩ := Config.parse_defined lf cfg argv0 ['-' :: '-' :: name, t] hvwf hne
  rw [if_neg hgate] at hb
  -- the first token
  have hg : (cfg.tokenLoop lf argv0 []).cfg.getOption ('-' :: '-' :: name) TokenType.FLAG
      = none := by
    apply getOption_long_undeclared
    rw [Config.tokenLoop_options]
    exact hnd
  have hs1 := parseToken_unrecognized_long lf (cfg.tokenLoop lf argv0 [])
    ('-' :: '-' :: name) (getTokenType_long name) hg rfl
  -- the second token
  have hs2 := parseToken_value_stored lf
    (Config.parseToken lf (cfg.tokenLoop lf argv0 []) ('-' :: '-' :: name)) t
    (wildcardOption.flag name) ht (by rw [hs1]; rfl)
    (by
      have : (wildcardOption.flag name).type = DataType.STRING := rfl
      rw [this, parseValue_string_eq]; rfl)
  have hloop := Config.tokenLoop_cons_eq lf cfg argv0 ('-' :: '-' :: name) t
  rw [hs2] at hloop
  have htype : (wildcardOption.flag name).type = DataType.STRING := rfl
  have hvals : (cfg.parsed lf argv0 ['-' :: '-' :: name, t])._optionValues
      = Map.assign (seedDefaults cfg._options cfg._optionValues) name (Value.ofCStr t) := by
    unfold Config.parsed
    rw [(Config.validate_sameData _).2.1, hloop]
    simp only [Config.log_optionValues]
    rw [hs1, htype, parseValue_string_eq]
    simp only [Config.log_optionValues]
    have h0 := Config.tokenLoop_vals lf cfg argv0 []
    rw [tokensData_nil] at h0
    rw [h0]
    rfl
  refine ⟨b, _, hb, ?_, ?_, ?_⟩
  · unfold Config.parsed
    apply Config.validate_log_mono
    rw [hloop]
    apply Config.log_mem_mono
    rw [hs1]
    apply Config.log_mem_self
    rw [Config.tokenLoop_logLevel, hlv]
  · rw [hvals, Map.find_assign_self]
  · intro p hp
    have hpk : p.1 ≠ name := by
      intro he
      exact hnd (he ▸ List.mem_map_of_mem Prod.fst hp)
    rw [hvals, Map.find_assign_ne _ _ _ _ hpk]
    exact seedDefaults_find_mem _ hwf _ p.1 p.2 hp

/-- Witness of `parse_unrecognized_flag` on `[prog, "--unknownflag", "x"]`. -/
theorem parse_unrecognized_flag_witness :
    Map.WF countVerboseConfig._options ∧ countVerboseConfig.valuesWF
      ∧ (countVerboseConfig.checkFormat).1.toNat < LogLevel.ERROR.toNat
      ∧ countVerboseConfig._logLevel = LogLevel.WARNING
      ∧ "unknownflag".toList ∉ Map.keys countVerboseConfig._options
      ∧ Config.getTokenType "x".toList = TokenType.VALUE
      ∧ ∃ b cfg', Config.parse (fun _ => none) countVerboseConfig
            ["prog".toList, "--unknownflag".toList, "x".toList] = some (b, cfg')
          ∧ logString LogLevel.WARNING "--unknownflag".toList "unrecognized flag".toList
              ∈ cfg'._log
          ∧ Map.find cfg'._optionValues "unknownflag".toList = some (Value.ofCStr "x".toList)
          ∧ ∀ p ∈ countVerboseConfig._options,
              Map.find cfg'._optionValues p.1 = some p.2.getDefaultValue :=
  ⟨by decide, by decide, by decide, rfl, by decide, by rfl,
    parse_unrecognized_flag (fun _ => none) countVerboseConfig "prog".toList
      "unknownflag".toList "x".toList (by decide) (by decide) (by decide) rfl
      (by decide) (by rfl)⟩

/-! ## Boolean coercion and boolean options -/

/-- The claim C10 as stated fails on `"fALSE"`: the token matches `"false"` when letter
case is ignored, and `Config::parseValue` turns it into `true`. -/
theorem coercion_fALSE_is_true :
    "fALSE".toList.map tolower = "false".toList
      ∧ Config.parseValue (fun _ => none) "fALSE".toList DataType.BOOL = Value.ofBool true
      ∧ Value.ofBool true ≠ Value.ofBool false := by
  decide

/-- Claim C10, amended. Boolean coercion never yields an empty `Value`: it yields Bool
false exactly for the five spellings `false`, `False`, `FALSE`, `F`, `f`, compared
letter for letter, and Bool true for every other token. -/
theorem parseValue_bool_spellings (lf : ScanLf) (token : Str) :
    (Config.parseValue lf token DataType.BOOL).isEmpty = false
      ∧ Config.parseValue lf token DataType.BOOL
          = if token ∈ falseSpellings then Value.ofBool false else Value.ofBool true := by
  refine ⟨?_, parseValue_bool_eq lf token⟩
  rw [parseValue_bool_eq]
  split <;> rfl

theorem Config.getOption_tokenLoop (lf : ScanLf) (cfg : Config) (argv0 : Str)
    (tokens : List Str) (token : Str) (tt : TokenType) :
    (cfg.tokenLoop lf argv0 tokens).cfg.getOption token tt = cfg.getOption token tt := by
  rw [Config.getOption_eq, Config.getOption_eq, Config.tokenLoop_options]

theorem Config.tokenLoop_one (lf : ScanLf) (cfg : Config) (argv0 : Str) (t1 : Str) :
    cfg.tokenLoop lf argv0 [t1] = Config.parseToken lf (cfg.tokenLoop lf argv0 []) t1 := rfl

theorem Config.tokenLoop_nil_vals (lf : ScanLf) (cfg : Config) (argv0 : Str) :
    (cfg.tokenLoop lf argv0 []).cfg._optionValues
      = seedDefaults cfg._options cfg._optionValues := by
  rw [Config.tokenLoop_vals, tokensData_nil]

/-- The claim C9 as stated fails on `[prog, "--verbose", "F"]`: `"F"` is a value token
other than `"false"`, and the entry of `verbose` ends as Bool false, not true. -/
theorem bool_flag_then_F_is_false :
    Config.getTokenType "F".toList = TokenType.VALUE ∧ "F".toList ≠ "false".toList
      ∧ (Config.parse (fun _ => none) countVerboseConfig
            ["prog".toList, "--verbose".toList, "F".toList]).map
          (fun r => Map.find r.2._optionValues "verbose".toList)
          = some (some (Value.ofBool false))
      ∧ Value.ofBool false ≠ Value.ofBool true := by
  refine ⟨by rfl, by decide, by rfl, by decide⟩

/-- Claim C9, amended. When `checkFormat` lets the parse through, a flag token that
resolves to an option `b` whose default is a Bool binds `b` and sets the entry of `b` to
Bool true at once: `[prog, flag]` leaves true.  The option stays bound and a directly
following value token `t` overwrites the entry with its coercion: `[prog, flag, t]` leaves
false when `t` is one of `false`, `False`, `FALSE`, `F`, `f`, and true for any other
value token. -/
theorem parse_bool_flag (lf : ScanLf) (cfg : Config) (argv0 ftok t : Str) (b : ConfigOption)
    (hvwf : cfg.valuesWF) (hlv : cfg._logLevel ≠ LogLevel.NONE) (hgate : ¬ cfg.formatAbort)
    (htt : Config.getTokenType ftok = TokenType.FLAG
      ∨ Config.getTokenType ftok = TokenType.SHORTFLAG)
    (hres : cfg.getOption ftok (Config.getTokenType ftok) = some b)
    (hbool : b.type = DataType.BOOL) (ht : Config.getTokenType t = TokenType.VALUE) :
    (cfg.tokenLoop lf argv0 [ftok]).currentOption = some b
      ∧ (∃ r c, Config.parse lf cfg [argv0, ftok] = some (r, c)
          ∧ Map.find c._optionValues b._flag = some (Value.ofBool true))
      ∧ (∃ r c, Config.parse lf cfg [argv0, ftok, t] = some (r, c)
          ∧ Map.find c._optionValues b._flag
            = some (if t ∈ falseSpellings then Value.ofBool false else Value.ofBool true)) := by
  have hs1 := parseToken_resolved lf (cfg.tokenLoop lf argv0 []) ftok b htt
    (by rw [Config.getOption_tokenLoop]; exact hres)
  rw [if_pos hbool] at hs1
  have hl1 := Config.tokenLoop_one lf cfg argv0 ftok
  rw [hs1] at hl1
  have hs2 := parseToken_value_stored lf (cfg.tokenLoop lf argv0 [ftok]) t b ht
    (by rw [hl1])
    (by rw [hbool, parseValue_bool_eq]; split <;> rfl)
  have hl2 : cfg.tokenLoop lf argv0 [ftok, t]
      = Config.parseToken lf (cfg.tokenLoop lf argv0 [ftok]) t := rfl
  rw [hs2] at hl2
  obtain ⟨r1, hr1⟩ := Config.parse_defined lf cfg argv0 [ftok] hvwf hlv
  obtain ⟨r2, hr2⟩ := Config.parse_defined lf cfg argv0 [ftok, t] hvwf hlv
  rw [if_neg hgate] at hr1 hr2
  refine ⟨by rw [hl1], ⟨r1, _, hr1, ?_⟩, ⟨r2, _, hr2, ?_⟩⟩
  · unfold Config.parsed
    rw [(Config.validate_sameData _).2.1, hl1]
    exact Map.find_assign_self _ _ _
  · unfold Config.parsed
    rw [(Config.validate_sameData _).2.1, hl2]
    simp only [Config.log_optionValues]
    rw [Map.find_assign_self, hbool, parseValue_bool_eq]

/-- Witness of `parse_bool_flag` on `--verbose` followed by `"no"`. -/
theorem parse_bool_flag_witness :
    countVerboseConfig.valuesWF ∧ countVerboseConfig._logLevel ≠ LogLevel.NONE
      ∧ ¬ countVerboseConfig.formatAbort
      ∧ Config.getTokenType "--verbose".toList = TokenType.FLAG
      ∧ countVerboseConfig.getOption "--verbose".toList TokenType.FLAG
          = Map.find countVerboseConfig._options "verbose".toList
      ∧ Config.getTokenType "no".toList = TokenType.VALUE
      ∧ (∃ r c, Config.parse (fun _ => none) countVerboseConfig
            ["prog".toList, "--verbose".toList] = some (r, c)
          ∧ Map.find c._optionValues "verbose".toList = some (Value.ofBool true))
      ∧ (∃ r c, Config.parse (fun _ => none) countVerboseConfig
            ["prog".toList, "--verbose".toList, "no".toList] = some (r, c)
          ∧ Map.find c._optionValues "verbose".toList = some (Value.ofBool true)) :=
  ⟨by decide, by decide, by decide, by rfl, by rfl, by rfl,
    (parse_bool_flag (fun _ => none) countVerboseConfig "prog".toList "--verbose".toList
      "no".toList
      ((((ConfigOption.new.flag "verbose".toList).copy).shortflag "v".toList).defaultValue
        (Value.ofBool false))
      (by decide) (by decide) (by decide) (Or.inl (by rfl)) (by rfl) (by rfl) (by rfl)).2⟩

/-! ## Short flags -/

theorem getOption_short_alias (cfg : Config) (x : Str) (hwf : Map.WF cfg._options)
    (hkeys : ∀ p ∈ cfg._options, p.1 ≠ [])
    (h : ∃ p ∈ cfg._options, p.2._shortflag = x) :
    ∃ p ∈ cfg._options, p.2._shortflag = x
      ∧ cfg.getOption ('-' :: x) TokenType.SHORTFLAG = some p.2 := by
  cases hf : cfg._options.find? (fun p => p.2._shortflag == x) with
  | none =>
    obtain ⟨p, hp, hx⟩ := h
    have := List.find?_eq_none.mp hf p hp
    simp [hx] at this
  | some q =>
    have hq := List.mem_of_find?_eq_some hf
    have hqx : q.2._shortflag = x := by
      have := List.find?_some hf
      simpa using this
    refine ⟨q, hq, hqx, ?_⟩
    unfold Config.getOption Config.translateShortflag
    simp only [reduceCtorEq, if_false, if_true, List.drop_succ_cons, List.drop_zero, hf]
    have hne : q.1.isEmpty = false := by
      cases hk : q.1 with
      | nil => exact absurd hk (hkeys q hq)
      | cons _ _ => rfl
    rw [hne]
    exact Map.find_of_mem _ hwf q.1 q.2 hq

theorem getOption_short_unresolved (cfg : Config) (x : Str)
    (h : ∀ p ∈ cfg._options, p.2._shortflag ≠ x ∧ p.1 ≠ x) :
    cfg.getOption ('-' :: x) TokenType.SHORTFLAG = none := by
  have hf : cfg._options.find? (fun p => p.2._shortflag == x) = none := by
    rw [List.find?_eq_none]
    intro p hp
    simpa using (h p hp).1
  unfold Config.getOption Config.translateShortflag
  simp only [reduceCtorEq, if_false, if_true, List.drop_succ_cons, List.drop_zero, hf]
  split
  · rfl
  · apply Map.find_eq_none_of_not_mem_keys
    intro hm
    obtain ⟨p, hp, hk⟩ := List.mem_map.mp hm
    exact (h p hp).2 hk

/-- The claim C8 as stated fails on the short-form token `-count`: no declared option
has the short alias `count`, yet the token resolves to the option named `count`, and the
following value is stored. -/
theorem long_name_taken_as_shortflag :
    (∀ p ∈ countVerboseConfig._options, p.2._shortflag ≠ "count".toList)
      ∧ Config.getTokenType "-count".toList = TokenType.SHORTFLAG
      ∧ countVerboseConfig.getOption "-count".toList TokenType.SHORTFLAG
          = Map.find countVerboseConfig._options "count".toList
      ∧ (Map.find countVerboseConfig._options "count".toList).isSome = true
      ∧ (Config.parse (fun _ => none) countVerboseConfig
            ["prog".toList, "-count".toList, "7".toList]).map
          (fun r => Map.find r.2._optionValues "count".toList)
          = some (some (Value.ofInt 7)) := by
  refine ⟨by decide, by rfl, by rfl, by rfl, by rfl⟩

/-- Claim C8, amended. On a registry with non-empty flag names, for a short-form token
`-x`: if some declared option has the short alias `x`, the token resolves to a declared
option with that alias; if no declared option has the short alias `x` and none is named
`x`, the token is unresolved: no option is bound, and a following value token is
discarded as unassociated, the result map staying as it was. -/
theorem shortflag_resolution (lf : ScanLf) (st : ParseState) (x v : Str)
    (hwf : Map.WF st.cfg._options) (hkeys : ∀ p ∈ st.cfg._options, p.1 ≠ [])
    (htt : Config.getTokenType ('-' :: x) = TokenType.SHORTFLAG)
    (hv : Config.getTokenType v = TokenType.VALUE) :
    ((∃ p ∈ st.cfg._options, p.2._shortflag = x) →
        ∃ p ∈ st.cfg._options, p.2._shortflag = x
          ∧ st.cfg.getOption ('-' :: x) TokenType.SHORTFLAG = some p.2)
      ∧ ((∀ p ∈ st.cfg._options, p.2._shortflag ≠ x ∧ p.1 ≠ x) →
        st.cfg.getOption ('-' :: x) TokenType.SHORTFLAG = none
          ∧ (Config.parseToken lf st ('-' :: x)).currentOption = none
          ∧ Config.parseToken lf (Config.parseToken lf st ('-' :: x)) v
              = { Config.parseToken lf st ('-' :: x) with
                  cfg := (Config.parseToken lf st ('-' :: x)).cfg.log LogLevel.WARNING v
                    "unassociated argument is not stored".toList }
          ∧ (Config.parseToken lf (Config.parseToken lf st ('-' :: x)) v).cfg._optionValues
              = st.cfg._optionValues) := by
  refine ⟨getOption_short_alias st.cfg x hwf hkeys, ?_⟩
  intro h
  have hg := getOption_short_unresolved st.cfg x h
  have hs1 := parseToken_unrecognized_short lf st ('-' :: x) htt hg
  have hc : (Config.parseToken lf st ('-' :: x)).currentOption = none := by rw [hs1]
  have hs2 := parseToken_value_stray lf (Config.parseToken lf st ('-' :: x)) v hv hc
  refine ⟨hg, hc, hs2, ?_⟩
  rw [hs2]
  simp only [Config.log_optionValues]
  rw [hs1]
  simp only [Config.log_optionValues]

/-- Witness of `shortflag_resolution`: on the example registry `-c` resolves to `count`,
and `-z` followed by `"5"` is unresolved and changes nothing. -/
theorem shortflag_resolution_witness :
    Map.WF countVerboseConfig._options ∧ (∀ p ∈ countVerboseConfig._options, p.1 ≠ [])
      ∧ Config.getTokenType "-c".toList = TokenType.SHORTFLAG
      ∧ Config.getTokenType "-z".toList = TokenType.SHORTFLAG
      ∧ Config.getTokenType "5".toList = TokenType.VALUE
      ∧ (∃ p ∈ countVerboseConfig._options, p.2._shortflag = "c".toList
          ∧ countVerboseConfig.getOption "-c".toList TokenType.SHORTFLAG = some p.2)
      ∧ (∀ p ∈ countVerboseConfig._options,
          p.2._shortflag ≠ "z".toList ∧ p.1 ≠ "z".toList)
      ∧ (Config.parseToken (fun _ => none)
            (Config.parseToken (fun _ => none)
              { cfg := countVerboseConfig, wildcard := wildcardOption, currentOption := none }
              "-z".toList) "5".toList).cfg._optionValues
          = countVerboseConfig._optionValues :=
  ⟨by decide, by decide, by rfl, by rfl, by rfl,
    (shortflag_resolution (fun _ => none)
      { cfg := countVerboseConfig, wildcard := wildcardOption, currentOption := none }
      "c".toList "5".toList (by decide) (by decide) (by rfl) (by rfl)).1
      ⟨("count".toList, (((ConfigOption.new.flag "count".toList).copy).shortflag
        "c".toList).defaultValue (Value.ofInt 0)), by decide, by decide⟩,
    by decide,
    ((shortflag_resolution (fun _ => none)
      { cfg := countVerboseConfig, wildcard := wildcardOption, currentOption := none }
      "z".toList "5".toList (by decide) (by decide) (by rfl) (by rfl)).2 (by decide)).2.2.2⟩

/-! ## When `Config::parse` returns false -/

theorem worseLevel_ne_NONE (a b : LogLevel) (ha : a ≠ LogLevel.NONE) (hb : b ≠ LogLevel.NONE) :
    worseLevel a b ≠ LogLevel.NONE := by
  cases a <;> cases b <;> simp_all [worseLevel, LogLevel.toNat]

theorem checkOptionLevel_ne_NONE (opts : Map ConfigOption) (lv : LogLevel)
    (opt : Str × ConfigOption) (h : lv ≠ LogLevel.NONE) :
    checkOptionLevel opts lv opt ≠ LogLevel.NONE := by
  unfold checkOptionLevel
  simp only
  have h1 : (if (!opt.2._required && opt.2.getDefaultValue.isEmpty) = true
      then worseLevel lv LogLevel.ERROR else lv) ≠ LogLevel.NONE := by
    split
    · exact worseLevel_ne_NONE _ _ h (by decide)
    · exact h
  have h2 := foldl_invariant (fun (a : LogLevel) => a ≠ LogLevel.NONE)
    (checkDuplicateLevel opt.2)
    (by
      intro a o2 ha
      unfold checkDuplicateLevel
      split
      · exact worseLevel_ne_NONE _ _ ha (by decide)
      · exact ha) opts _ h1
  split <;> split
  · exact worseLevel_ne_NONE _ _ (worseLevel_ne_NONE _ _ h2 (by decide)) (by decide)
  · exact worseLevel_ne_NONE _ _ h2 (by decide)
  · exact worseLevel_ne_NONE _ _ h2 (by decide)
  · exact h2

/-- The verdict of `Config::checkFormat` is never NONE. -/
theorem checkFormatLevel_ne_NONE (opts : Map ConfigOption) (desc : Str) :
    checkFormatLevel opts desc ≠ LogLevel.NONE := by
  unfold checkFormatLevel
  simp only
  have h := foldl_invariant (fun (a : LogLevel) => a ≠ LogLevel.NONE)
    (checkOptionLevel opts) (fun a o ha => checkOptionLevel_ne_NONE opts a o ha) opts
    LogLevel.INFO (by decide)
  split
  · exact worseLevel_ne_NONE _ _ h (by decide)
  · exact h

/-- The call `Config::parse` returns false exactly when the threshold is not NONE and either
`checkFormat` returns ERROR or, after the token pass, an entry of the result map is
empty. -/
theorem Config.parse_false_iff (lf : ScanLf) (cfg : Config) (argv0 : Str)
    (tokens : List Str) :
    (∃ c, Config.parse lf cfg (argv0 :: tokens) = some (false, c)) ↔
      cfg._logLevel ≠ LogLevel.NONE
        ∧ ((cfg.checkFormat).1 = LogLevel.ERROR
          ∨ ∃ p ∈ (cfg.tokenLoop lf argv0 tokens).cfg._optionValues, p.2.isEmpty = true) := by
  have hfa : cfg.formatAbort ↔
      (cfg.checkFormat).1 = LogLevel.ERROR ∧ cfg._logLevel ≠ LogLevel.NONE := by
    rw [Config.formatAbort_iff]
    have hn := checkFormatLevel_ne_NONE cfg._options cfg._description
    rw [← Config.checkFormat_level] at hn
    revert hn
    cases (cfg.checkFormat).1 <;> simp [LogLevel.toNat]
  rw [Config.tokenLoop_vals]
  constructor
  · rintro ⟨c, hc⟩
    rcases Config.parse_some lf cfg argv0 tokens false c hc with ⟨h1, _, _⟩ | ⟨_, _, h3⟩
    · exact ⟨(hfa.mp h1).2, Or.inl (hfa.mp h1).1⟩
    · have h4 := (Config.validateAbort_iff lf cfg tokens).mp (h3.mp rfl)
      exact ⟨h4.2, Or.inr h4.1⟩
  · rintro ⟨hlv, h⟩
    rw [Config.parse_cons']
    by_cases h1 : cfg.formatAbort
    · exact ⟨_, by rw [if_pos h1]⟩
    · have h2 : cfg.validateAbort lf tokens := by
        rw [Config.validateAbort_iff]
        rcases h with h | h
        · exact absurd (hfa.mpr ⟨h, hlv⟩) h1
        · exact ⟨h, hlv⟩
      exact ⟨_, by rw [if_neg h1, if_pos h2]⟩

/-- Claim C3, failing inputs. With the threshold NONE, `Config::parse` on `[prog]` does
not return true when the result map holds an empty `Value` under `help`: `validate`
finds the empty entry, the threshold NONE skips the abort, and `getBoolean()` then reads
through the null buffer (first object) or past the end of an empty array (second
object). -/
theorem parse_threshold_none_help_read :
    helpEntryConfig._logLevel = LogLevel.NONE
      ∧ helpEntryConfig._options = []
      ∧ helpEntryConfig._optionValues = [("help".toList, Value.new)]
      ∧ Config.parse (fun _ => none) helpEntryConfig ["prog".toList] = none
      ∧ helpDefaultConfig._logLevel = LogLevel.NONE
      ∧ helpDefaultConfig._optionValues = []
      ∧ Config.parse (fun _ => none) helpDefaultConfig ["prog".toList] = none := by
  refine ⟨by rfl, by rfl, by rfl, by rfl, by rfl, by rfl, by rfl⟩

/-! ## The declaration gate -/

/-- Claim C12. If `checkFormat` returns ERROR and the threshold is not NONE,
`Config::parse` returns false before it consumes any token: the result map and the
registry after the call are those before it (no default is seeded, no entry added or
changed), and the outcome is the one of the call without tokens, whatever the tokens. -/
theorem parse_format_abort (lf : ScanLf) (cfg : Config) (argv0 : Str) (tokens : List Str)
    (hcf : (cfg.checkFormat).1 = LogLevel.ERROR) (hlv : cfg._logLevel ≠ LogLevel.NONE) :
    ∃ c, Config.parse lf cfg (argv0 :: tokens) = some (false, c)
      ∧ c._optionValues = cfg._optionValues ∧ c._options = cfg._options
      ∧ Config.parse lf cfg (argv0 :: tokens) = Config.parse lf cfg [argv0] := by
  have hfa : cfg.formatAbort := by
    rw [Config.formatAbort_iff, hcf]
    exact ⟨by decide, hlv⟩
  have hsd := Config.checkFormat_sameData { cfg with _exeName := exeName argv0 }
  refine ⟨(Config.checkFormat { cfg with _exeName := exeName argv0 }).2, ?_, hsd.2.1, hsd.1, ?_⟩
  · rw [Config.parse_cons', if_pos hfa]
  · rw [Config.parse_cons', Config.parse_cons', if_pos hfa, if_pos hfa]

/-- Witness of `parse_format_abort`: `option("x")` without a default, then
`[prog, "--x", "1"]`. -/
theorem parse_format_abort_witness :
    (undefaultedConfig.checkFormat).1 = LogLevel.ERROR
      ∧ undefaultedConfig._logLevel ≠ LogLevel.NONE
      ∧ ∃ c, Config.parse (fun _ => none) undefaultedConfig
            ["prog".toList, "--x".toList, "1".toList] = some (false, c)
          ∧ c._optionValues = undefaultedConfig._optionValues
          ∧ c._options = undefaultedConfig._options
          ∧ Config.parse (fun _ => none) undefaultedConfig
              ["prog".toList, "--x".toList, "1".toList]
            = Config.parse (fun _ => none) undefaultedConfig ["prog".toList] :=
  ⟨by rfl, by decide,
    parse_format_abort (fun _ => none) undefaultedConfig "prog".toList
      ["--x".toList, "1".toList] (by rfl) (by decide)⟩

/-! ## The empty token -/

theorem Config.tokenLoop_append_list (lf : ScanLf) (cfg : Config) (argv0 : Str)
    (pre post : List Str) :
    cfg.tokenLoop lf argv0 (pre ++ post)
      = post.foldl (Config.parseToken lf) (cfg.tokenLoop lf argv0 pre) := by
  unfold Config.tokenLoop
  rw [List.foldl_append]

theorem tokensData_append_list (lf : ScanLf) (opts : Map ConfigOption) (vals : Map Value)
    (pre post : List Str) :
    tokensData lf opts vals (pre ++ post)
      = post.foldl (tokenData lf opts) (tokensData lf opts vals pre) := by
  unfold tokensData
  rw [List.foldl_append]

theorem tokenData_empty_token (lf : ScanLf) (opts : Map ConfigOption) (d : ParseData) :
    tokenData lf opts d [] = d := rfl

theorem tokensData_skip_empty (lf : ScanLf) (opts : Map ConfigOption) (vals : Map Value)
    (pre post : List Str) :
    tokensData lf opts vals (pre ++ [] :: post) = tokensData lf opts vals (pre ++ post) := by
  rw [tokensData_append_list, tokensData_append_list, List.foldl_cons, tokenData_empty_token]

/-- Claim C13. The empty token is classified UNKNOWN and logged as an Error; it changes
neither the result map nor the bound option.  Wherever it stands in the argument vector,
the tokens around it are processed as if it were absent: the result map is the same
(so `[.., flag, "", v]` stores `v` as `[.., flag, v]` does) and `Config::parse` returns
the same `bool` with and without it. -/
theorem parse_empty_token (lf : ScanLf) (cfg : Config) (argv0 : Str) (pre post : List Str) :
    Config.getTokenType [] = TokenType.UNKNOWN
      ∧ cfg.tokenLoop lf argv0 (pre ++ [[]])
          = { cfg.tokenLoop lf argv0 pre with
              cfg := (cfg.tokenLoop lf argv0 pre).cfg.log LogLevel.ERROR []
                "unknown input".toList }
      ∧ (cfg.tokenLoop lf argv0 (pre ++ [[]])).currentOption
          = (cfg.tokenLoop lf argv0 pre).currentOption
      ∧ (cfg.tokenLoop lf argv0 (pre ++ [[]])).cfg._optionValues
          = (cfg.tokenLoop lf argv0 pre).cfg._optionValues
      ∧ (cfg._logLevel ≠ LogLevel.NONE →
          logString LogLevel.ERROR [] "unknown input".toList
            ∈ (cfg.parsed lf argv0 (pre ++ [] :: post))._log)
      ∧ (cfg.parsed lf argv0 (pre ++ [] :: post))._optionValues
          = (cfg.parsed lf argv0 (pre ++ post))._optionValues
      ∧ (Config.parse lf cfg (argv0 :: (pre ++ [] :: post))).map Prod.fst
          = (Config.parse lf cfg (argv0 :: (pre ++ post))).map Prod.fst := by
  have hstep := parseToken_unknown lf (cfg.tokenLoop lf argv0 pre) [] rfl
  have happ := Config.tokenLoop_append lf cfg argv0 pre []
  rw [hstep] at happ
  have hd := tokensData_skip_empty lf cfg._options cfg._optionValues pre post
  refine ⟨rfl, happ, by rw [happ], by rw [happ]; simp only [Config.log_optionValues], ?_, ?_,
    Config.parse_fst_congr lf cfg argv0 _ _ (by rw [hd])⟩
  · intro hlv
    unfold Config.parsed
    apply Config.validate_log_mono
    have h1 : cfg.tokenLoop lf argv0 (pre ++ [] :: post)
        = post.foldl (Config.parseToken lf) (cfg.tokenLoop lf argv0 (pre ++ [[]])) := by
      rw [← Config.tokenLoop_append_list, List.append_assoc]
      rfl
    rw [h1]
    apply Config.tokens_log_mono
    rw [happ]
    apply Config.log_mem_self
    rw [Config.tokenLoop_logLevel]
    revert hlv
    cases cfg._logLevel <;> simp [LogLevel.toNat]
  · rw [Config.parsed_vals, Config.parsed_vals, hd]

/-! ## Declaring options -/

theorem Map.find_insert_self {β : Type} (m : Map β) (k : Str) (v : β) :
    Map.find (Map.insert m k v) k = some ((Map.find m k).getD v) := by
  unfold Map.insert
  cases h : Map.find m k with
  | none => simp only [Option.getD_none]; exact Map.find_assign_self m k v
  | some o => simp only [Option.getD_some]; exact h

theorem Map.find_insert_ne {β : Type} (m : Map β) (k k' : Str) (v : β) (hne : k' ≠ k) :
    Map.find (Map.insert m k v) k' = Map.find m k' := by
  unfold Map.insert
  cases h : Map.find m k with
  | none => exact Map.find_assign_ne m k k' v hne
  | some o => rfl

theorem Map.insert_of_find {β : Type} (m : Map β) (k : Str) (v o : β)
    (h : Map.find m k = some o) : Map.insert m k v = m := by
  unfold Map.insert
  rw [h]

/-- Claim C18. `Config::option(name)` registers the option or returns the existing entry.
The entry of `name` after the call is the existing one or, when `name` was not in the
registry, a new option whose flag is `name`, with an empty short alias, an empty
description, an empty default and `required = false`.  When `name` was in the registry the
object is unchanged.  Every other entry, the result map and the other members are
unchanged in both cases. -/
theorem option_registers_or_returns (cfg : Config) (name : Str) :
    Map.find (cfg.option name)._options name
        = some ((Map.find cfg._options name).getD (freshOption name))
      ∧ freshOption name
          = { _flag := name, _shortflag := [], _description := [],
              _defaultValue := Value.new.copy, _required := false }
      ∧ (Value.new.copy).isEmpty = true
      ∧ ((Map.find cfg._options name).isSome = true → cfg.option name = cfg)
      ∧ (∀ k, k ≠ name → Map.find (cfg.option name)._options k = Map.find cfg._options k)
      ∧ (cfg.option name)._optionValues = cfg._optionValues
      ∧ (cfg.option name)._log = cfg._log
      ∧ (cfg.option name)._autoHelp = cfg._autoHelp := by
  refine ⟨Map.find_insert_self _ _ _, rfl, rfl, ?_, ?_, rfl, rfl, rfl⟩
  · intro h
    cases hf : Map.find cfg._options name with
    | none => rw [hf] at h; exact absurd h (by simp)
    | some o =>
      unfold Config.option
      rw [Map.insert_of_find _ _ _ o hf]
  · intro k hk
    exact Map.find_insert_ne _ _ _ _ hk

/-! ## Membership test -/

/-- The claim C19 as stated fails on a fresh `Config`: `help` is declared in the registry
and `contains("help")` is false. -/
theorem contains_help_fresh_is_false :
    (Map.find Config.new._options "help".toList).isSome = true
      ∧ Config.new.contains "help".toList = false := by
  decide

/-- Claim C19, amended. `Config::contains(name)` is a membership test on the result map:
it returns true if and only if the result map holds an entry keyed `name`.  The registry
plays no part: `contains` is false for `help` on a fresh `Config`, and `option(f)` does
not change what `contains` returns, so on a fresh `Config` it is false for `f` right
after `option(f)`. -/
theorem contains_tests_result_map (cfg : Config) (name f : Str) :
    (cfg.contains name = true ↔ name ∈ Map.keys cfg._optionValues)
      ∧ Config.new.contains "help".toList = false
      ∧ (cfg.option f).contains name = cfg.contains name
      ∧ (Config.new.option f).contains f = false := by
  refine ⟨?_, by decide, rfl, rfl⟩
  unfold Config.contains
  constructor
  · intro h
    cases hf : Map.find cfg._optionValues name with
    | none => rw [hf] at h; exact absurd h (by simp)
    | some v => exact List.mem_map_of_mem Prod.fst (Map.mem_of_find _ _ _ hf)
  · exact Map.find_isSome_of_mem_keys _ _

/-! ## Auto-help -/

theorem Map.find_erase_self {β : Type} (m : Map β) (k : Str) :
    Map.find (Map.erase m k) k = none := by
  unfold Map.erase
  induction m with
  | nil => rfl
  | cons p rest ih =>
    by_cases h : p.1 = k
    · rw [List.filter_cons_of_neg (by simp [h])]
      exact ih
    · rw [List.filter_cons_of_pos (by simp [h])]
      obtain ⟨k1, v1⟩ := p
      rw [Map.find, if_neg h]
      exact ih

theorem Map.find_erase_ne {β : Type} (m : Map β) (k k' : Str) (hne : k' ≠ k) :
    Map.find (Map.erase m k) k' = Map.find m k' := by
  unfold Map.erase
  induction m with
  | nil => rfl
  | cons p rest ih =>
    obtain ⟨k1, v1⟩ := p
    by_cases h : k1 = k
    · rw [List.filter_cons_of_neg (by simp [h])]
      have h2 : ¬ k1 = k' := fun he => hne (he ▸ h)
      rw [Map.find, if_neg h2]
      exact ih
    · rw [List.filter_cons_of_pos (by simp [h])]
      by_cases h2 : k1 = k'
      · rw [Map.find, if_pos h2, Map.find, if_pos h2]
      · rw [Map.find, if_neg h2, Map.find, if_neg h2]
        exact ih

theorem Config.modify_find (cfg : Config) (flag : Str) (f : ConfigOption → ConfigOption)
    (k : Str) :
    Map.find (cfg.modify flag f)._options k
      = if k = flag then (Map.find cfg._options flag).map f else Map.find cfg._options k := by
  unfold Config.modify
  cases h : Map.find cfg._options flag with
  | none =>
    by_cases hk : k = flag
    · rw [if_pos hk, hk]; simpa using h
    · rw [if_neg hk]
  | some o =>
    by_cases hk : k = flag
    · rw [if_pos hk, hk]
      exact Map.find_assign_self _ _ _
    · rw [if_neg hk]
      exact Map.find_assign_ne _ _ _ _ hk

theorem Config.modify_autoHelp (cfg : Config) (flag : Str) (f : ConfigOption → ConfigOption) :
    (cfg.modify flag f)._autoHelp = cfg._autoHelp := by
  unfold Config.modify
  split <;> rfl

/-- What `Config::toggleAutoHelp(enabled)` does to the registry: `help` is registered
exactly when `enabled` is true and `help` was absent; in every other case `help` is
absent afterwards.  The other entries are unchanged. -/
theorem Config.toggleAutoHelp_find (cfg : Config) (enabled : Bool) :
    Map.find (cfg.toggleAutoHelp enabled)._options "help".toList
        = (if enabled && (Map.find cfg._options "help".toList).isNone then some helpOption
          else none)
      ∧ (∀ k, k ≠ "help".toList →
          Map.find (cfg.toggleAutoHelp enabled)._options k = Map.find cfg._options k)
      ∧ (cfg.toggleAutoHelp enabled)._autoHelp = enabled := by
  unfold Config.toggleAutoHelp
  simp only
  by_cases h1 : (enabled && (Map.find cfg._options "help".toList).isNone) = true
  · rw [if_pos h1, if_pos h1]
    have hnone : Map.find cfg._options "help".toList = none := by
      cases hf : Map.find cfg._options "help".toList with
      | none => rfl
      | some o => rw [hf] at h1; simp at h1
    have hen : enabled = true := by
      cases enabled
      · simp at h1
      · rfl
    refine ⟨?_, ?_, ?_⟩
    · rw [Config.modify_find, if_pos rfl]
      unfold Config.option
      simp only
      rw [Map.find_insert_self, hnone]
      rfl
    · intro k hk
      rw [Config.modify_find, if_neg hk]
      unfold Config.option
      simp only
      exact Map.find_insert_ne _ _ _ _ hk
    · rw [hen, Config.modify_autoHelp]
      rfl
  · rw [if_neg h1, if_neg h1]
    by_cases h2 : (Map.find cfg._options "help".toList).isSome = true
    · rw [if_pos h2]
      exact ⟨Map.find_erase_self _ _, fun k hk => Map.find_erase_ne _ _ _ hk, rfl⟩
    · rw [if_neg h2]
      refine ⟨?_, fun k _ => rfl, rfl⟩
      cases hf : Map.find cfg._options "help".toList with
      | none => rfl
      | some o => rw [hf] at h2; simp at h2

/-- Claim C17, failing input. A fresh `Config` holds `help`; a second
`toggleAutoHelp(true)` takes the `else` branch, finds `help` and erases it: auto-help is
enabled and the registry holds no `help`. -/
theorem toggleAutoHelp_again_erases_help :
    Map.find Config.new._options "help".toList = some helpOption
      ∧ helpOption._shortflag = "h".toList
      ∧ helpOption._defaultValue = Value.ofBool false
      ∧ (Config.new.toggleAutoHelp true)._autoHelp = true
      ∧ Map.find (Config.new.toggleAutoHelp true)._options "help".toList = none
      ∧ (Config.new.toggleAutoHelp true)._options = [] := by
  decide

/-! ## The value container -/

theorem charByte (x : Nat) (h : x < 256) : (Char.ofNat x).toNat = x := by
  have hv : x.isValidChar := Or.inl (by omega)
  simp [Char.ofNat, hv, Char.toNat, Char.ofNatAux, UInt32.toNat]

theorem Value.getInt_ofInt (n : Int) (h1 : -2147483648 ≤ n) (h2 : n < 2147483648) :
    (Value.ofInt n).getInt = some n := by
  have hb : ∀ x : Nat, (Char.ofNat (x % 256)).toNat = x % 256 :=
    fun x => charByte _ (Nat.mod_lt _ (by decide))
  show Value.getInt ⟨DataType.INT, 4, some ((intBytes n).take 4)⟩ = some n
  unfold intBytes Value.getInt
  simp only [List.take_succ_cons, List.take_zero, hb]
  congr 1
  have hu : (((n % 4294967296).toNat : Nat) : Int) = n % 4294967296 :=
    Int.toNat_of_nonneg (Int.emod_nonneg _ (by decide))
  generalize hg : (n % 4294967296).toNat = u at hu
  have hlt : u < 4294967296 := by omega
  have hsum : u % 256 + 256 * (u / 256 % 256) + 65536 * (u / 65536 % 256)
      + 16777216 * (u / 16777216 % 256) = u := by omega
  rw [hsum]
  split <;> omega

theorem Value.getBoolean_ofBool (b : Bool) : (Value.ofBool b).getBoolean = some b := by
  cases b <;> decide

theorem Value.getNumber_ofDouble (bits : Nat) (h : bits < 18446744073709551616) :
    (Value.ofDouble bits).getNumber = some bits := by
  have hb : ∀ x : Nat, (Char.ofNat (x % 256)).toNat = x % 256 :=
    fun x => charByte _ (Nat.mod_lt _ (by decide))
  have hd : doubleBytes bits
      = [Char.ofNat (bits / 256 ^ 0 % 256), Char.ofNat (bits / 256 ^ 1 % 256),
          Char.ofNat (bits / 256 ^ 2 % 256), Char.ofNat (bits / 256 ^ 3 % 256),
          Char.ofNat (bits / 256 ^ 4 % 256), Char.ofNat (bits / 256 ^ 5 % 256),
          Char.ofNat (bits / 256 ^ 6 % 256), Char.ofNat (bits / 256 ^ 7 % 256)] := rfl
  show Value.getNumber ⟨DataType.NUMBER, 8, some ((doubleBytes bits).take 8)⟩ = some bits
  rw [hd]
  unfold Value.getNumber
  simp only [List.take_succ_cons, List.take_zero, hb]
  congr 1
  norm_num
  omega

theorem Value.getString_ofString (s : Str) (h : Char.ofNat 0 ∉ s) :
    (Value.ofString s).getString = some s ∧ (Value.ofCStr s).getString = some s := by
  have htake : (s ++ [Char.ofNat 0]).take (s.length + 1) = s ++ [Char.ofNat 0] := by
    apply List.take_of_length_le
    simp
  have hall : ∀ c ∈ s, (fun c => c != Char.ofNat 0) c = true := by
    intro c hc
    simp only [bne_iff_ne, ne_eq]
    intro he
    exact h (he ▸ hc)
  have htw : (s ++ [Char.ofNat 0]).takeWhile (fun c => c != Char.ofNat 0) = s := by
    rw [List.takeWhile_append_of_pos hall]
    simp
  have hget : Value.getString ⟨DataType.STRING, s.length + 1, some (s ++ [Char.ofNat 0])⟩
      = some s := by
    unfold Value.getString
    simp only
    rw [if_pos (by simp), htw]
  constructor
  · show Value.getString ⟨DataType.STRING, s.length + 1,
      some ((s ++ [Char.ofNat 0]).take (s.length + 1))⟩ = some s
    rw [htake]; exact hget
  · show Value.getString ⟨DataType.STRING, s.length + 1,
      some ((s ++ [Char.ofNat 0]).take (s.length + 1))⟩ = some s
    rw [htake]; exact hget

/-- The claim C14 as stated fails on the `std::string` of the three characters `a`, NUL,
`b`: the constructor copies all four bytes and `getString()` stops at the first NUL. -/
theorem getString_stops_at_NUL :
    (Value.ofString ['a', Char.ofNat 0, 'b']).type = DataType.STRING
      ∧ (Value.ofString ['a', Char.ofNat 0, 'b'])._data
          = some ['a', Char.ofNat 0, 'b', Char.ofNat 0]
      ∧ (Value.ofString ['a', Char.ofNat 0, 'b']).getString = some ['a']
      ∧ ['a'] ≠ ['a', Char.ofNat 0, 'b'] := by
  decide

/-- Claim C14, amended. Round trip of the value container: for every `int` `n`,
`Value(n).getInt()` is `n`; for every `bool` `b`, `Value(b).getBoolean()` is `b`; for
every `double`, `Value(d).getNumber()` has the bits of `d`; and for every string `s` that
holds no NUL character, `Value(s).getString()` is `s`, for the `const char*` and the
`std::string` constructor alike.  Each constructed `Value` reports the matching kind. -/
theorem value_round_trip (n : Int) (b : Bool) (bits : Nat) (s : Str)
    (hn1 : -2147483648 ≤ n) (hn2 : n < 2147483648) (hbits : bits < 18446744073709551616)
    (hs : Char.ofNat 0 ∉ s) :
    (Value.ofInt n).getInt = some n ∧ (Value.ofInt n).type = DataType.INT
      ∧ (Value.ofBool b).getBoolean = some b ∧ (Value.ofBool b).type = DataType.BOOL
      ∧ (Value.ofDouble bits).getNumber = some bits
      ∧ (Value.ofDouble bits).type = DataType.NUMBER
      ∧ (Value.ofString s).getString = some s ∧ (Value.ofString s).type = DataType.STRING
      ∧ (Value.ofCStr s).getString = some s ∧ (Value.ofCStr s).type = DataType.STRING :=
  ⟨Value.getInt_ofInt n hn1 hn2, rfl, Value.getBoolean_ofBool b, rfl,
    Value.getNumber_ofDouble bits hbits, rfl, (Value.getString_ofString s hs).1, rfl,
    (Value.getString_ofString s hs).2, rfl⟩

/-- Witness of `value_round_trip` at `-7`, `true`, the bits of `1.0` and `"x"`. -/
theorem value_round_trip_witness :
    (-2147483648 : Int) ≤ -7 ∧ (-7 : Int) < 2147483648
      ∧ 4607182418800017408 < 18446744073709551616 ∧ Char.ofNat 0 ∉ "x".toList
      ∧ (Value.ofInt (-7)).getInt = some (-7)
      ∧ (Value.ofBool true).getBoolean = some true
      ∧ (Value.ofDouble 4607182418800017408).getNumber = some 4607182418800017408
      ∧ (Value.ofString "x".toList).getString = some "x".toList :=
  have h := value_round_trip (-7) true 4607182418800017408 "x".toList (by decide) (by decide)
    (by decide) (by decide)
  ⟨by decide, by decide, by decide, by decide, h.1, h.2.2.1, h.2.2.2.2.1, h.2.2.2.2.2.2.1⟩

/-! ## Emptiness, copies and moves -/

theorem Value.isEmpty_new : Value.new.isEmpty = true ∧ Value.unknown.isEmpty = true :=
  ⟨rfl, rfl⟩

theorem Value.isEmpty_typed (n : Int) (bits : Nat) (b : Bool) (s : Str) :
    (Value.ofInt n).isEmpty = false ∧ (Value.ofDouble bits).isEmpty = false
      ∧ (Value.ofBool b).isEmpty = false ∧ (Value.ofCStr s).isEmpty = false
      ∧ (Value.ofString s).isEmpty = false :=
  ⟨rfl, rfl, rfl, rfl, rfl⟩

/-- A copy whose `memcpy` is defined is empty exactly when the original is, for an
original whose kind and size agree (a `Value` of size 0 is untyped, as every constructor,
copy and move leaves it). -/
theorem Value.copyChecked_isEmpty (v c : Value) (hsz : v._size = 0 → v._type = DataType.UNKNOWN)
    (h : v.copyChecked = some c) : c.isEmpty = v.isEmpty ∧ c.type = v.type := by
  unfold Value.copyChecked at h
  split at h
  · exact absurd h (by simp)
  · rename_i hdef
    simp only [Option.some.injEq] at h
    rw [← h, Value.copy_isEmpty]
    refine ⟨?_, rfl⟩
    unfold Value.isEmpty
    cases hd : v._data with
    | some d => simp
    | none =>
      rw [hd] at hdef
      have h0 : v._size = 0 := by simpa using hdef
      rw [hsz h0]
      rfl

/-- Claim C15, failing input. After `Value a(5); Value b(std::move(a));` the value `a`
is empty, with kind INT, size 4 and a null buffer.  Its copy `Value c(a)` passes the null
buffer to `memcpy` with size 4, which is undefined; past the `memcpy` the copy owns a
buffer and has kind INT, so that `c.isEmpty()` is false while `a.isEmpty()` is true. -/
theorem copy_of_moved_from_int :
    movedFromInt.isEmpty = true
      ∧ movedFromInt = { _type := DataType.INT, _size := 4, _data := none }
      ∧ movedFromInt.copyChecked = none
      ∧ movedFromInt.copy.isEmpty = false := by
  decide

/-- The claim C16 as stated fails on `Value a(5); Value b(std::move(a));`: after the move
`a.type()` is INT, not UNKNOWN. -/
theorem moved_from_keeps_type :
    (Value.move (Value.ofInt 5)).2.type = DataType.INT
      ∧ (Value.moveAssign Value.new (Value.ofInt 5)).2.type = DataType.INT
      ∧ DataType.INT ≠ DataType.UNKNOWN := by
  decide

/-- Claim C16, amended. Moving a `Value` (move construction, or move assignment between
two objects) gives the destination the kind, the size and the buffer of the source and
leaves the source with a null buffer: after the move the source's `isEmpty()` is true.
The kind and the size of the source are not reset: its `type()` is what it was before the
move. -/
theorem move_empties_buffer_only (self other : Value) :
    (Value.move other).1 = other ∧ (Value.moveAssign self other).1 = other
      ∧ (Value.move other).2._data = none ∧ (Value.moveAssign self other).2._data = none
      ∧ (Value.move other).2.isEmpty = true ∧ (Value.moveAssign self other).2.isEmpty = true
      ∧ (Value.move other).2.type = other.type
      ∧ (Value.moveAssign self other).2.type = other.type
      ∧ (Value.move other).2._size = other._size
      ∧ (Value.moveAssign self other).2._size = other._size :=
  ⟨rfl, rfl, rfl, rfl, rfl, rfl, rfl, rfl, rfl, rfl⟩

/-! ## The verdict of the declaration check -/

theorem worseLevel_toNat (a b : LogLevel) :
    (worseLevel a b).toNat = max a.toNat b.toNat := by
  cases a <;> cases b <;> rfl

theorem LogLevel.toNat_inj (a b : LogLevel) (h : a.toNat = b.toNat) : a = b := by
  cases a <;> cases b <;> first | rfl | exact absurd h (by decide)

theorem foldl_checkDuplicateLevel (o : ConfigOption) (l : Map ConfigOption) (a : LogLevel) :
    (l.foldl (checkDuplicateLevel o) a).toNat
      = max a.toNat (if l.any (fun q =>
          o._flag != q.2._flag && o._shortflag == q.2._shortflag && !o._shortflag.isEmpty)
        then 2 else 0) := by
  induction l generalizing a with
  | nil => simp
  | cons q rest ih =>
    rw [List.foldl_cons, ih, List.any_cons]
    unfold checkDuplicateLevel
    by_cases hq : (o._flag != q.2._flag && o._shortflag == q.2._shortflag
        && !o._shortflag.isEmpty) = true
    · rw [if_pos hq, worseLevel_toNat, hq]
      simp only [Bool.true_or, if_true]
      have : LogLevel.ERROR.toNat = 2 := rfl
      rw [this]
      split <;> omega
    · rw [if_neg hq]
      have hq' : (o._flag != q.2._flag && o._shortflag == q.2._shortflag
        && !o._shortflag.isEmpty) = false := by simpa using hq
      rw [hq', Bool.false_or]

theorem ite_worseLevel_toNat (c : Bool) (a b : LogLevel) :
    (if c = true then worseLevel a b else a).toNat
      = max a.toNat (if c = true then b.toNat else 0) := by
  cases c
  · simp
  · simp [worseLevel_toNat]

theorem checkOptionLevel_toNat (opts : Map ConfigOption) (lv : LogLevel)
    (p : Str × ConfigOption) :
    (checkOptionLevel opts lv p).toNat
      = max lv.toNat (if formatErrorAt opts p.2 then 2
          else if formatWarningAt p.2 then 1 else 0) := by
  unfold checkOptionLevel formatErrorAt formatWarningAt
  simp only [ite_worseLevel_toNat, foldl_checkDuplicateLevel]
  have hE : LogLevel.ERROR.toNat = 2 := rfl
  have hW : LogLevel.WARNING.toNat = 1 := rfl
  rw [hE, hW]
  generalize (opts.any (fun q => p.2._flag != q.2._flag && p.2._shortflag == q.2._shortflag
      && !p.2._shortflag.isEmpty)) = d
  generalize (!p.2._required && p.2.getDefaultValue.isEmpty) = e
  generalize p.2._description.isEmpty = w1
  generalize p.2._shortflag.isEmpty = w2
  cases d <;> cases e <;> cases w1 <;> cases w2 <;> simp

theorem foldl_checkOptionLevel (opts l : Map ConfigOption) (lv : LogLevel) :
    (l.foldl (checkOptionLevel opts) lv).toNat
      = max lv.toNat (if l.any (fun p => formatErrorAt opts p.2) then 2
          else if l.any (fun p => formatWarningAt p.2) then 1 else 0) := by
  induction l generalizing lv with
  | nil => simp
  | cons p rest ih =>
    rw [List.foldl_cons, ih, checkOptionLevel_toNat, List.any_cons, List.any_cons]
    by_cases h1 : formatErrorAt opts p.2 = true <;>
    by_cases h2 : formatWarningAt p.2 = true <;>
    by_cases h3 : rest.any (fun p => formatErrorAt opts p.2) = true <;>
    by_cases h4 : rest.any (fun p => formatWarningAt p.2) = true <;>
    simp only [h1, h2, h3, h4, if_true, if_false, Bool.true_or, Bool.or_true, Bool.or_false,
      Bool.false_or, Bool.false_eq_true, Bool.or_self] <;>
    omega

theorem checkFormatLevel_toNat (opts : Map ConfigOption) (desc : Str) :
    (checkFormatLevel opts desc).toNat
      = if opts.any (fun p => formatErrorAt opts p.2) then 2
        else if opts.any (fun p => formatWarningAt p.2) || desc.isEmpty then 1 else 0 := by
  unfold checkFormatLevel
  simp only
  have hW : LogLevel.WARNING.toNat = 1 := rfl
  have hI : LogLevel.INFO.toNat = 0 := rfl
  have hfold := foldl_checkOptionLevel opts opts LogLevel.INFO
  by_cases h1 : opts.any (fun p => formatErrorAt opts p.2) = true <;>
  by_cases h2 : opts.any (fun p => formatWarningAt p.2) = true <;>
  by_cases h3 : desc.isEmpty = true <;>
  simp only [h1, h2, h3, if_true, if_false, Bool.true_or, Bool.or_true, Bool.or_false,
    Bool.false_or, Bool.false_eq_true, worseLevel_toNat, hfold, hW, hI, Bool.or_self] <;>
  omega

theorem formatErrorAt_iff (opts : Map ConfigOption) (hwf : Map.WF opts)
    (hn : ∀ p ∈ opts, p.2._flag = p.1) (p : Str × ConfigOption) (hp : p ∈ opts) :
    formatErrorAt opts p.2 = true ↔
      (p.2._required = false ∧ p.2.getDefaultValue.isEmpty = true)
        ∨ ∃ q ∈ opts, p ≠ q ∧ p.2._shortflag = q.2._shortflag ∧ p.2._shortflag ≠ [] := by
  unfold formatErrorAt
  rw [Bool.or_eq_true, List.any_eq_true]
  have hne : ∀ q ∈ opts, (p.2._flag ≠ q.2._flag ↔ p ≠ q) := by
    intro q hq
    constructor
    · intro h he
      exact h (by rw [he])
    · intro h he
      apply h
      have hk : p.1 = q.1 := by rw [← hn p hp, ← hn q hq, he]
      have hq' : (p.1, q.2) ∈ opts := by rw [hk]; exact hq
      have hv : p.2 = q.2 := Map.mem_unique opts hwf p.1 p.2 q.2 hp hq'
      exact Prod.ext hk hv
  constructor
  · rintro (h | ⟨q, hq, h⟩)
    · left
      simpa using h
    · right
      simp only [Bool.and_eq_true, bne_iff_ne, beq_iff_eq, Bool.not_eq_true',
        List.isEmpty_eq_false, ne_eq] at h
      exact ⟨q, hq, (hne q hq).mp h.1.1, h.1.2, h.2⟩
  · rintro (h | ⟨q, hq, h1, h2, h3⟩)
    · left
      simpa using h
    · right
      refine ⟨q, hq, ?_⟩
      simp only [Bool.and_eq_true, bne_iff_ne, beq_iff_eq, Bool.not_eq_true',
        List.isEmpty_eq_false, ne_eq]
      exact ⟨⟨(hne q hq).mpr h1, h2⟩, h3⟩

theorem any_formatErrorAt_iff (opts : Map ConfigOption) (hwf : Map.WF opts)
    (hn : ∀ p ∈ opts, p.2._flag = p.1) :
    opts.any (fun p => formatErrorAt opts p.2) = true ↔ declarationError opts := by
  rw [List.any_eq_true]
  unfold declarationError
  constructor
  · rintro ⟨p, hp, h⟩
    rcases (formatErrorAt_iff opts hwf hn p hp).mp h with h1 | ⟨q, hq, h2⟩
    · exact Or.inl ⟨p, hp, h1⟩
    · exact Or.inr ⟨p, hp, q, hq, h2⟩
  · rintro (⟨p, hp, h1⟩ | ⟨p, hp, q, hq, h2⟩)
    · exact ⟨p, hp, (formatErrorAt_iff opts hwf hn p hp).mpr (Or.inl h1)⟩
    · exact ⟨p, hp, (formatErrorAt_iff opts hwf hn p hp).mpr (Or.inr ⟨q, hq, h2⟩)⟩

theorem any_formatWarningAt_iff (opts : Map ConfigOption) (desc : Str) :
    (opts.any (fun p => formatWarningAt p.2) || desc.isEmpty) = true
      ↔ declarationWarning opts desc := by
  rw [Bool.or_eq_true, List.any_eq_true]
  unfold declarationWarning formatWarningAt
  simp only [Bool.or_eq_true, List.isEmpty_iff]

/-- Claim C11. For every registry in which each option is stored under its own flag name,
`Config::checkFormat()` never returns NONE; it returns ERROR exactly when some option is
not required and has an empty default or two distinct options share a non-empty short
alias; it returns WARNING exactly when there is no such error and some option has an
empty description or an empty short alias or the program description is empty; it
returns INFO exactly when there is neither.  The verdict is thus the worst severity
observed. -/
theorem checkFormat_verdict (cfg : Config) (hwf : Map.WF cfg._options)
    (hn : ∀ p ∈ cfg._options, p.2._flag = p.1) :
    (cfg.checkFormat).1 ≠ LogLevel.NONE
      ∧ ((cfg.checkFormat).1 = LogLevel.ERROR ↔ declarationError cfg._options)
      ∧ ((cfg.checkFormat).1 = LogLevel.WARNING ↔
          ¬ declarationError cfg._options
            ∧ declarationWarning cfg._options cfg._description)
      ∧ ((cfg.checkFormat).1 = LogLevel.INFO ↔
          ¬ declarationError cfg._options
            ∧ ¬ declarationWarning cfg._options cfg._description) := by
  rw [Config.checkFormat_level]
  have hnat := checkFormatLevel_toNat cfg._options cfg._description
  rw [← any_formatErrorAt_iff cfg._options hwf hn,
    ← any_formatWarningAt_iff cfg._options cfg._description]
  revert hnat
  generalize (cfg._options.any (fun p => formatErrorAt cfg._options p.2)) = e
  generalize (cfg._options.any (fun p => formatWarningAt p.2) || cfg._description.isEmpty) = w
  generalize checkFormatLevel cfg._options cfg._description = lv
  intro hnat
  cases e <;> cases w <;> cases lv <;> first
    | exact absurd hnat (by decide)
    | simp

/-- Witness of `checkFormat_verdict`: the example registry has no declaration error, and
`checkFormat` returns WARNING for its empty descriptions. -/
theorem checkFormat_verdict_witness :
    Map.WF countVerboseConfig._options
      ∧ (∀ p ∈ countVerboseConfig._options, p.2._flag = p.1)
      ∧ (countVerboseConfig.checkFormat).1 = LogLevel.WARNING
      ∧ (countVerboseConfig.checkFormat).1 ≠ LogLevel.NONE
      ∧ ((countVerboseConfig.checkFormat).1 = LogLevel.ERROR
          ↔ declarationError countVerboseConfig._options)
      ∧ ((countVerboseConfig.checkFormat).1 = LogLevel.WARNING ↔
          ¬ declarationError countVerboseConfig._options
            ∧ declarationWarning countVerboseConfig._options countVerboseConfig._description)
      ∧ ((countVerboseConfig.checkFormat).1 = LogLevel.INFO ↔
          ¬ declarationError countVerboseConfig._options
            ∧ ¬ declarationWarning countVerboseConfig._options
                countVerboseConfig._description) :=
  ⟨by decide, by decide, by decide,
    checkFormat_verdict countVerboseConfig (by decide) (by decide)⟩

/-! ## The key set of the result map -/

theorem Map.mem_keys_assign {β : Type} (m : Map β) (k : Str) (v : β) (k' : Str) :
    k' ∈ Map.keys (Map.assign m k v) ↔ k' = k ∨ k' ∈ Map.keys m := by
  constructor
  · intro h
    obtain ⟨p, hp, hk⟩ := List.mem_map.mp h
    rcases Map.mem_assign m k v p hp with h1 | h1
    · left; rw [← hk, h1]
    · right; rw [← hk]; exact List.mem_map_of_mem Prod.fst h1
  · intro h
    by_cases he : k' = k
    · rw [he]
      exact List.mem_map_of_mem Prod.fst
        (Map.mem_of_find _ _ _ (Map.find_assign_self m k v))
    · rcases h with h | h
      · exact absurd h he
      · have hs := Map.find_isSome_of_mem_keys m k' h
        rw [← Map.find_assign_ne m k k' v he] at hs
        obtain ⟨w, hw⟩ := Option.isSome_iff_exists.mp hs
        exact List.mem_map_of_mem Prod.fst (Map.mem_of_find _ _ _ hw)

theorem getOptionIn_some_key (opts : Map ConfigOption) (hn : ∀ p ∈ opts, p.2._flag = p.1)
    (token : Str) (tt : TokenType) (o : ConfigOption)
    (h : getOptionIn opts token tt = some o) : o._flag ∈ Map.keys opts := by
  unfold getOptionIn at h
  simp only at h
  revert h
  generalize (if tt = TokenType.FLAG then List.drop 2 token
    else if tt = TokenType.SHORTFLAG then
      match List.find? (fun p => p.2._shortflag == List.drop 1 token) opts with
      | some found => found.1
      | none => List.drop 1 token
    else []) = flag
  intro h
  by_cases he : flag.isEmpty = true
  · rw [if_pos he] at h; exact absurd h (by simp)
  · rw [if_neg he] at h
    have hm := Map.mem_of_find _ _ _ h
    have := hn _ hm
    simp only at this
    rw [this]
    exact List.mem_map_of_mem Prod.fst hm

theorem unmatchedName_mono (opts : Map ConfigOption) (toks : List Str) (token k : Str)
    (h : unmatchedName opts toks k) : unmatchedName opts (toks ++ [token]) k := by
  obtain ⟨tok, ht, h1⟩ := h
  exact ⟨tok, List.mem_append_left _ ht, h1⟩

theorem tokenData_loopKeys (lf : ScanLf) (opts : Map ConfigOption)
    (hn : ∀ p ∈ opts, p.2._flag = p.1) (toks : List Str) (d : ParseData) (token : Str)
    (hd : loopKeys opts toks d) : loopKeys opts (toks ++ [token]) (tokenData lf opts d token) := by
  obtain ⟨h1, h2, h3⟩ := hd
  have h1' : ∀ k ∈ Map.keys d.vals,
      k ∈ Map.keys opts ∨ unmatchedName opts (toks ++ [token]) k := by
    intro k hk
    rcases h1 k hk with h | h
    · exact Or.inl h
    · exact Or.inr (unmatchedName_mono opts toks token k h)
  have hassign : ∀ (k0 : Str) (v : Value),
      (k0 ∈ Map.keys opts ∨ unmatchedName opts (toks ++ [token]) k0) →
      ∀ k ∈ Map.keys (Map.assign d.vals k0 v),
        k ∈ Map.keys opts ∨ unmatchedName opts (toks ++ [token]) k := by
    intro k0 v h0 k hk
    rcases (Map.mem_keys_assign d.vals k0 v k).mp hk with h | h
    · rw [h]; exact h0
    · exact h1' k h
  have hnone : ∀ o : ConfigOption, (none : Option ConfigOption) = some o →
      o._flag ∈ Map.keys opts
        ∨ (o.type = DataType.STRING ∧ unmatchedName opts (toks ++ [token]) o._flag) := by
    intro o ho; exact absurd ho (by simp)
  unfold tokenData
  cases htt : Config.getTokenType token
  · simp only [if_true]
    refine ⟨h1', ?_, h3⟩
    intro o ho
    rcases h2 o ho with h | h
    · exact Or.inl h
    · exact Or.inr ⟨h.1, unmatchedName_mono opts toks token _ h.2⟩
  · cases hg : getOptionIn opts token TokenType.FLAG with
    | none =>
      have hw : (d.wildcard.flag (List.drop 2 token)).type = DataType.STRING := h3
      have hnb : ¬ (d.wildcard.flag (List.drop 2 token)).type = DataType.BOOL := by
        rw [hw]; decide
      simp only [hg, reduceCtorEq, if_false, true_or, if_true, hnb]
      refine ⟨h1', ?_, h3⟩
      intro o ho
      simp only [Option.some.injEq] at ho
      rw [← ho]
      exact Or.inr ⟨hw, token, List.mem_append_right _ (List.mem_singleton_self _), htt, hg,
        rfl⟩
    | some o =>
      have ho := getOptionIn_some_key opts hn token _ o hg
      simp only [hg, reduceCtorEq, if_false, true_or, if_true]
      split
      · refine ⟨hassign _ _ (Or.inl ho), ?_, h3⟩
        intro o' ho'
        simp only [Option.some.injEq] at ho'
        rw [← ho']; exact Or.inl ho
      · refine ⟨h1', ?_, h3⟩
        intro o' ho'
        simp only [Option.some.injEq] at ho'
        rw [← ho']; exact Or.inl ho
  · cases hg : getOptionIn opts token TokenType.SHORTFLAG with
    | none =>
      simp only [hg, reduceCtorEq, if_false, or_true, if_true]
      exact ⟨h1', hnone, h3⟩
    | some o =>
      have ho := getOptionIn_some_key opts hn token _ o hg
      simp only [hg, reduceCtorEq, if_false, or_true, if_true]
      split
      · refine ⟨hassign _ _ (Or.inl ho), ?_, h3⟩
        intro o' ho'
        simp only [Option.some.injEq] at ho'
        rw [← ho']; exact Or.inl ho
      · refine ⟨h1', ?_, h3⟩
        intro o' ho'
        simp only [Option.some.injEq] at ho'
        rw [← ho']; exact Or.inl ho
  · cases hc : d.currentOption with
    | none =>
      simp only [reduceCtorEq, if_false, or_self]
      exact ⟨h1', by intro o ho; rw [hc] at ho; exact absurd ho (by simp), h3⟩
    | some o =>
      simp only [reduceCtorEq, if_false, or_self]
      split
      · exact ⟨h1', hnone, h3⟩
      · refine ⟨hassign _ _ ?_, hnone, h3⟩
        rcases h2 o hc with h | h
        · exact Or.inl h
        · exact Or.inr (unmatchedName_mono opts toks token _ h.2)

theorem foldl_tokenData_loopKeys (lf : ScanLf) (opts : Map ConfigOption)
    (hn : ∀ p ∈ opts, p.2._flag = p.1) (post pre : List Str) (d : ParseData)
    (hd : loopKeys opts pre d) :
    loopKeys opts (pre ++ post) (post.foldl (tokenData lf opts) d) := by
  induction post generalizing pre d with
  | nil => rw [List.append_nil]; exact hd
  | cons t rest ih =>
    have := ih (pre ++ [t]) _ (tokenData_loopKeys lf opts hn pre d t hd)
    rw [List.append_assoc] at this
    exact this

theorem tokensData_loopKeys (lf : ScanLf) (opts : Map ConfigOption)
    (hn : ∀ p ∈ opts, p.2._flag = p.1) (tokens : List Str) :
    loopKeys opts tokens (tokensData lf opts [] tokens) := by
  have h0 : loopKeys opts []
      { vals := seedDefaults opts [], wildcard := wildcardOption, currentOption := none } := by
    refine ⟨?_, by intro o ho; exact absurd ho (by simp), rfl⟩
    intro k hk
    obtain ⟨p, hp, hpk⟩ := List.mem_map.mp hk
    rcases seedDefaults_mem opts [] p hp with h | ⟨o, ho, he⟩
    · exact absurd h (List.not_mem_nil _)
    · left
      rw [← hpk, he]
      exact List.mem_map_of_mem Prod.fst ho
  have := foldl_tokenData_loopKeys lf opts hn tokens [] _ h0
  rw [List.nil_append] at this
  exact this

/-- A token that is not a value token leaves the key set of the result map as it is. -/
theorem tokenData_flag_keys (lf : ScanLf) (opts : Map ConfigOption)
    (hn : ∀ p ∈ opts, p.2._flag = p.1) (d : ParseData) (token : Str)
    (hk : ∀ k ∈ Map.keys opts, k ∈ Map.keys d.vals)
    (hw : d.wildcard.type = DataType.STRING)
    (ht : Config.getTokenType token ≠ TokenType.VALUE) (k : Str) :
    k ∈ Map.keys (tokenData lf opts d token).vals ↔ k ∈ Map.keys d.vals := by
  have hassign : ∀ (k0 : Str) (v : Value), k0 ∈ Map.keys opts →
      (k ∈ Map.keys (Map.assign d.vals k0 v) ↔ k ∈ Map.keys d.vals) := by
    intro k0 v h0
    rw [Map.mem_keys_assign]
    constructor
    · rintro (h | h)
      · rw [h]; exact hk k0 h0
      · exact h
    · exact fun h => Or.inr h
  unfold tokenData
  cases htt : Config.getTokenType token
  · simp only [if_true]
  · cases hg : getOptionIn opts token TokenType.FLAG with
    | none =>
      have hw' : (d.wildcard.flag (List.drop 2 token)).type = DataType.STRING := hw
      have hnb : ¬ (d.wildcard.flag (List.drop 2 token)).type = DataType.BOOL := by
        rw [hw']; decide
      simp only [hg, reduceCtorEq, if_false, true_or, if_true, hnb]
    | some o =>
      have ho := getOptionIn_some_key opts hn token _ o hg
      simp only [hg, reduceCtorEq, if_false, true_or, if_true]
      split
      · exact hassign _ _ ho
      · exact Iff.rfl
  · cases hg : getOptionIn opts token TokenType.SHORTFLAG with
    | none =>
      simp only [hg, reduceCtorEq, if_false, or_true, if_true]
    | some o =>
      have ho := getOptionIn_some_key opts hn token _ o hg
      simp only [hg, reduceCtorEq, if_false, or_true, if_true]
      split
      · exact hassign _ _ ho
      · exact Iff.rfl
  · exact absurd htt ht

/-- Counterexample to claim C20 as written: on the example registry and the arguments
`--u x`, the key set after the long-form token `--u` is the declared one, and the value
token `x` adds the key `u`. -/
theorem value_token_adds_key :
    Config.getTokenType "x".toList = TokenType.VALUE
      ∧ countVerboseConfig._optionValues = []
      ∧ ¬ countVerboseConfig.formatAbort
      ∧ Map.keys (countVerboseConfig.tokenLoop (fun _ => none) "prog".toList
            ["--u".toList]).cfg._optionValues
          = ["count".toList, "help".toList, "verbose".toList]
      ∧ Map.keys (countVerboseConfig.tokenLoop (fun _ => none) "prog".toList
            ["--u".toList, "x".toList]).cfg._optionValues
          = ["count".toList, "help".toList, "u".toList, "verbose".toList]
      ∧ (Config.parse (fun _ => none) countVerboseConfig
            ["prog".toList, "--u".toList, "x".toList]).map
              (fun r => (r.1, Map.keys r.2._optionValues))
          = some (true, ["count".toList, "help".toList, "u".toList, "verbose".toList]) := by
  decide

/-- Claim C20, amended. For a registry in which each option is stored under its own flag
name and an empty starting result map: after a `Config::parse` call that `checkFormat`
did not abort, every declared flag name is a key of the result map; every other key is
the name (the token without its leading `--`) of a long-form flag token of the argument
vector that matched no declared option; and no token other than a value token changes
the key set, so that the key of an unmatched long-form flag is added by the value token
bound to it. -/
theorem parse_key_set (lf : ScanLf) (cfg : Config) (argv0 : Str) (tokens : List Str)
    (r : Bool) (c : Config)
    (hn : ∀ p ∈ cfg._options, p.2._flag = p.1)
    (he : cfg._optionValues = []) (hna : ¬ cfg.formatAbort)
    (h : Config.parse lf cfg (argv0 :: tokens) = some (r, c)) :
    (∀ k ∈ Map.keys cfg._options, k ∈ Map.keys c._optionValues)
      ∧ (∀ k ∈ Map.keys c._optionValues, k ∈ Map.keys cfg._options
          ∨ ∃ tok ∈ tokens, Config.getTokenType tok = TokenType.FLAG
              ∧ cfg.getOption tok TokenType.FLAG = none ∧ k = tok.drop 2)
      ∧ (∀ pre tok post, tokens = pre ++ tok :: post →
          Config.getTokenType tok ≠ TokenType.VALUE →
          ∀ k, k ∈ Map.keys (cfg.tokenLoop lf argv0 (pre ++ [tok])).cfg._optionValues
            ↔ k ∈ Map.keys (cfg.tokenLoop lf argv0 pre).cfg._optionValues) := by
  rcases Config.parse_some lf cfg argv0 tokens r c h with ⟨ha, _, _⟩ | ⟨_, hc, _⟩
  · exact absurd ha hna
  · have hkeys : ∀ (toks : List Str), ∀ k ∈ Map.keys cfg._options,
        k ∈ Map.keys (tokensData lf cfg._options cfg._optionValues toks).vals := by
      intro toks k hk
      have hs := tokensData_keys lf cfg._options cfg._optionValues toks k hk
      obtain ⟨w, hw⟩ := Option.isSome_iff_exists.mp hs
      exact List.mem_map_of_mem Prod.fst (Map.mem_of_find _ _ _ hw)
    refine ⟨?_, ?_, ?_⟩
    · intro k hk
      rw [hc, Config.parsed_vals]
      exact hkeys tokens k hk
    · intro k hk
      rw [hc, Config.parsed_vals, he] at hk
      rcases (tokensData_loopKeys lf cfg._options hn tokens).1 k hk with h1 | ⟨tok, ht, h2⟩
      · exact Or.inl h1
      · right
        refine ⟨tok, ht, h2.1, ?_, h2.2.2⟩
        rw [Config.getOption_eq]
        exact h2.2.1
    · intro pre tok post _ htt k
      rw [Config.tokenLoop_vals, Config.tokenLoop_vals, tokensData_append]
      apply tokenData_flag_keys lf cfg._options hn _ tok (hkeys pre) _ htt
      have := (tokensData_loopKeys lf cfg._options hn pre).2.2
      rw [he]
      exact this

/-- Witness of `parse_key_set`: the example registry and the arguments `--u x -v`, whose
result map has the keys `count`, `help`, `u` and `verbose`. -/
theorem parse_key_set_witness :
    (∀ p ∈ countVerboseConfig._options, p.2._flag = p.1)
      ∧ countVerboseConfig._optionValues = []
      ∧ ¬ countVerboseConfig.formatAbort
      ∧ Config.parse (fun _ => none) countVerboseConfig
          ["prog".toList, "--u".toList, "x".toList, "-v".toList]
        = some (true, countVerboseConfig.parsed (fun _ => none) "prog".toList
            ["--u".toList, "x".toList, "-v".toList])
      ∧ Map.keys (countVerboseConfig.parsed (fun _ => none) "prog".toList
            ["--u".toList, "x".toList, "-v".toList])._optionValues
          = ["count".toList, "help".toList, "u".toList, "verbose".toList]
      ∧ ((∀ k ∈ Map.keys countVerboseConfig._options,
          k ∈ Map.keys (countVerboseConfig.parsed (fun _ => none) "prog".toList
            ["--u".toList, "x".toList, "-v".toList])._optionValues)
        ∧ (∀ k ∈ Map.keys (countVerboseConfig.parsed (fun _ => none) "prog".toList
            ["--u".toList, "x".toList, "-v".toList])._optionValues,
          k ∈ Map.keys countVerboseConfig._options
            ∨ ∃ tok ∈ ["--u".toList, "x".toList, "-v".toList],
                Config.getTokenType tok = TokenType.FLAG
                ∧ countVerboseConfig.getOption tok TokenType.FLAG = none ∧ k = tok.drop 2)
        ∧ (∀ pre tok post, ["--u".toList, "x".toList, "-v".toList] = pre ++ tok :: post →
          Config.getTokenType tok ≠ TokenType.VALUE →
          ∀ k, k ∈ Map.keys (countVerboseConfig.tokenLoop (fun _ => none) "prog".toList
                (pre ++ [tok])).cfg._optionValues
            ↔ k ∈ Map.keys (countVerboseConfig.tokenLoop (fun _ => none) "prog".toList
                pre).cfg._optionValues)) :=
  ⟨by decide, by decide, by decide, by decide, by decide,
    parse_key_set (fun _ => none) countVerboseConfig "prog".toList
      ["--u".toList, "x".toList, "-v".toList] true _ (by decide) (by decide) (by decide)
      (by decide)⟩

/-! ## An option without a default -/

/-- Claim C22. For every registry in which each option is stored under its own,
non-empty flag name and which holds an option whose default `Value` is empty, and for
every argument vector: `Config::parse` returns false whenever the threshold is not NONE.
The kind of the option is UNKNOWN, every value token coerces to an empty `Value` for it,
and its entry of the result map is empty after every prefix of the tokens, so that
`validate` meets an empty entry. -/
theorem parse_empty_default_fails (lf : ScanLf) (cfg : Config) (argv0 : Str)
    (tokens : List Str) (k : Str) (o : ConfigOption)
    (hwf : Map.WF cfg._options) (hn : registryNamed cfg._options)
    (ho : (k, o) ∈ cfg._options) (he : o.getDefaultValue.isEmpty = true)
    (hlv : cfg._logLevel ≠ LogLevel.NONE) :
    (∃ c, Config.parse lf cfg (argv0 :: tokens) = some (false, c))
      ∧ o.type = DataType.UNKNOWN
      ∧ (∀ token, (Config.parseValue lf token o.type).isEmpty = true)
      ∧ (∀ pre post, tokens = pre ++ post →
          ∃ v, Map.find (cfg.tokenLoop lf argv0 pre).cfg._optionValues k = some v
            ∧ v.isEmpty = true) := by
  have hty : o.type = DataType.UNKNOWN := by
    unfold ConfigOption.getDefaultValue at he
    rw [Value.copy_isEmpty] at he
    simpa [ConfigOption.type, Value.type] using he
  have hentry : ∀ toks : List Str,
      ∃ v, Map.find (cfg.tokenLoop lf argv0 toks).cfg._optionValues k = some v
        ∧ v.isEmpty = true := by
    intro toks
    obtain ⟨v, hv, ht⟩ := (tokensData_typed lf cfg._options hwf hn cfg._optionValues toks).1
      (k, o) ho
    refine ⟨v, by rw [Config.tokenLoop_vals]; exact hv, ?_⟩
    have hvt : v._type = DataType.UNKNOWN := by
      have := ht.trans hty
      exact this
    unfold Value.isEmpty
    rw [hvt]
    simp
  refine ⟨?_, hty, ?_, fun pre _ _ => hentry pre⟩
  · rw [Config.parse_false_iff]
    refine ⟨hlv, Or.inr ?_⟩
    obtain ⟨v, hv, hev⟩ := hentry tokens
    exact ⟨(k, v), Map.mem_of_find _ _ _ hv, hev⟩
  · intro token
    rw [hty]
    rfl

/-- Witness of `parse_empty_default_fails`: `x` is required and has no default; on
`[prog, "--x", "5"]` the parse returns false. -/
theorem parse_empty_default_fails_witness :
    Map.WF requiredNoDefaultConfig._options ∧ registryNamed requiredNoDefaultConfig._options
      ∧ ("x".toList, (freshOption "x".toList).required true) ∈ requiredNoDefaultConfig._options
      ∧ ((freshOption "x".toList).required true).getDefaultValue.isEmpty = true
      ∧ requiredNoDefaultConfig._logLevel ≠ LogLevel.NONE
      ∧ ¬ requiredNoDefaultConfig.formatAbort
      ∧ ∃ c, Config.parse (fun _ => none) requiredNoDefaultConfig
          ["prog".toList, "--x".toList, "5".toList] = some (false, c) :=
  ⟨by decide, by decide, by decide, by decide, by decide, by decide,
    (parse_empty_default_fails (fun _ => none) requiredNoDefaultConfig "prog".toList
      ["--x".toList, "5".toList] "x".toList ((freshOption "x".toList).required true)
      (by decide) (by decide) (by decide) (by decide) (by decide)).1⟩

/-! ## The lone dash -/

theorem logString_level (l1 l2 : LogLevel) (t1 m1 t2 m2 : Str)
    (h1 : l1 ≠ LogLevel.NONE) (h2 : l2 ≠ LogLevel.NONE)
    (h : logString l1 t1 m1 = logString l2 t2 m2) : l1 = l2 := by
  have h7 := congrArg (fun s => List.get? s 7) h
  cases l1 <;> cases l2 <;> first
    | rfl
    | exact absurd rfl h1
    | exact absurd rfl h2
    | (simp [logString, logTag] at h7)

theorem logGrown_refl (c : Config) : logGrown c._logLevel c._log c :=
  ⟨rfl, [], (List.append_nil _).symm, fun _ he => absurd he (List.not_mem_nil _)⟩

theorem logGrown_log (thr : LogLevel) (base : List Str) (c : Config) (l : LogLevel)
    (t m : Str) (hl : l ≠ LogLevel.NONE) (h : logGrown thr base c) :
    logGrown thr base (c.log l t m) := by
  obtain ⟨h1, added, h2, h3⟩ := h
  unfold Config.log
  split
  · exact ⟨h1, added, h2, h3⟩
  · rename_i hlt
    refine ⟨h1, added ++ [logString l t m], ?_, ?_⟩
    · show c._log ++ [logString l t m] = base ++ (added ++ [logString l t m])
      rw [h2, List.append_assoc]
    · intro e he
      rcases List.mem_append.mp he with he | he
      · exact h3 e he
      · rw [List.mem_singleton.mp he]
        refine ⟨l, t, m, rfl, hl, ?_⟩
        rw [← h1]
        omega

theorem Config.checkDuplicate_logGrown (thr : LogLevel) (base : List Str) (o : ConfigOption)
    (a : LogLevel × Config) (opt2 : Str × ConfigOption) (h : logGrown thr base a.2) :
    logGrown thr base (Config.checkDuplicate o a opt2).2 := by
  unfold Config.checkDuplicate
  simp only
  split
  · exact logGrown_log _ _ _ _ _ _ (by decide) h
  · exact h

theorem Config.checkOption_logGrown (thr : LogLevel) (base : List Str)
    (opts : Map ConfigOption) (acc : LogLevel × Config) (opt : Str × ConfigOption)
    (h : logGrown thr base acc.2) :
    logGrown thr base (Config.checkOption opts acc opt).2 := by
  unfold Config.checkOption
  simp only
  have h1 : logGrown thr base
      (if (!opt.2._required && opt.2.getDefaultValue.isEmpty) = true then
        (worseLevel acc.1 LogLevel.ERROR,
          acc.2.log LogLevel.ERROR opt.2._flag "default value is not defined".toList)
      else acc).2 := by
    split
    · exact logGrown_log _ _ _ _ _ _ (by decide) h
    · exact h
  have h2 := foldl_invariant (fun (a : LogLevel × Config) => logGrown thr base a.2)
    (Config.checkDuplicate opt.2)
    (fun a x ha => Config.checkDuplicate_logGrown thr base opt.2 a x ha) opts _ h1
  split <;> split
  · exact logGrown_log _ _ _ _ _ _ (by decide) (logGrown_log _ _ _ _ _ _ (by decide) h2)
  · exact logGrown_log _ _ _ _ _ _ (by decide) h2
  · exact logGrown_log _ _ _ _ _ _ (by decide) h2
  · exact h2

theorem Config.checkFormat_logGrown (thr : LogLevel) (base : List Str) (cfg : Config)
    (h : logGrown thr base cfg) : logGrown thr base (cfg.checkFormat).2 := by
  unfold Config.checkFormat
  simp only
  have hf := foldl_invariant (fun (a : LogLevel × Config) => logGrown thr base a.2)
    (Config.checkOption cfg._options)
    (fun a x ha => Config.checkOption_logGrown thr base cfg._options a x ha)
    cfg._options (LogLevel.INFO, cfg) h
  split
  · exact logGrown_log _ _ _ _ _ _ (by decide) hf
  · exact hf

theorem Config.validate_logGrown (thr : LogLevel) (base : List Str) (cfg : Config)
    (h : logGrown thr base cfg) : logGrown thr base (cfg.validate).2 := by
  unfold Config.validate
  refine foldl_invariant (fun (acc : LogLevel × Config) => logGrown thr base acc.2)
    (Config.validateOption cfg._optionValues) ?_ cfg._options _ ?_
  · intro acc opt hacc
    unfold Config.validateOption
    split
    · exact logGrown_log _ _ _ _ _ _ (by decide) hacc
    · exact hacc
  · refine foldl_invariant (fun (acc : LogLevel × Config) => logGrown thr base acc.2)
      Config.validateValue ?_ cfg._optionValues _ h
    intro acc val hacc
    unfold Config.validateValue
    split
    · exact logGrown_log _ _ _ _ _ _ (by decide) hacc
    · exact hacc

theorem logGrown_vals (thr : LogLevel) (base : List Str) (c : Config) (vals : Map Value)
    (h : logGrown thr base c) : logGrown thr base { c with _optionValues := vals } := h

theorem Config.parseToken_logGrown (thr : LogLevel) (base : List Str) (lf : ScanLf)
    (st : ParseState) (token : Str) (h : logGrown thr base st.cfg) :
    logGrown thr base (Config.parseToken lf st token).cfg := by
  unfold Config.parseToken
  cases htt : Config.getTokenType token
  · simp only [if_true]; exact logGrown_log _ _ _ _ _ _ (by decide) h
  · cases hg : st.cfg.getOption token TokenType.FLAG
    · simp only [hg, reduceCtorEq, if_false, true_or, if_true]
      split
      · exact logGrown_vals _ _ _ _ (logGrown_log _ _ _ _ _ _ (by decide) h)
      · exact logGrown_log _ _ _ _ _ _ (by decide) h
    · simp only [hg, reduceCtorEq, if_false, true_or, if_true]
      split
      · exact logGrown_vals _ _ _ _ h
      · exact h
  · cases hg : st.cfg.getOption token TokenType.SHORTFLAG
    · simp only [hg, reduceCtorEq, if_false, or_true, if_true]
      exact logGrown_log _ _ _ _ _ _ (by decide) h
    · simp only [hg, reduceCtorEq, if_false, or_true, if_true]
      split
      · exact logGrown_vals _ _ _ _ h
      · exact h
  · cases hc : st.currentOption
    · simp only [reduceCtorEq, if_false, or_self]
      exact logGrown_log _ _ _ _ _ _ (by decide) h
    · simp only [reduceCtorEq, if_false, or_self]
      split
      · exact logGrown_log _ _ _ _ _ _ (by decide) h
      · exact logGrown_log _ _ _ _ _ _ (by decide) (logGrown_vals _ _ _ _ h)

theorem Config.tokenLoop_logGrown (lf : ScanLf) (cfg : Config) (argv0 : Str)
    (tokens : List Str) :
    logGrown cfg._logLevel cfg._log (cfg.tokenLoop lf argv0 tokens).cfg := by
  unfold Config.tokenLoop
  refine foldl_invariant (fun (s : ParseState) => logGrown cfg._logLevel cfg._log s.cfg)
    (Config.parseToken lf)
    (fun s t hs => Config.parseToken_logGrown _ _ lf s t hs) tokens _ ?_
  rw [Config.setDefaultValues_eq]
  apply logGrown_vals
  exact Config.checkFormat_logGrown _ _ _ (logGrown_refl cfg)

theorem Config.parse_logGrown (lf : ScanLf) (cfg : Config) (argv : List Str) (r : Bool)
    (c : Config) (h : Config.parse lf cfg argv = some (r, c)) :
    logGrown cfg._logLevel cfg._log c := by
  cases argv with
  | nil => exact absurd h (by simp [Config.parse])
  | cons argv0 tokens =>
    rcases Config.parse_some lf cfg argv0 tokens r c h with ⟨_, _, hc⟩ | ⟨_, hc, _⟩
    · rw [hc]
      exact Config.checkFormat_logGrown _ _ _ (logGrown_refl cfg)
    · rw [hc]
      unfold Config.parsed
      exact Config.validate_logGrown _ _ _ (Config.tokenLoop_logGrown lf cfg argv0 tokens)

theorem Config.formatAbort_threshold (cfg : Config) (v : Bool) (l : LogLevel)
    (h1 : cfg._logLevel ≠ LogLevel.NONE) (h2 : l ≠ LogLevel.NONE) :
    Config.formatAbort { cfg with _verbose := v, _logLevel := l } ↔ cfg.formatAbort := by
  unfold Config.formatAbort
  simp only
  have e1 : cfg._logLevel.toNat ≤ LogLevel.ERROR.toNat := by
    revert h1; cases cfg._logLevel <;> decide
  have e2 : l.toNat ≤ LogLevel.ERROR.toNat := by
    revert h2; cases l <;> decide
  constructor
  · exact fun h => ⟨h.1, e1⟩
  · exact fun h => ⟨h.1, e2⟩

theorem Config.validateAbort_threshold (lf : ScanLf) (cfg : Config) (tokens : List Str)
    (v : Bool) (l : LogLevel)
    (h1 : cfg._logLevel ≠ LogLevel.NONE) (h2 : l ≠ LogLevel.NONE) :
    Config.validateAbort lf { cfg with _verbose := v, _logLevel := l } tokens
      ↔ cfg.validateAbort lf tokens := by
  unfold Config.validateAbort
  simp only
  have e1 : cfg._logLevel.toNat ≤ LogLevel.ERROR.toNat := by
    revert h1; cases cfg._logLevel <;> decide
  have e2 : l.toNat ≤ LogLevel.ERROR.toNat := by
    revert h2; cases l <;> decide
  constructor
  · exact fun h => ⟨h.1, e1⟩
  · exact fun h => ⟨h.1, e2⟩

theorem Config.parse_threshold (lf : ScanLf) (cfg : Config) (argv : List Str) (v : Bool)
    (l : LogLevel) (h1 : cfg._logLevel ≠ LogLevel.NONE) (h2 : l ≠ LogLevel.NONE) :
    (Config.parse lf cfg argv).map (fun r => (r.1, r.2._optionValues))
      = (Config.parse lf { cfg with _verbose := v, _logLevel := l } argv).map
          (fun r => (r.1, r.2._optionValues)) := by
  cases argv with
  | nil => rfl
  | cons argv0 tokens =>
    rw [Config.parse_cons', Config.parse_cons']
    have hfa := Config.formatAbort_threshold cfg v l h1 h2
    have hva := Config.validateAbort_threshold lf cfg tokens v l h1 h2
    have hcf : ∀ c : Config, (c.checkFormat).2._optionValues = c._optionValues :=
      fun c => (Config.checkFormat_sameData c).2.1
    by_cases h : cfg.formatAbort
    · rw [if_pos h, if_pos (hfa.mpr h)]
      simp only [Option.map_some', hcf]
    · rw [if_neg h, if_neg (fun h' => h (hfa.mp h'))]
      by_cases hv : cfg.validateAbort lf tokens
      · rw [if_pos hv, if_pos (hva.mpr hv)]
        simp only [Option.map_some', Config.parsed_vals]
      · rw [if_neg hv, if_neg (fun h' => hv (hva.mp h'))]
        simp only
        cases hh : Map.find (tokensData lf cfg._options cfg._optionValues tokens).vals
            "help".toList with
        | none => simp only [Option.map_some', Config.parsed_vals]
        | some w =>
          cases hb : w.getBoolean with
          | none => simp only [hb, Option.map_none']
          | some b => simp only [hb, Option.map_some', Config.parsed_vals]

/-- Claim C24. Two runs of `Config::parse` on the same registry, starting result map and
argument vector, which differ only in the verbose flag and in a threshold among INFO,
WARNING and ERROR, return the same `bool` and leave the same result map; a run on an
object that satisfies the payload invariant returns.  Every line that a run appends to
the log has a severity not below the threshold of the run. -/
theorem parse_threshold_verbose_independent (lf : ScanLf) (cfg : Config) (argv : List Str)
    (v : Bool) (l : LogLevel) (h1 : cfg._logLevel ≠ LogLevel.NONE)
    (h2 : l ≠ LogLevel.NONE) :
    (Config.parse lf cfg argv).map (fun r => (r.1, r.2._optionValues))
        = (Config.parse lf { cfg with _verbose := v, _logLevel := l } argv).map
            (fun r => (r.1, r.2._optionValues))
      ∧ (∀ r c, Config.parse lf cfg argv = some (r, c) →
          ∃ c', Config.parse lf { cfg with _verbose := v, _logLevel := l } argv = some (r, c')
            ∧ c'._optionValues = c._optionValues)
      ∧ (cfg.valuesWF → argv ≠ [] → ∃ r c, Config.parse lf cfg argv = some (r, c))
      ∧ (∀ r c, Config.parse lf cfg argv = some (r, c) →
          ∃ added, c._log = cfg._log ++ added
            ∧ ∀ e ∈ added, ∃ lvl token msg, e = logString lvl token msg
                ∧ lvl ≠ LogLevel.NONE ∧ cfg._logLevel.toNat ≤ lvl.toNat) := by
  have heq := Config.parse_threshold lf cfg argv v l h1 h2
  refine ⟨heq, ?_, ?_, ?_⟩
  · intro r c h
    rw [h] at heq
    cases h' : Config.parse lf { cfg with _verbose := v, _logLevel := l } argv with
    | none => rw [h'] at heq; exact absurd heq (by simp)
    | some p =>
      rw [h'] at heq
      simp only [Option.map_some', Option.some.injEq, Prod.mk.injEq] at heq
      refine ⟨p.2, ?_, heq.2.symm⟩
      rw [heq.1]
  · intro hwf hne
    cases argv with
    | nil => exact absurd rfl hne
    | cons argv0 tokens =>
      obtain ⟨r, hr⟩ := Config.parse_defined lf cfg argv0 tokens hwf h1
      exact ⟨r, _, hr⟩
  · intro r c h
    exact (Config.parse_logGrown lf cfg argv r c h).2

/-- Witness of `parse_threshold_verbose_independent`: the example registry at its default
threshold WARNING, against the same object made verbose with the threshold INFO, on
`[prog, "-c", "5", "-v"]`. -/
theorem parse_threshold_verbose_independent_witness :
    countVerboseConfig._logLevel ≠ LogLevel.NONE ∧ LogLevel.INFO ≠ LogLevel.NONE
      ∧ (Config.parse (fun _ => none) countVerboseConfig
            ["prog".toList, "-c".toList, "5".toList, "-v".toList]).map
            (fun r => (r.1, r.2._optionValues))
          = some (true, [("count".toList, Value.ofInt 5), ("help".toList, Value.ofBool false),
              ("verbose".toList, Value.ofBool true)])
      ∧ (Config.parse (fun _ => none) countVerboseConfig
            ["prog".toList, "-c".toList, "5".toList, "-v".toList]).map
            (fun r => (r.1, r.2._optionValues))
          = (Config.parse (fun _ => none)
              { countVerboseConfig with _verbose := true, _logLevel := LogLevel.INFO }
              ["prog".toList, "-c".toList, "5".toList, "-v".toList]).map
              (fun r => (r.1, r.2._optionValues)) :=
  ⟨by decide, by decide, by decide,
    (parse_threshold_verbose_independent (fun _ => none) countVerboseConfig
      ["prog".toList, "-c".toList, "5".toList, "-v".toList] true LogLevel.INFO (by decide)
      (by decide)).1⟩

/-! ## Printing and serialization -/

theorem natDigits_length (fuel n k : Nat) (h : n < 10 ^ (k + 1)) :
    (natDigits fuel n).length ≤ k + 1 := by
  induction fuel generalizing n k with
  | zero => simp [natDigits]
  | succ f ih =>
    unfold natDigits
    split
    · simp
    · rename_i hge
      cases k with
      | zero => omega
      | succ k' =>
        have hdiv : n / 10 < 10 ^ (k' + 1) := by
          rw [Nat.div_lt_iff_lt_mul (by decide)]
          rw [pow_succ] at h
          exact h
        have := ih (n / 10) k' hdiv
        rw [List.length_append, List.length_singleton]
        omega

theorem printInt_length (z : Int) (h1 : -2147483648 ≤ z) (h2 : z < 2147483648) :
    (printInt z).length ≤ 30 := by
  unfold printInt
  split
  · have := natDigits_length (z.natAbs + 1) z.natAbs 9 (by omega)
    rw [List.length_cons]
    omega
  · have := natDigits_length (z.toNat + 1) z.toNat 9 (by omega)
    omega

theorem Value.print_ofInt (pf : PrintF) (n : Int) (h1 : -2147483648 ≤ n)
    (h2 : n < 2147483648) : (Value.ofInt n).print pf = some (printInt n) := by
  have hg := Value.getInt_ofInt n h1 h2
  have ht : (Value.ofInt n)._type = DataType.INT := rfl
  unfold Value.print
  rw [ht]
  simp only [hg, Option.map_some', snprintf31]
  rw [List.take_of_length_le (printInt_length n h1 h2)]

theorem Value.print_ofBool (pf : PrintF) (b : Bool) :
    (Value.ofBool b).print pf = some (if b then "true".toList else "false".toList) := by
  cases b <;> rfl

theorem Value.print_string (pf : PrintF) (v : Value) (h : v._type = DataType.STRING) :
    v.print pf = v.getString.map (fun s => [Char.ofNat 34] ++ s ++ [Char.ofNat 34]) := by
  unfold Value.print
  rw [h]

theorem Value.print_ofString (pf : PrintF) (s : Str) (h : Char.ofNat 0 ∉ s) :
    (Value.ofCStr s).print pf = some ([Char.ofNat 34] ++ s ++ [Char.ofNat 34])
      ∧ (Value.ofString s).print pf = some ([Char.ofNat 34] ++ s ++ [Char.ofNat 34]) := by
  have hg := Value.getString_ofString s h
  constructor
  · rw [Value.print_string pf _ rfl, hg.2]; rfl
  · rw [Value.print_string pf _ rfl, hg.1]; rfl

theorem intercalate_cons_cons (sep x y : Str) (rest : List Str) :
    sep.intercalate (x :: y :: rest) = x ++ sep ++ sep.intercalate (y :: rest) := by
  simp [List.intercalate, List.intersperse]

theorem Config.serializeEntries_compact (pf : PrintF) (m : Map Value)
    (hdef : ∀ p ∈ m, (p.2.print pf).isSome = true) :
    Config.serializeEntries pf false m
      = some (",".toList.intercalate
          (m.map (fun p => compactEntry p.1 ((p.2.print pf).getD [])))) := by
  induction m with
  | nil => rfl
  | cons p rest ih =>
    have hp := hdef p (List.mem_cons_self _ _)
    obtain ⟨text, ht⟩ := Option.isSome_iff_exists.mp hp
    have ih' := ih (fun q hq => hdef q (List.mem_cons_of_mem _ hq))
    unfold Config.serializeEntries
    rw [ht, ih']
    cases rest with
    | nil => simp [compactEntry, List.intercalate, ht]
    | cons q rest' =>
      simp only [List.map_cons]
      rw [intercalate_cons_cons, ht]
      simp [compactEntry]

theorem Config.serializeEntries_pretty (pf : PrintF) (m : Map Value)
    (hdef : ∀ p ∈ m, (p.2.print pf).isSome = true) :
    Config.serializeEntries pf true m
      = some (((commaSeparated
          (m.map (fun p => prettyEntry p.1 ((p.2.print pf).getD [])))).map
            (fun line => line ++ [Char.ofNat 10])).flatten) := by
  induction m with
  | nil => rfl
  | cons p rest ih =>
    have hp := hdef p (List.mem_cons_self _ _)
    obtain ⟨text, ht⟩ := Option.isSome_iff_exists.mp hp
    have ih' := ih (fun q hq => hdef q (List.mem_cons_of_mem _ hq))
    unfold Config.serializeEntries
    rw [ht, ih']
    cases rest with
    | nil => simp [prettyEntry, commaSeparated, ht]
    | cons q rest' =>
      simp only [List.map_cons, commaSeparated]
      rw [ht]
      simp [prettyEntry]

/-- Claim C21. For every result map whose values can be printed, with its entries in
ascending key order: `serialize(JSON, false)` returns an opening brace, the entries
`"k":` followed by `v.print()`, joined by commas, and a closing brace, without white
space; `serialize(JSON, true)` returns an opening brace and a line feed, one line per
entry made of four spaces, `"k" : ` and `v.print()`, every line but the last ended by a
comma, and a closing brace.  `print()` renders an Int in decimal, a Bool as `true` or
`false` and a String between double quotes.  For the result map `{a: Int 1, b: String x}`
both outputs are well-formed JSON objects that denote the members `a = 1` and
`b = "x"`. -/
theorem serialize_json (pf : PrintF) (cfg : Config)
    (hdef : ∀ p ∈ cfg._optionValues, (p.2.print pf).isSome = true) :
    cfg.serialize pf ExportFormat.JSON false
        = some ("\x7b".toList
            ++ ",".toList.intercalate
                (cfg._optionValues.map (fun p => compactEntry p.1 ((p.2.print pf).getD [])))
            ++ "\x7d".toList)
      ∧ cfg.serialize pf ExportFormat.JSON true
        = some ("\x7b\n".toList
            ++ ((commaSeparated
                (cfg._optionValues.map (fun p => prettyEntry p.1 ((p.2.print pf).getD [])))).map
                  (fun line => line ++ "\n".toList)).flatten
            ++ "\x7d".toList)
      ∧ (∀ n : Int, -2147483648 ≤ n → n < 2147483648 →
          (Value.ofInt n).print pf = some (printInt n))
      ∧ (∀ b : Bool,
          (Value.ofBool b).print pf = some (if b then "true".toList else "false".toList))
      ∧ (∀ v : Value, v._type = DataType.STRING →
          v.print pf = v.getString.map (fun s => "\"".toList ++ s ++ "\"".toList))
      ∧ (∀ s : Str, Char.ofNat 0 ∉ s →
          (Value.ofCStr s).print pf = some ("\"".toList ++ s ++ "\"".toList))
      ∧ abConfig._optionValues
          = [("a".toList, Value.ofInt 1), ("b".toList, Value.ofCStr "x".toList)]
      ∧ abConfig.serialize pf ExportFormat.JSON false
          = some "\x7b\"a\":1,\"b\":\"x\"\x7d".toList
      ∧ abConfig.serialize pf ExportFormat.JSON true
          = some "\x7b\n    \"a\" : 1,\n    \"b\" : \"x\"\n\x7d".toList
      ∧ jsonObject "\x7b\"a\":1,\"b\":\"x\"\x7d".toList
          = some [("a".toList, JsonValue.int 1), ("b".toList, JsonValue.string "x".toList)]
      ∧ jsonObject "\x7b\n    \"a\" : 1,\n    \"b\" : \"x\"\n\x7d".toList
          = some [("a".toList, JsonValue.int 1), ("b".toList, JsonValue.string "x".toList)]
      ∧ abConfig._optionValues.map (fun p => (p.1, p.2.toJson))
          = [("a".toList, some (JsonValue.int 1)),
              ("b".toList, some (JsonValue.string "x".toList))] := by
  refine ⟨?_, ?_, fun n h1 h2 => Value.print_ofInt pf n h1 h2, Value.print_ofBool pf,
    fun v hv => Value.print_string pf v hv, fun s hs => (Value.print_ofString pf s hs).1,
    by decide, rfl, rfl, by decide, by decide, by decide⟩
  · unfold Config.serialize
    rw [if_pos rfl, Config.serializeEntries_compact pf _ hdef]
    rfl
  · unfold Config.serialize
    rw [if_pos rfl, Config.serializeEntries_pretty pf _ hdef]
    rfl

/-- Witness of `serialize_json` on the result map `{a: Int 1, b: String x}`. -/
theorem serialize_json_witness :
    (∀ p ∈ abConfig._optionValues, (p.2.print (fun _ => [])).isSome = true)
      ∧ abConfig.serialize (fun _ => []) ExportFormat.JSON false
        = some ("\x7b".toList
            ++ ",".toList.intercalate
                (abConfig._optionValues.map
                  (fun p => compactEntry p.1 ((p.2.print (fun _ => [])).getD [])))
            ++ "\x7d".toList)
      ∧ ",".toList.intercalate
            (abConfig._optionValues.map
              (fun p => compactEntry p.1 ((p.2.print (fun _ => [])).getD [])))
          = "\"a\":1,\"b\":\"x\"".toList :=
  ⟨by decide, (serialize_json (fun _ => []) abConfig (by decide)).1, by decide⟩

/-! ## The classifier against the grammar of floating-point literals -/

theorem isdigit_iff (c : Char) : isdigit c = true ↔ isDecDigit c := by
  unfold isDecDigit
  constructor
  · intro h
    have h1 : 48 ≤ c.toNat ∧ c.toNat ≤ 57 := by simpa [isdigit] using h
    rw [← Char.ofNat_toNat c]
    generalize c.toNat = n at h1
    obtain ⟨ha, hb⟩ := h1
    interval_cases n <;> decide
  · intro h
    exact (by decide : ∀ c ∈ "0123456789".toList, isdigit c = true) c h

theorem isxdigit_iff (c : Char) : isxdigit c = true ↔ isHexDigit c := by
  unfold isHexDigit
  constructor
  · intro h
    have h1 : (48 ≤ c.toNat ∧ c.toNat ≤ 57) ∨ (97 ≤ c.toNat ∧ c.toNat ≤ 102)
        ∨ (65 ≤ c.toNat ∧ c.toNat ≤ 70) := by
      simpa [isxdigit, isdigit, or_assoc] using h
    rw [← Char.ofNat_toNat c]
    generalize c.toNat = n at h1
    rcases h1 with ⟨ha, hb⟩ | ⟨ha, hb⟩ | ⟨ha, hb⟩ <;> interval_cases n <;> decide
  · intro h
    exact (by decide : ∀ c ∈ "0123456789abcdefABCDEF".toList, isxdigit c = true) c h

theorem isnchar_iff (c : Char) : isnchar c = true ↔ isNChar c := by
  unfold isNChar
  constructor
  · intro h
    have h1 : (48 ≤ c.toNat ∧ c.toNat ≤ 57) ∨ (97 ≤ c.toNat ∧ c.toNat ≤ 122)
        ∨ (65 ≤ c.toNat ∧ c.toNat ≤ 90) ∨ c = '_' := by
      simpa [isnchar, isdigit, or_assoc] using h
    rcases h1 with h1 | h1 | h1 | h1
    · rw [← Char.ofNat_toNat c]
      generalize c.toNat = n at h1
      obtain ⟨ha, hb⟩ := h1
      interval_cases n <;> decide
    · rw [← Char.ofNat_toNat c]
      generalize c.toNat = n at h1
      obtain ⟨ha, hb⟩ := h1
      interval_cases n <;> decide
    · rw [← Char.ofNat_toNat c]
      generalize c.toNat = n at h1
      obtain ⟨ha, hb⟩ := h1
      interval_cases n <;> decide
    · rw [h1]; decide
  · intro h
    exact (by decide : ∀ c ∈
      "0123456789abcdefghijklmnopqrstuvwxyzABCDEFGHIJKLMNOPQRSTUVWXYZ_".toList,
        isnchar c = true) c h

theorem tolower_eq_toLower (c : Char) : tolower c = c.toLower := by
  unfold tolower Char.toLower
  by_cases h : 65 ≤ c.toNat ∧ c.toNat ≤ 90
  · simp [h]
  · have h' : ¬ (c.toNat ≥ 65 ∧ c.toNat ≤ 90) := h
    simp only [h', if_false]
    rw [if_neg]
    simpa using h

theorem map_tolower (s : Str) : s.map tolower = s.map Char.toLower := by
  apply List.map_congr_left
  intro c _
  exact tolower_eq_toLower c

theorem tolower_eq_iff (c p : Char) (hp : 97 ≤ p.toNat ∧ p.toNat ≤ 122) :
    tolower c = p ↔ c = p ∨ c = Char.ofNat (p.toNat - 32) := by
  unfold tolower
  by_cases hu : 65 ≤ c.toNat ∧ c.toNat ≤ 90
  · rw [if_pos (by simpa using hu)]
    constructor
    · intro h
      right
      have h1 := congrArg Char.toNat h
      rw [charByte _ (by omega)] at h1
      rw [← Char.ofNat_toNat c]
      congr 1
      omega
    · rintro (h | h)
      · rw [h] at hu; omega
      · have h1 := congrArg Char.toNat h
        rw [charByte _ (by omega)] at h1
        rw [← Char.ofNat_toNat p]
        congr 1
        omega
  · rw [if_neg (by simpa using hu)]
    constructor
    · exact Or.inl
    · rintro (h | h)
      · exact h
      · have h1 := congrArg Char.toNat h
        rw [charByte _ (by omega)] at h1
        omega

theorem tolower_beq_e (c : Char) : (tolower c == 'e') = true ↔ c = 'e' ∨ c = 'E' := by
  rw [beq_iff_eq]
  exact tolower_eq_iff c 'e' (by decide)

theorem tolower_beq_p (c : Char) : (tolower c == 'p') = true ↔ c = 'p' ∨ c = 'P' := by
  rw [beq_iff_eq]
  exact tolower_eq_iff c 'p' (by decide)

theorem tolower_beq_x (c : Char) : (tolower c == 'x') = true ↔ c = 'x' ∨ c = 'X' := by
  rw [beq_iff_eq]
  exact tolower_eq_iff c 'x' (by decide)

theorem isDigitSequence_congr (P Q : Char → Prop) (h : ∀ c, P c ↔ Q c) (m : Str) :
    isDigitSequence P m ↔ isDigitSequence Q m := by
  have e : P = Q := funext (fun c => propext (h c))
  rw [e]

theorem takeWhile_head_neg (p : Char → Bool) (rest : Str)
    (h : ∀ c, rest.head? = some c → p c = false) :
    rest.takeWhile p = [] ∧ rest.dropWhile p = rest := by
  cases rest with
  | nil => exact ⟨rfl, rfl⟩
  | cons c t =>
    have hc : ¬ p c = true := by rw [h c rfl]; simp
    exact ⟨List.takeWhile_cons_of_neg hc, List.dropWhile_cons_of_neg hc⟩

theorem takeWhile_length_le (p : Char → Bool) (l : Str) :
    (l.takeWhile p).length ≤ l.length := by
  have h := congrArg List.length (List.takeWhile_append_dropWhile p l)
  rw [List.length_append] at h
  omega

theorem takeWhile_eq_of_length (p : Char → Bool) (l : Str)
    (h : l.length ≤ (l.takeWhile p).length) : l.takeWhile p = l := by
  have h1 := List.takeWhile_append_dropWhile p l
  have h2 := congrArg List.length h1
  rw [List.length_append] at h2
  have h3 : l.dropWhile p = [] := List.length_eq_zero.mp (by omega)
  rw [h3, List.append_nil] at h1
  exact h1

/-- The model of the mantissa scan consumes a digit sequence that is followed by the end
of the text or by a character that is neither a digit nor the radix character. -/
theorem mantissaLen_of_sequence (digit : Char → Bool) (hdot : digit '.' = false)
    (m rest : Str) (hm : isDigitSequence (fun c => digit c = true) m)
    (hrest : ∀ c, rest.head? = some c → digit c = false ∧ c ≠ '.') :
    mantissaLen digit (m ++ rest) = m.length ∧ m ≠ [] := by
  have hr := takeWhile_head_neg digit rest (fun c hc => (hrest c hc).1)
  rcases hm with ⟨hne, hall⟩ | ⟨ip, fp, hip, hfp, hne, hm⟩
  · refine ⟨?_, hne⟩
    unfold mantissaLen
    have h1 : (m ++ rest).takeWhile digit = m := by
      rw [List.takeWhile_append_of_pos hall, hr.1, List.append_nil]
    have h2 : (m ++ rest).dropWhile digit = rest := by
      rw [List.dropWhile_append_of_pos hall, hr.2]
    simp only [h1, h2]
    cases rest with
    | nil => rfl
    | cons c t =>
      have hc : (c == '.') = false := by
        rw [beq_eq_false_iff_ne]; exact (hrest c rfl).2
      simp only [hc]
      rfl
  · subst hm
    refine ⟨?_, by simp⟩
    unfold mantissaLen
    have hd : ¬ digit '.' = true := by rw [hdot]; simp
    have h1 : (ip ++ '.' :: fp ++ rest).takeWhile digit = ip := by
      rw [List.append_assoc, List.takeWhile_append_of_pos hip]
      rw [List.cons_append, List.takeWhile_cons_of_neg hd, List.append_nil]
    have h2 : (ip ++ '.' :: fp ++ rest).dropWhile digit = '.' :: (fp ++ rest) := by
      rw [List.append_assoc, List.dropWhile_append_of_pos hip]
      rw [List.cons_append, List.dropWhile_cons_of_neg hd]
    have h3 : (fp ++ rest).takeWhile digit = fp := by
      rw [List.takeWhile_append_of_pos hfp, hr.1, List.append_nil]
    simp only [h1, h2, h3]
    have h4 : (ip.isEmpty && fp.isEmpty) = false := by
      rcases hne with h | h
      · cases ip with
        | nil => exact absurd rfl h
        | cons _ _ => rfl
      · cases fp with
        | nil => exact absurd rfl h
        | cons _ _ => simp
    simp [h4]
    omega

theorem mantissaLen_nil (digit : Char → Bool) (s : Str) (h : s.dropWhile digit = []) :
    mantissaLen digit s = (s.takeWhile digit).length := by
  unfold mantissaLen
  simp only [h]

theorem mantissaLen_dot (digit : Char → Bool) (s t : Str)
    (h : s.dropWhile digit = '.' :: t) :
    mantissaLen digit s =
      if (s.takeWhile digit).isEmpty && (t.takeWhile digit).isEmpty then 0
      else (s.takeWhile digit).length + 1 + (t.takeWhile digit).length := by
  unfold mantissaLen
  simp only [h, beq_self_eq_true, if_true]

theorem mantissaLen_other (digit : Char → Bool) (s : Str) (c : Char) (t : Str)
    (h : s.dropWhile digit = c :: t) (hc : c ≠ '.') :
    mantissaLen digit s = (s.takeWhile digit).length := by
  unfold mantissaLen
  have hc' : (c == '.') = false := by rw [beq_eq_false_iff_ne]; exact hc
  simp only [h, hc']
  rfl

/-- What the model of the mantissa scan consumes is a digit sequence. -/
theorem mantissaLen_sequence (digit : Char → Bool) (s : Str)
    (h : mantissaLen digit s ≠ 0) :
    isDigitSequence (fun c => digit c = true) (s.take (mantissaLen digit s))
      ∧ mantissaLen digit s ≤ s.length := by
  have hs := List.takeWhile_append_dropWhile digit s
  have hip : ∀ c ∈ s.takeWhile digit, digit c = true := fun c hc => List.mem_takeWhile_imp hc
  cases hd : s.dropWhile digit with
  | nil =>
    have hn := mantissaLen_nil digit s hd
    rw [hn] at h ⊢
    rw [hd] at hs
    clear hd hn
    generalize s.takeWhile digit = ip at *
    subst hs
    rw [List.append_nil, List.take_length]
    refine ⟨Or.inl ⟨?_, hip⟩, le_refl _⟩
    intro he; apply h; rw [he]; rfl
  | cons c t =>
    rw [hd] at hs
    by_cases hc : c = '.'
    · subst hc
      have hn := mantissaLen_dot digit s t hd
      rw [hn] at h ⊢
      clear hd hn
      have hfp : ∀ x ∈ t.takeWhile digit, digit x = true :=
        fun x hx => List.mem_takeWhile_imp hx
      have ht := List.takeWhile_append_dropWhile digit t
      generalize s.takeWhile digit = ip at *
      generalize t.takeWhile digit = fp at *
      generalize t.dropWhile digit = rest at *
      subst ht
      subst hs
      by_cases he : (ip.isEmpty && fp.isEmpty) = true
      · rw [if_pos he] at h
        exact absurd rfl h
      · rw [if_neg he]
        have hlen : (ip ++ '.' :: fp).length = ip.length + 1 + fp.length := by
          simp; omega
        have htake : (ip ++ '.' :: (fp ++ rest)).take (ip.length + 1 + fp.length)
            = ip ++ '.' :: fp := by
          rw [← hlen]
          have := @List.take_left Char (ip ++ '.' :: fp) rest
          rw [List.append_assoc, List.cons_append] at this
          exact this
        rw [htake]
        refine ⟨Or.inr ⟨ip, fp, hip, hfp, ?_, rfl⟩, ?_⟩
        · by_contra hcon
          push_neg at hcon
          apply he
          rw [hcon.1, hcon.2]; rfl
        · simp; omega
    · have hn := mantissaLen_other digit s c t hd hc
      rw [hn] at h ⊢
      clear hd hn
      generalize s.takeWhile digit = ip at *
      subst hs
      rw [List.take_left]
      refine ⟨Or.inl ⟨?_, hip⟩, by simp⟩
      intro he; apply h; rw [he]; rfl

theorem signLen_of_digit_head (ds : Str) (hds : ∀ c ∈ ds, isdigit c = true) :
    signLen ds = 0 := by
  cases ds with
  | nil => rfl
  | cons c t =>
    have h := isdigit_not_sign c (hds c (List.mem_cons_self _ _))
    simp [signLen, h.1, h.2]

/-- The model of the exponent scan consumes an exponent part that ends the text. -/
theorem exponentLen_of_part (mk lo up : Char)
    (hmk : ∀ c, (tolower c == mk) = true ↔ c = lo ∨ c = up) (e : Str)
    (h : isExponentPart lo up e) : exponentLen mk e = e.length := by
  obtain ⟨c, sg, ds, hc, hsg, hne, hds, he⟩ := h
  have hds' : ∀ x ∈ ds, isdigit x = true := fun x hx => (isdigit_iff x).mpr (hds x hx)
  have htw : ds.takeWhile isdigit = ds := List.takeWhile_eq_self_iff.mpr hds'
  have hem : ds.isEmpty = false := by
    cases ds with
    | nil => exact absurd rfl hne
    | cons _ _ => rfl
  subst he
  unfold exponentLen
  simp only [(hmk c).mpr hc, if_true]
  rcases hsg with h | h | h
  · subst h
    rw [List.nil_append, signLen_of_digit_head ds hds', List.drop_zero, htw, hem]
    simp
    omega
  · subst h
    have : signLen (['+'] ++ ds) = 1 := rfl
    rw [this]
    simp only [List.singleton_append, List.drop_succ_cons, List.drop_zero, htw, hem]
    simp
    omega
  · subst h
    have : signLen (['-'] ++ ds) = 1 := rfl
    rw [this]
    simp only [List.singleton_append, List.drop_succ_cons, List.drop_zero, htw, hem]
    simp
    omega

theorem signLen_cases (t : Str) :
    (signLen t = 0 ∧ t.take (signLen t) = [])
      ∨ (signLen t = 1 ∧ (t.take (signLen t) = ['+'] ∨ t.take (signLen t) = ['-'])) := by
  cases t with
  | nil => left; exact ⟨rfl, rfl⟩
  | cons c r =>
    by_cases h : (c == '+' || c == '-') = true
    · right
      have hs : signLen (c :: r) = 1 := by simp only [signLen, h, if_true]
      rw [hs]
      refine ⟨rfl, ?_⟩
      have : c = '+' ∨ c = '-' := by simpa using h
      rcases this with h1 | h1
      · left; rw [h1]; rfl
      · right; rw [h1]; rfl
    · left
      have hs : signLen (c :: r) = 0 := by simp only [signLen, h, if_false]; simp
      rw [hs]
      exact ⟨rfl, rfl⟩

/-- A non-empty text that the model of the exponent scan consumes as a whole is an
exponent part. -/
theorem exponentLen_part (mk lo up : Char)
    (hmk : ∀ c, (tolower c == mk) = true ↔ c = lo ∨ c = up) (s : Str) (hs : s ≠ [])
    (h : exponentLen mk s = s.length) : isExponentPart lo up s := by
  cases s with
  | nil => exact absurd rfl hs
  | cons c t =>
    unfold exponentLen at h
    by_cases hc : (tolower c == mk) = true
    · simp only [hc, if_true] at h
      by_cases hem : ((t.drop (signLen t)).takeWhile isdigit).isEmpty = true
      · simp only [hem, if_true] at h
        simp at h
      · have hem' : ((t.drop (signLen t)).takeWhile isdigit).isEmpty = false := by
          simpa using hem
        simp only [hem', Bool.false_eq_true, if_false, List.length_cons] at h
        have hle := takeWhile_length_le isdigit (t.drop (signLen t))
        have hdl : (t.drop (signLen t)).length = t.length - signLen t := List.length_drop _ _
        have hfull : (t.drop (signLen t)).takeWhile isdigit = t.drop (signLen t) :=
          takeWhile_eq_of_length isdigit _ (by omega)
        have hds : ∀ x ∈ t.drop (signLen t), isDecDigit x := by
          intro x hx
          rw [← hfull] at hx
          exact (isdigit_iff x).mp (List.mem_takeWhile_imp hx)
        have hne : t.drop (signLen t) ≠ [] := by
          intro he
          apply hem
          rw [he]; rfl
        refine ⟨c, t.take (signLen t), t.drop (signLen t), (hmk c).mp hc, ?_, hne, hds, ?_⟩
        · rcases signLen_cases t with ⟨_, h2⟩ | ⟨_, h2⟩
          · exact Or.inl h2
          · exact Or.inr h2
        · rw [List.take_append_drop]
    · have hc' : (tolower c == mk) = false := by simpa using hc
      simp only [hc', Bool.false_eq_true, if_false] at h
      simp at h

theorem exponentLen_le (mk : Char) (s : Str) : exponentLen mk s ≤ s.length := by
  cases s with
  | nil => exact le_refl _
  | cons c t =>
    unfold exponentLen
    by_cases hc : (tolower c == mk) = true
    · simp only [hc, if_true]
      by_cases hem : ((t.drop (signLen t)).takeWhile isdigit).isEmpty = true
      · simp only [hem, if_true]; omega
      · have hem' : ((t.drop (signLen t)).takeWhile isdigit).isEmpty = false := by
          simpa using hem
        simp only [hem', Bool.false_eq_true, if_false, List.length_cons]
        have hle := takeWhile_length_le isdigit (t.drop (signLen t))
        have hdl : (t.drop (signLen t)).length = t.length - signLen t := List.length_drop _ _
        have hsl : signLen t ≤ t.length := by
          rcases signLen_cases t with ⟨h1, _⟩ | ⟨h1, h2⟩
          · omega
          · cases t with
            | nil => exact absurd h1 (by decide)
            | cons _ _ => rw [h1]; simp
        omega
    · have hc' : (tolower c == mk) = false := by simpa using hc
      simp only [hc', Bool.false_eq_true, if_false]; omega

/-- The scan of a mantissa and an optional exponent consumes the whole text exactly when
the text is a digit sequence followed by an optional exponent part. -/
theorem scan_iff (digit : Char → Bool) (P : Char → Prop) (hP : ∀ c, digit c = true ↔ P c)
    (hdot : digit '.' = false) (mk lo up : Char)
    (hmk : ∀ c, (tolower c == mk) = true ↔ c = lo ∨ c = up)
    (hlo : digit lo = false ∧ lo ≠ '.') (hup : digit up = false ∧ up ≠ '.') (t : Str) :
    (mantissaLen digit t ≠ 0
        ∧ mantissaLen digit t + exponentLen mk (t.drop (mantissaLen digit t)) = t.length)
      ↔ ∃ m e : Str, isDigitSequence P m ∧ (e = [] ∨ isExponentPart lo up e) ∧ t = m ++ e := by
  have hcongr := isDigitSequence_congr (fun c => digit c = true) P hP
  constructor
  · rintro ⟨h0, hlen⟩
    obtain ⟨hseq, hle⟩ := mantissaLen_sequence digit t h0
    refine ⟨t.take (mantissaLen digit t), t.drop (mantissaLen digit t), (hcongr _).mp hseq, ?_,
      (List.take_append_drop _ _).symm⟩
    have hdl : (t.drop (mantissaLen digit t)).length = t.length - mantissaLen digit t :=
      List.length_drop _ _
    by_cases he : t.drop (mantissaLen digit t) = []
    · exact Or.inl he
    · exact Or.inr (exponentLen_part mk lo up hmk _ he (by omega))
  · rintro ⟨m, e, hm, he, ht⟩
    have hrest : ∀ c, e.head? = some c → digit c = false ∧ c ≠ '.' := by
      intro c hc
      rcases he with he | ⟨c', sg, ds, hc', _, _, _, he⟩
      · rw [he] at hc; exact absurd hc (by simp)
      · rw [he] at hc
        simp only [List.head?_cons, Option.some.injEq] at hc
        rw [← hc]
        rcases hc' with h | h
        · rw [h]; exact hlo
        · rw [h]; exact hup
    obtain ⟨hml, hne⟩ := mantissaLen_of_sequence digit hdot m e ((hcongr _).mpr hm) hrest
    subst ht
    rw [hml, List.drop_left]
    refine ⟨?_, ?_⟩
    · intro h0
      exact hne (List.length_eq_zero.mp h0)
    · rw [List.length_append]
      rcases he with he | he
      · rw [he]; rfl
      · rw [exponentLen_of_part mk lo up hmk e he]

/-- The model of the decimal scan consumes a whole non-empty text exactly when the text
is a decimal floating-point literal of the grammar. -/
theorem decimalLen_iff (r : Str) :
    (r ≠ [] ∧ decimalLen r = r.length) ↔ isDecimalFloat r := by
  unfold isDecimalFloat
  rw [← scan_iff isdigit isDecDigit isdigit_iff (by decide) 'e' 'e' 'E' tolower_beq_e
    (by decide) (by decide) r]
  unfold decimalLen
  simp only
  constructor
  · rintro ⟨hne, h⟩
    by_cases h0 : mantissaLen isdigit r = 0
    · rw [if_pos h0] at h
      exact absurd (List.length_eq_zero.mp h.symm) hne
    · rw [if_neg h0] at h
      exact ⟨h0, h⟩
  · rintro ⟨h0, h⟩
    rw [if_neg h0]
    refine ⟨?_, h⟩
    intro he
    rw [he] at h0
    exact h0 rfl

theorem hexLen_ne_zero (r : Str) (h : hexLen r ≠ 0) :
    ∃ x t, r = '0' :: x :: t ∧ (x = 'x' ∨ x = 'X')
      ∧ hexLen r = if mantissaLen isxdigit t = 0 then 0
          else 2 + mantissaLen isxdigit t
            + exponentLen 'p' (t.drop (mantissaLen isxdigit t)) := by
  cases r with
  | nil => exact absurd rfl h
  | cons z r1 =>
    cases r1 with
    | nil => exact absurd rfl h
    | cons x t =>
      unfold hexLen at h ⊢
      by_cases hz : (z == '0' && tolower x == 'x') = true
      · simp only [hz, if_true] at h ⊢
        have hz' : z = '0' ∧ (tolower x == 'x') = true := by
          simpa using hz
        exact ⟨x, t, by rw [hz'.1], (tolower_beq_x x).mp hz'.2, rfl⟩
      · have hz' : (z == '0' && tolower x == 'x') = false := by simpa using hz
        simp only [hz', Bool.false_eq_true, if_false] at h
        exact absurd rfl h

theorem hexLen_prefix (x : Char) (t : Str) (hx : x = 'x' ∨ x = 'X') :
    hexLen ('0' :: x :: t) = if mantissaLen isxdigit t = 0 then 0
      else 2 + mantissaLen isxdigit t + exponentLen 'p' (t.drop (mantissaLen isxdigit t)) := by
  have h := (tolower_beq_x x).mpr hx
  unfold hexLen
  simp only [h, beq_self_eq_true, Bool.and_self, if_true]

/-- The model of the hexadecimal scan consumes a whole non-empty text exactly when the
text is a hexadecimal floating-point literal of the grammar. -/
theorem hexLen_iff (r : Str) :
    (r ≠ [] ∧ hexLen r = r.length) ↔ isHexFloat r := by
  have hscan := scan_iff isxdigit isHexDigit isxdigit_iff (by decide) 'p' 'p' 'P'
    tolower_beq_p (by decide) (by decide)
  constructor
  · rintro ⟨hne, h⟩
    have h0 : hexLen r ≠ 0 := by
      rw [h]; intro he; exact hne (List.length_eq_zero.mp he)
    obtain ⟨x, t, hr, hx, hl⟩ := hexLen_ne_zero r h0
    rw [hl] at h h0
    by_cases hm : mantissaLen isxdigit t = 0
    · rw [if_pos hm] at h0; exact absurd rfl h0
    · rw [if_neg hm] at h
      rw [hr, List.length_cons, List.length_cons] at h
      obtain ⟨m, e, h1, h2, h3⟩ := (hscan t).mp ⟨hm, by omega⟩
      exact ⟨x, m, e, hx, h1, h2, by rw [hr, h3]⟩
  · rintro ⟨x, m, e, hx, h1, h2, hr⟩
    obtain ⟨hm, hlen⟩ := (hscan (m ++ e)).mpr ⟨m, e, h1, h2, rfl⟩
    rw [hr, hexLen_prefix x _ hx, if_neg hm]
    refine ⟨by simp, ?_⟩
    rw [List.length_cons, List.length_cons]
    omega

/-- The model of the scan for an infinity consumes a whole non-empty text exactly when
the text is `inf` or `infinity` in some letter case. -/
theorem infLen_iff (r : Str) :
    (r ≠ [] ∧ infLen r = r.length) ↔ isInfinityLiteral r := by
  unfold infLen isInfinityLiteral
  simp only [beq_iff_eq, map_tolower]
  constructor
  · rintro ⟨hne, h⟩
    by_cases h8 : (r.take 8).map Char.toLower = "infinity".toList
    · rw [if_pos h8] at h
      right
      rw [List.take_of_length_le (by omega)] at h8
      exact h8
    · rw [if_neg h8] at h
      by_cases h3 : (r.take 3).map Char.toLower = "inf".toList
      · rw [if_pos h3] at h
        left
        rw [List.take_of_length_le (by omega)] at h3
        exact h3
      · rw [if_neg h3] at h
        exact absurd (List.length_eq_zero.mp h.symm) hne
  · rintro (h | h)
    · have hl : r.length = 3 := by
        have := congrArg List.length h
        rw [List.length_map] at this
        exact this
      have hne : r ≠ [] := by intro he; rw [he] at hl; exact absurd hl (by decide)
      have h8 : ¬ (r.take 8).map Char.toLower = "infinity".toList := by
        rw [List.take_of_length_le (by omega), h]
        decide
      have h3 : (r.take 3).map Char.toLower = "inf".toList := by
        rw [List.take_of_length_le (by omega), h]
      rw [if_neg h8, if_pos h3]
      exact ⟨hne, hl.symm⟩
    · have hl : r.length = 8 := by
        have := congrArg List.length h
        rw [List.length_map] at this
        exact this
      have hne : r ≠ [] := by intro he; rw [he] at hl; exact absurd hl (by decide)
      have h8 : (r.take 8).map Char.toLower = "infinity".toList := by
        rw [List.take_of_length_le (by omega), h]
      rw [if_pos h8]
      exact ⟨hne, hl.symm⟩

theorem nanLen_eq (r : Str) (h : (r.take 3).map Char.toLower = "nan".toList) :
    nanLen r =
      match r.drop 3 with
      | c :: t =>
          if c == '(' then
            match t.dropWhile isnchar with
            | d :: _ => if d == ')' then 3 + 1 + (t.takeWhile isnchar).length + 1 else 3
            | [] => 3
          else 3
      | [] => 3 := by
  unfold nanLen
  rw [map_tolower, if_pos (by rw [beq_iff_eq]; exact h)]

theorem nanLen_zero (r : Str) (h : ¬ (r.take 3).map Char.toLower = "nan".toList) :
    nanLen r = 0 := by
  unfold nanLen
  rw [map_tolower, if_neg (by rw [beq_iff_eq]; exact h)]

/-- The model of the scan for a NaN consumes a whole non-empty text exactly when the text
is `nan`, in some letter case, optionally followed by an n-char-sequence between
parentheses. -/
theorem nanLen_iff (r : Str) :
    (r ≠ [] ∧ nanLen r = r.length) ↔ isNanLiteral r := by
  unfold isNanLiteral
  constructor
  · rintro ⟨hne, h⟩
    by_cases hn : (r.take 3).map Char.toLower = "nan".toList
    · rw [nanLen_eq r hn] at h
      have hr := List.take_append_drop 3 r
      have hl3 : (r.take 3).length = 3 := by
        have := congrArg List.length hn
        rw [List.length_map] at this
        exact this
      cases hd : r.drop 3 with
      | nil =>
        left
        rw [hd, List.append_nil] at hr
        rw [hr] at hn
        exact hn
      | cons c t =>
        rw [hd] at h hr
        have hlen : r.length = 3 + (1 + t.length) := by
          have := congrArg List.length hr
          rw [List.length_append, hl3, List.length_cons] at this
          omega
        simp only at h
        by_cases hc : c = '('
        · subst hc
          simp only [beq_self_eq_true, if_true] at h
          have ht := List.takeWhile_append_dropWhile isnchar t
          cases hdw : t.dropWhile isnchar with
          | nil =>
            rw [hdw] at h
            simp only at h
            omega
          | cons d rest =>
            rw [hdw] at h ht
            simp only at h
            by_cases hdc : d = ')'
            · subst hdc
              simp only [beq_self_eq_true, if_true] at h
              have htl : t.length = (t.takeWhile isnchar).length + (1 + rest.length) := by
                have := congrArg List.length ht
                rw [List.length_append, List.length_cons] at this
                omega
              have hrest : rest = [] := List.length_eq_zero.mp (by
                have h' : 3 + 1 + (t.takeWhile isnchar).length + 1 = r.length := h
                omega)
              rw [hrest] at ht
              right
              refine ⟨r.take 3, t.takeWhile isnchar, hn, ?_, ?_⟩
              · intro x hx
                exact (isnchar_iff x).mp (List.mem_takeWhile_imp hx)
              · rw [ht]; exact hr.symm
            · have hdc' : (d == ')') = false := by rw [beq_eq_false_iff_ne]; exact hdc
              simp only [hdc', Bool.false_eq_true, if_false] at h
              omega
        · have hc' : (c == '(') = false := by rw [beq_eq_false_iff_ne]; exact hc
          simp only [hc', Bool.false_eq_true, if_false] at h
          omega
    · rw [nanLen_zero r hn] at h
      exact absurd (List.length_eq_zero.mp h.symm) hne
  · rintro (h | ⟨w, seq, hw, hseq, hr⟩)
    · have hl : r.length = 3 := by
        have := congrArg List.length h
        rw [List.length_map] at this
        exact this
      have hne : r ≠ [] := by intro he; rw [he] at hl; exact absurd hl (by decide)
      have hn : (r.take 3).map Char.toLower = "nan".toList := by
        rw [List.take_of_length_le (by omega), h]
      have hd : r.drop 3 = [] := List.drop_eq_nil_of_le (by omega)
      rw [nanLen_eq r hn, hd]
      exact ⟨hne, hl.symm⟩
    · have hl : w.length = 3 := by
        have := congrArg List.length hw
        rw [List.length_map] at this
        exact this
      have htk : r.take 3 = w := by
        rw [hr, ← hl, List.take_left]
      have hdr : r.drop 3 = '(' :: (seq ++ [')']) := by
        rw [hr, ← hl, List.drop_left]
      have hseq' : ∀ x ∈ seq, isnchar x = true := fun x hx => (isnchar_iff x).mpr (hseq x hx)
      have hp : ¬ isnchar ')' = true := by decide
      have htw : (seq ++ [')']).takeWhile isnchar = seq := by
        rw [List.takeWhile_append_of_pos hseq', List.takeWhile_cons_of_neg hp, List.append_nil]
      have hdw : (seq ++ [')']).dropWhile isnchar = [')'] := by
        rw [List.dropWhile_append_of_pos hseq', List.dropWhile_cons_of_neg hp]
      rw [nanLen_eq r (by rw [htk]; exact hw), hdr]
      simp only [beq_self_eq_true, if_true, hdw, htw]
      refine ⟨by rw [hr]; simp, ?_⟩
      rw [hr, List.length_append, List.length_cons, List.length_append,
        List.length_singleton, hl]
      show 3 + 1 + seq.length + 1 = 3 + (seq.length + 1 + 1)
      omega

theorem decimalLen_hex_head (x : Char) (t : Str) (hx : x = 'x' ∨ x = 'X') :
    decimalLen ('0' :: x :: t) = 1 := by
  have h0 : isdigit '0' = true := by decide
  have hxd : isdigit x = false := by rcases hx with h | h <;> rw [h] <;> decide
  have hxe : (tolower x == 'e') = false := by rcases hx with h | h <;> rw [h] <;> decide
  have hxdot : x ≠ '.' := by rcases hx with h | h <;> rw [h] <;> decide
  have hdw : ('0' :: x :: t).dropWhile isdigit = x :: t := by
    rw [List.dropWhile_cons, if_pos h0, List.dropWhile_cons_of_neg (by rw [hxd]; simp)]
  have htw : ('0' :: x :: t).takeWhile isdigit = ['0'] := by
    rw [List.takeWhile_cons, if_pos h0, List.takeWhile_cons_of_neg (by rw [hxd]; simp)]
  have hm : mantissaLen isdigit ('0' :: x :: t) = 1 := by
    rw [mantissaLen_other isdigit _ x t hdw hxdot, htw]
    rfl
  unfold decimalLen
  simp only [hm]
  have he : exponentLen 'e' (List.drop 1 ('0' :: x :: t)) = 0 := by
    show exponentLen 'e' (x :: t) = 0
    unfold exponentLen
    simp only [hxe, Bool.false_eq_true, if_false]
  rw [he]
  rfl

theorem hexLen_of_decimalFloat (r : Str) (h : isDecimalFloat r) : hexLen r = 0 := by
  by_contra hne
  obtain ⟨x, t, hr, hx, _⟩ := hexLen_ne_zero r hne
  have hd := ((decimalLen_iff r).mpr h).2
  rw [hr, decimalLen_hex_head x t hx] at hd
  simp at hd

theorem lens_zero_of_head (c : Char) (t : Str) (h1 : c ≠ '0') (h2 : isdigit c = false)
    (h3 : c ≠ '.') : hexLen (c :: t) = 0 ∧ decimalLen (c :: t) = 0 := by
  constructor
  · by_contra hne
    obtain ⟨x, t', hr, _, _⟩ := hexLen_ne_zero _ hne
    exact h1 (List.cons.inj hr).1
  · have hdw : (c :: t).dropWhile isdigit = c :: t :=
      List.dropWhile_cons_of_neg (by rw [h2]; simp)
    have htw : (c :: t).takeWhile isdigit = [] :=
      List.takeWhile_cons_of_neg (by rw [h2]; simp)
    have hm : mantissaLen isdigit (c :: t) = 0 := by
      rw [mantissaLen_other isdigit _ c t hdw h3, htw]
      rfl
    unfold decimalLen
    simp only [hm, if_true]

theorem head_of_map_toLower (r : Str) (p : Char) (ps : Str)
    (h : r.map Char.toLower = p :: ps) : ∃ c t, r = c :: t ∧ tolower c = p := by
  cases r with
  | nil => exact absurd h (by simp)
  | cons c t =>
    rw [List.map_cons] at h
    exact ⟨c, t, rfl, by rw [tolower_eq_toLower]; exact (List.cons.inj h).1⟩

theorem lens_zero_of_letter (r : Str) (p : Char) (hp : 97 ≤ p.toNat ∧ p.toNat ≤ 122)
    (h : ∃ c t, r = c :: t ∧ tolower c = p) : hexLen r = 0 ∧ decimalLen r = 0 := by
  obtain ⟨c, t, hr, hc⟩ := h
  rw [hr]
  have hcn : 65 ≤ c.toNat := by
    rcases (tolower_eq_iff c p hp).mp hc with h | h
    · rw [h]; omega
    · have := congrArg Char.toNat h
      rw [charByte _ (by omega)] at this
      omega
  apply lens_zero_of_head
  · intro he; rw [he] at hcn; revert hcn; decide
  · unfold isdigit
    simp
    omega
  · intro he; rw [he] at hcn; revert hcn; decide

theorem infLen_of_nan_head (r : Str) (h : ∃ c t, r = c :: t ∧ tolower c = 'n') :
    infLen r = 0 := by
  obtain ⟨c, t, hr, hc⟩ := h
  rw [hr]
  unfold infLen
  have h8 : ¬ (((c :: t).take 8).map tolower == "infinity".toList) = true := by
    rw [beq_iff_eq]
    intro he
    have := (List.cons.inj he).1
    rw [hc] at this
    revert this
    decide
  have h3 : ¬ (((c :: t).take 3).map tolower == "inf".toList) = true := by
    rw [beq_iff_eq]
    intro he
    have := (List.cons.inj he).1
    rw [hc] at this
    revert this
    decide
  rw [if_neg h8, if_neg h3]

theorem nan_head (r : Str) (h : isNanLiteral r) : ∃ c t, r = c :: t ∧ tolower c = 'n' := by
  rcases h with h | ⟨w, seq, hw, _, hr⟩
  · exact head_of_map_toLower r 'n' _ h
  · obtain ⟨c, t, hw', hc⟩ := head_of_map_toLower w 'n' _ hw
    exact ⟨c, t ++ '(' :: (seq ++ [')']), by rw [hr, hw']; rfl, hc⟩

theorem inf_head (r : Str) (h : isInfinityLiteral r) :
    ∃ c t, r = c :: t ∧ tolower c = 'i' := by
  rcases h with h | h
  · exact head_of_map_toLower r 'i' _ h
  · exact head_of_map_toLower r 'i' _ h

/-- The test of the classifier on the remainder holds exactly when the remainder is a
floating-point literal of the grammar. -/
theorem strtodTakesAll_iff (r : Str) : strtodTakesAll r = true ↔ isFloatLiteral r := by
  have hbase : strtodTakesAll r = true ↔ (r ≠ [] ∧ floatLiteralLen r = r.length) := by
    unfold strtodTakesAll
    cases r <;> simp
  rw [hbase]
  unfold isFloatLiteral
  constructor
  · rintro ⟨hne, h⟩
    unfold floatLiteralLen at h
    by_cases h1 : hexLen r ≠ 0
    · rw [if_pos h1] at h
      exact Or.inr (Or.inl ((hexLen_iff r).mp ⟨hne, h⟩))
    · rw [if_neg h1] at h
      by_cases h2 : decimalLen r ≠ 0
      · rw [if_pos h2] at h
        exact Or.inl ((decimalLen_iff r).mp ⟨hne, h⟩)
      · rw [if_neg h2] at h
        by_cases h3 : infLen r ≠ 0
        · rw [if_pos h3] at h
          exact Or.inr (Or.inr (Or.inl ((infLen_iff r).mp ⟨hne, h⟩)))
        · rw [if_neg h3] at h
          exact Or.inr (Or.inr (Or.inr ((nanLen_iff r).mp ⟨hne, h⟩)))
  · have hlen0 : ∀ n : Nat, r ≠ [] → n = r.length → n ≠ 0 := by
      intro n hne hn h0
      rw [h0] at hn
      exact hne (List.length_eq_zero.mp hn.symm)
    rintro (h | h | h | h)
    · obtain ⟨hne, hd⟩ := (decimalLen_iff r).mpr h
      refine ⟨hne, ?_⟩
      unfold floatLiteralLen
      rw [if_neg (by rw [hexLen_of_decimalFloat r h]; simp), if_pos (hlen0 _ hne hd)]
      exact hd
    · obtain ⟨hne, hd⟩ := (hexLen_iff r).mpr h
      refine ⟨hne, ?_⟩
      unfold floatLiteralLen
      rw [if_pos (hlen0 _ hne hd)]
      exact hd
    · obtain ⟨hne, hd⟩ := (infLen_iff r).mpr h
      obtain ⟨hz1, hz2⟩ := lens_zero_of_letter r 'i' (by decide) (inf_head r h)
      refine ⟨hne, ?_⟩
      unfold floatLiteralLen
      rw [if_neg (by rw [hz1]; simp), if_neg (by rw [hz2]; simp), if_pos (hlen0 _ hne hd)]
      exact hd
    · obtain ⟨hne, hd⟩ := (nanLen_iff r).mpr h
      obtain ⟨hz1, hz2⟩ := lens_zero_of_letter r 'n' (by decide) (nan_head r h)
      have hz3 := infLen_of_nan_head r (nan_head r h)
      refine ⟨hne, ?_⟩
      unfold floatLiteralLen
      rw [if_neg (by rw [hz1]; simp), if_neg (by rw [hz2]; simp),
        if_neg (by rw [hz3]; simp)]
      exact hd

theorem not_floatLiteral_minus (r : Str) : ¬ isFloatLiteral ('-' :: r) := by
  rw [← strtodTakesAll_iff]
  simp [strtodTakesAll, floatLiteralLen_minus]

/-- Claim C4. `Config::getTokenType` gives every token the class of the specification's
table, and no other: the empty token is UNKNOWN, and only the empty token is; a non-empty
token that does not start with `-` is VALUE; a token `-r` whose remainder `r` is, as a
whole, a floating-point literal of the grammar is VALUE; any other token that starts with
`--` is FLAG; any other token that starts with `-` is SHORTFLAG. -/
theorem getTokenType_table (token : Str) (ty : TokenType) :
    (specClassifies token ty ↔ Config.getTokenType token = ty)
      ∧ (Config.getTokenType token = TokenType.UNKNOWN ↔ token = []) := by
  have hV : ∀ r : Str, isFloatLiteral r →
      Config.getTokenType ('-' :: r) = TokenType.VALUE := by
    intro r h
    rw [getTokenType_minus, if_pos ((strtodTakesAll_iff r).mpr h)]
  have hF : ∀ r : Str, ¬ isFloatLiteral r → r.head? = some '-' →
      Config.getTokenType ('-' :: r) = TokenType.FLAG := by
    intro r h h2
    rw [getTokenType_minus, if_neg (fun h' => h ((strtodTakesAll_iff r).mp h')),
      if_pos (by rw [h2]; rfl)]
  have hS : ∀ r : Str, ¬ isFloatLiteral r → r.head? ≠ some '-' →
      Config.getTokenType ('-' :: r) = TokenType.SHORTFLAG := by
    intro r h h2
    rw [getTokenType_minus, if_neg (fun h' => h ((strtodTakesAll_iff r).mp h')),
      if_neg (by simpa using h2)]
  constructor
  · constructor
    · intro h
      cases h with
      | empty => rfl
      | plain c r hc => exact getTokenType_cons_ne c r hc
      | number r hr => exact hV r hr
      | long r hr => exact hF _ hr rfl
      | short r hr hh => exact hS r hr hh
    · intro h
      cases token with
      | nil =>
        rw [getTokenType_nil] at h
        rw [← h]
        exact specClassifies.empty
      | cons c r =>
        by_cases hc : c = '-'
        · subst hc
          by_cases hr : isFloatLiteral r
          · rw [hV r hr] at h
            rw [← h]
            exact specClassifies.number r hr
          · by_cases hh : r.head? = some '-'
            · rw [hF r hr hh] at h
              rw [← h]
              cases r with
              | nil => exact absurd hh (by simp)
              | cons d t =>
                have hd : d = '-' := by simpa using hh
                subst hd
                exact specClassifies.long t hr
            · rw [hS r hr hh] at h
              rw [← h]
              exact specClassifies.short r hr hh
        · rw [getTokenType_cons_ne c r hc] at h
          rw [← h]
          exact specClassifies.plain c r hc
  · cases token with
    | nil => simp [getTokenType_nil]
    | cons c r =>
      by_cases hc : c = '-'
      · subst hc
        by_cases hr : isFloatLiteral r
        · rw [hV r hr]; simp
        · by_cases hh : r.head? = some '-'
          · rw [hF r hr hh]; simp
          · rw [hS r hr hh]; simp
      · rw [getTokenType_cons_ne c r hc]
        simp

/-- Witness of `getTokenType_table`, the numeric override at work: `1e5`, `3.5` and
`0x1p-2` are floating-point literals of the grammar, so `-1e5`, `-3.5` and `-0x1p-2` are
VALUE; `x` is none, so `-x` is SHORTFLAG. -/
theorem getTokenType_table_witness :
    isFloatLiteral "1e5".toList ∧ isFloatLiteral "3.5".toList
      ∧ isFloatLiteral "0x1p-2".toList ∧ ¬ isFloatLiteral "x".toList
      ∧ Config.getTokenType "-1e5".toList = TokenType.VALUE
      ∧ Config.getTokenType "-3.5".toList = TokenType.VALUE
      ∧ Config.getTokenType "-0x1p-2".toList = TokenType.VALUE
      ∧ Config.getTokenType "-x".toList = TokenType.SHORTFLAG := by
  have h1 : isFloatLiteral "1e5".toList :=
    Or.inl ⟨"1".toList, "e5".toList, Or.inl ⟨by decide, by unfold isDecDigit; decide⟩,
      Or.inr ⟨'e', [], "5".toList, Or.inl rfl, Or.inl rfl, by decide,
        by unfold isDecDigit; decide, rfl⟩, rfl⟩
  have h2 : isFloatLiteral "3.5".toList :=
    Or.inl ⟨"3.5".toList, [], Or.inr ⟨"3".toList, "5".toList, by unfold isDecDigit; decide,
      by unfold isDecDigit; decide, Or.inl (by decide), rfl⟩, Or.inl rfl, rfl⟩
  have h3 : isFloatLiteral "0x1p-2".toList :=
    Or.inr (Or.inl ⟨'x', "1".toList, "p-2".toList, Or.inl rfl,
      Or.inl ⟨by decide, by unfold isHexDigit; decide⟩,
      Or.inr ⟨'p', ['-'], "2".toList, Or.inl rfl, Or.inr (Or.inr rfl), by decide,
        by unfold isDecDigit; decide, rfl⟩, rfl⟩)
  have h4 : ¬ isFloatLiteral "x".toList := by
    rw [← strtodTakesAll_iff]
    decide
  exact ⟨h1, h2, h3, h4,
    ((getTokenType_table _ _).1).mp (specClassifies.number _ h1),
    ((getTokenType_table _ _).1).mp (specClassifies.number _ h2),
    ((getTokenType_table _ _).1).mp (specClassifies.number _ h3),
    ((getTokenType_table _ _).1).mp (specClassifies.short _ h4 (by decide))⟩

end Miniconf
